import Mathlib

/-!
# Verification of the smart-music-map analysis core

A shallow embedding, in Lean 4, of the music-analysis engine of this
repository: the rule-based structural analyzer (`RuleEngine`), the tree
builder (`StructureAnalyzer`), the preference learner (`PreferenceManager` /
`VisualSchemeRecommender`) and the DTW aligner (`DTWAligner`).

Modelling conventions:
* JavaScript numbers are modelled by `ℚ` (durations, beats, confidences,
  similarities) and by `ℤ` (measure numbers, MIDI numbers, intervals);
  `Infinity` in the DTW cost matrix is modelled by `ℝ≥0∞`.
* JavaScript strings (pitch names, material labels, type tags) are `String`.
* `generateId` draws from `Math.random()`; it is modelled by an arbitrary
  stream `ids : ℕ → String` of identifier strings, sampled at the position
  of the record being created.  No analysis result other than the `id`
  fields themselves depends on that stream; this is proved below.
* Mutating passes of the source (e.g. `analyzePhraseMaterials`) are
  modelled as functions returning the rewritten list.
-/

namespace SMM

/-- Stream of generated identifiers (models `generateId` / `Math.random`). -/
def IdGen : Type := ℕ → String

/-- The JavaScript `x || d` idiom on integer-valued fields: `0` is falsy. -/
def orElseInt (x d : ℤ) : ℤ := if x = 0 then d else x

/-- The JavaScript `x || d` idiom on rational-valued fields: `0` is falsy. -/
def orElseRat (x d : ℚ) : ℚ := if x = 0 then d else x

/-- JavaScript `Math.trunc`-style truncation of a rational. -/
def jsTrunc (q : ℚ) : ℤ := if q < 0 then ⌈q⌉ else ⌊q⌋

/-- The JavaScript remainder operator `a % b` (sign follows the dividend). -/
def jsRem (a b : ℚ) : ℚ := a - b * (jsTrunc (a / b) : ℚ)

/-- JavaScript `Math.round` (half-way cases toward +∞). -/
def jsRound (q : ℚ) : ℤ := ⌊q + 1/2⌋

/-- First character of a string as a one-character string (`s.charAt(0)`;
empty result on the empty string). -/
def charAt0 (s : String) : String :=
  match s.toList with
  | [] => ""
  | c :: _ => String.singleton c

/-- `"'".repeat(n)` -/
def primes (n : ℕ) : String := String.mk (List.replicate n '\'')

/-- Stable insertion into an ascending list: the new element goes after all
elements with key ≤ its key (so sorting preserves the input order of equal
keys, as `Array.prototype.sort` does). -/
def stableInsert {α : Type} (key : α → ℤ) (a : α) : List α → List α
  | [] => [a]
  | b :: rest => if key b ≤ key a then b :: stableInsert key a rest else a :: b :: rest

/-- Stable ascending sort by an integer key (models
`.sort((a, b) => a - b)` and `.sort((a, b) => a.measureNumber - b.measureNumber)`). -/
def stableSortBy {α : Type} (key : α → ℤ) (l : List α) : List α :=
  l.foldl (fun acc a => stableInsert key a acc) []

/-! ## Notes and score data -/

/-- A note of the parsed score (`pitch = none` is a rest). -/
structure Note where
  pitch : Option String
  duration : ℚ
  measureNumber : ℤ
  beat : ℚ
  isRest : Bool
deriving DecidableEq, Inhabited

structure KeySignature where
  fifths : ℤ
  mode : String
deriving DecidableEq

structure TimeSignature where
  beats : ℕ
  beatType : ℕ
deriving DecidableEq

/-! ## Pitch and key utilities (`RuleEngine` constructor tables) -/

/-- `this.pitchClasses` of `RuleEngine`, in declaration order
(`Object.entries` iterates string keys in insertion order). -/
def pitchClassEntries : List (String × ℤ) :=
  [("C", 0), ("C#", 1), ("Db", 1), ("D", 2), ("D#", 3), ("Eb", 3),
   ("E", 4), ("Fb", 4), ("E#", 5), ("F", 5), ("F#", 6), ("Gb", 6),
   ("G", 7), ("G#", 8), ("Ab", 8), ("A", 9), ("A#", 10), ("Bb", 10),
   ("B", 11), ("Cb", 11), ("B#", 0)]

/-- Lookup in `this.pitchClasses` (`undefined` for unknown names). -/
def pitchClass (name : String) : Option ℤ :=
  (pitchClassEntries.find? (fun e => e.1 == name)).map (·.2)

/-- `pitch.replace(/[0-9]/g, '')` — strips decimal digits only. -/
def stripDigits (s : String) : String :=
  String.mk (s.toList.filter (fun c => !c.isDigit))

/-- Decimal value of a run of digit characters (the parse of the `\d+` group). -/
def digitsToNat (ds : List Char) : ℕ :=
  ds.foldl (fun n c => n * 10 + (c.toNat - '0'.toNat)) 0

/-- Attempt to match the regular expression `([A-G][#b]?)(-?\d+)` at the head
of a character list, honouring the greedy-then-backtrack semantics of the
optional accidental.  Returns the note name and the octave. -/
def matchPitchHere (cs : List Char) : Option (String × ℤ) :=
  match cs with
  | c :: rest =>
    if 'A' ≤ c ∧ c ≤ 'G' then
      let tryNum : List Char → Option ℤ := fun ds =>
        match ds with
        | '-' :: ds' =>
          if ds'.takeWhile Char.isDigit = [] then none
          else some (-(digitsToNat (ds'.takeWhile Char.isDigit) : ℤ))
        | _ =>
          if ds.takeWhile Char.isDigit = [] then none
          else some ((digitsToNat (ds.takeWhile Char.isDigit) : ℤ))
      match rest with
      | a :: rest' =>
        if a = '#' ∨ a = 'b' then
          match tryNum rest' with
          | some oct => some (String.mk [c, a], oct)
          | none =>
            match tryNum rest with
            | some oct => some (String.singleton c, oct)
            | none => none
        else
          match tryNum rest with
          | some oct => some (String.singleton c, oct)
          | none => none
      | [] => none
    else none
  | [] => none

/-- Scan for the first match of `([A-G][#b]?)(-?\d+)` (unanchored search,
as `String.prototype.match`). -/
def matchPitch (cs : List Char) : Option (String × ℤ) :=
  match cs with
  | [] => none
  | _ :: rest =>
    match matchPitchHere cs with
    | some r => some r
    | none => matchPitch rest

/-- `RuleEngine.pitchToMidi` — `60` for missing or unparseable input;
`pc + (octave + 1) * 12` otherwise (`pitchClasses[name] || 0`). -/
def pitchToMidi (pitch : Option String) : ℤ :=
  match pitch with
  | none => 60
  | some s =>
    match matchPitch s.toList with
    | none => 60
    | some (name, oct) => (pitchClass name).getD 0 + (oct + 1) * 12

/-- `RuleEngine.getTonicFromKey`. -/
def getTonicFromKey (ks : KeySignature) : String :=
  let fifths := ks.fifths
  let mode := ks.mode
  let majorKeys := ["C", "G", "D", "A", "E", "B", "F#", "C#"]
  let majorKeysFlat := ["C", "F", "Bb", "Eb", "Ab", "Db", "Gb", "Cb"]
  let tonic :=
    if 0 ≤ fifths then
      (majorKeys.get? (min fifths 7).toNat).getD "C"
    else
      (majorKeysFlat.get? (min (-fifths) 7).toNat).getD "C"
  if mode = "minor" then
    let tonicPc := (pitchClass tonic).getD 0
    let minorPc := (tonicPc + 9) % 12
    match pitchClassEntries.find? (fun e => e.2 == minorPc ∧ e.1.length ≤ 2) with
    | some e => e.1
    | none => tonic
  else tonic

/-- `RuleEngine.getScaleDegree` — scale degree in `{0..6}` or `-1`. -/
def getScaleDegree (pitch : Option String) (tonic : String) : ℤ :=
  match pitch with
  | none => -1
  | some p =>
    let pitchName := stripDigits p
    let tonicPc := (pitchClass tonic).getD 0
    match pitchClass pitchName with
    | none => -1
    | some pitchPc =>
      let interval := (pitchPc - tonicPc + 12) % 12
      if interval = 0 then 0
      else if interval = 2 then 1
      else if interval = 4 then 2
      else if interval = 5 then 3
      else if interval = 7 then 4
      else if interval = 9 then 5
      else if interval = 11 then 6
      else -1

/-! ## Grouping helpers -/

/-- The key under which `groupNotesByMeasure` files a note
(`note.measureNumber || 1`). -/
def measureKey (n : Note) : ℤ := orElseInt n.measureNumber 1

/-- The ascending list of distinct measure numbers present in the notes
(`Object.keys(groups).map(Number).sort((a, b) => a - b)`). -/
def measureNumbersOf (notes : List Note) : List ℤ :=
  stableSortBy id ((notes.map measureKey).dedup)

/-- The notes filed under one measure, in input order. -/
def notesOfMeasure (notes : List Note) (m : ℤ) : List Note :=
  notes.filter (fun n => measureKey n == m)

/-- `RuleEngine.groupNotesByMeasure`, as the list of
`(measure, notes of that measure)` pairs in ascending measure order. -/
def groupNotesByMeasure (notes : List Note) : List (ℤ × List Note) :=
  (measureNumbersOf notes).map (fun m => (m, notesOfMeasure notes m))

/-- `RuleEngine.getNotesInRange`. -/
def getNotesInRange (notes : List Note) (startMeasure endMeasure : ℤ) : List Note :=
  notes.filter (fun n => startMeasure ≤ n.measureNumber ∧ n.measureNumber ≤ endMeasure)

/-- `RuleEngine.getLowestNote` — keeps the first note attaining the minimal
MIDI value. -/
def getLowestNote (notes : List Note) : Option Note :=
  notes.foldl (fun lowest note =>
    match lowest with
    | none => some note
    | some l => if pitchToMidi note.pitch < pitchToMidi l.pitch then some note else some l)
    none

/-- `RuleEngine.getHighestNote` — keeps the first note attaining the maximal
MIDI value. -/
def getHighestNote (notes : List Note) : Option Note :=
  notes.foldl (fun highest note =>
    match highest with
    | none => some note
    | some h => if pitchToMidi h.pitch < pitchToMidi note.pitch then some note else some h)
    none

/-- `RuleEngine.assignMaterialLabel`. -/
def assignMaterialLabel (index : ℕ) : String :=
  let baseLabels := ["a", "b", "c", "d", "e", "f", "g", "h"]
  (baseLabels.get? (index % 8)).getD "" ++ primes (index / 8)

/-! ## Similarity kernels -/

/-- `RuleEngine.compareArrays` — positionwise matches (difference ≤ 1)
scaled by a length penalty; `0` on empty input. -/
def compareArrays (arr1 arr2 : List ℚ) : ℚ :=
  if arr1.length = 0 ∨ arr2.length = 0 then 0
  else
    let minLen := min arr1.length arr2.length
    let maxLen := max arr1.length arr2.length
    let matchCount := ((arr1.zip arr2).filter (fun p => |p.1 - p.2| ≤ 1)).length
    let lengthPenalty : ℚ := 1 - ((maxLen : ℚ) - minLen) / maxLen
    ((matchCount : ℚ) / minLen) * lengthPenalty

/-- `RuleEngine.extractIntervalPattern` — signed semitone steps. -/
def extractIntervalPattern (notes : List Note) : List ℤ :=
  (notes.zip notes.tail).map (fun p => pitchToMidi p.2.pitch - pitchToMidi p.1.pitch)

/-- `RuleEngine.extractRhythmPattern` (`n.duration || 1`). -/
def extractRhythmPattern (notes : List Note) : List ℚ :=
  notes.map (fun n => orElseRat n.duration 1)

/-- `RuleEngine.extractContour`. -/
def extractContour (notes : List Note) : String :=
  if notes.length < 2 then "static"
  else
    let firstMidi := pitchToMidi ((notes.get? 0).bind Note.pitch)
    let lastMidi := pitchToMidi ((notes.get? (notes.length - 1)).bind Note.pitch)
    let diff := lastMidi - firstMidi
    if 2 < diff then "ascending"
    else if diff < -2 then "descending"
    else "static"

/-- `RuleEngine.detectTransposition` — rounded difference of mean MIDI. -/
def detectTransposition (notes1 notes2 : List Note) : ℤ :=
  if notes1.length = 0 ∨ notes2.length = 0 then 0
  else
    let midi1 := notes1.map (fun n => (pitchToMidi n.pitch : ℚ))
    let midi2 := notes2.map (fun n => (pitchToMidi n.pitch : ℚ))
    let avg1 := midi1.sum / midi1.length
    let avg2 := midi2.sum / midi2.length
    jsRound (avg2 - avg1)

/-- `RuleEngine.isInversion`. -/
def isInversion (intervals1 intervals2 : List ℤ) : Bool :=
  if intervals1.length ≠ intervals2.length then false
  else
    let matchCount := ((intervals1.zip intervals2).filter
      (fun p => |p.1 + p.2| ≤ 1)).length
    decide ((1 : ℚ) * matchCount / intervals1.length > 4/5)

/-- `RuleEngine.calculateMelodicSimilarity` —
`0.6·intervalSim + 0.4·rhythmSim`, `0` on empty input. -/
def calculateMelodicSimilarity (notes1 notes2 : List Note) : ℚ :=
  if notes1.length = 0 ∨ notes2.length = 0 then 0
  else
    let intervalSim := compareArrays
      ((extractIntervalPattern notes1).map (fun i => (i : ℚ)))
      ((extractIntervalPattern notes2).map (fun i => (i : ℚ)))
    let rhythmSim := compareArrays (extractRhythmPattern notes1) (extractRhythmPattern notes2)
    intervalSim * (3/5) + rhythmSim * (2/5)

/-! ## Cadence detection -/

structure Cadence where
  id : String
  measureNumber : ℤ
  beat : ℚ
  type : String
  strength : String
  confidence : ℚ
deriving DecidableEq, Inhabited

/-- `RuleEngine.classifyCadence` — the rule cascade, checked top-down.
The generated identifier is supplied by the caller (models `generateId()`). -/
def classifyCadence (id : String) (prevDegree currDegree melodyDegree : ℤ)
    (measureNumber : ℤ) (mode : String) : Option Cadence :=
  if prevDegree = 4 ∧ currDegree = 0 then
    let isPerfect := melodyDegree = 0
    some { id, measureNumber, beat := 0,
           type := if isPerfect then "perfect_authentic" else "imperfect_authentic",
           strength := if isPerfect then "strong" else "moderate",
           confidence := if isPerfect then 19/20 else 4/5 }
  else if (prevDegree = 4 ∨ prevDegree = 6) ∧ currDegree = 0 ∧ melodyDegree ≠ 0 then
    some { id, measureNumber, beat := 0, type := "imperfect_authentic",
           strength := "moderate", confidence := 3/4 }
  else if currDegree = 4 then
    some { id, measureNumber, beat := 0, type := "half",
           strength := "weak", confidence := 4/5 }
  else if prevDegree = 4 ∧ currDegree = 5 then
    some { id, measureNumber, beat := 0, type := "deceptive",
           strength := "moderate", confidence := 17/20 }
  else if prevDegree = 3 ∧ currDegree = 0 then
    some { id, measureNumber, beat := 0, type := "plagal",
           strength := "moderate", confidence := 3/4 }
  else if mode = "minor" ∧ prevDegree = 3 ∧ currDegree = 4 then
    some { id, measureNumber, beat := 0, type := "phrygian",
           strength := "weak", confidence := 7/10 }
  else none

/-- `RuleEngine.detectCadences` — walks adjacent pairs of occupied measures. -/
def detectCadences (ids : IdGen) (notes : List Note) (ks : KeySignature) : List Cadence :=
  let tonicPitch := getTonicFromKey ks
  let mode := if ks.mode = "" then "major" else ks.mode
  let groups := groupNotesByMeasure notes
  let pairs := (groups.zip groups.tail).enum
  pairs.foldl (fun cadences p =>
    let i := p.1
    let prevMeasure := p.2.1.2
    let currMeasure := p.2.2.2
    match getLowestNote prevMeasure, getLowestNote currMeasure with
    | some prevBass, some currBass =>
      let currMelody := getHighestNote currMeasure
      let prevBassDegree := getScaleDegree prevBass.pitch tonicPitch
      let currBassDegree := getScaleDegree currBass.pitch tonicPitch
      let currMelodyDegree :=
        match currMelody with
        | some mel => getScaleDegree mel.pitch tonicPitch
        | none => -1
      match classifyCadence (ids i) prevBassDegree currBassDegree currMelodyDegree
              p.2.2.1 mode with
      | some cadence => cadences ++ [cadence]
      | none => cadences
    | _, _ => cadences) []

/-- `RuleEngine.getCadenceStrength` — `0` for a missing cadence, table value
or `0.3` otherwise. -/
def getCadenceStrength (cadence : Option Cadence) : ℚ :=
  match cadence with
  | none => 0
  | some c =>
    if c.type = "perfect_authentic" then 1
    else if c.type = "imperfect_authentic" then 4/5
    else if c.type = "plagal" then 7/10
    else if c.type = "deceptive" then 1/2
    else if c.type = "half" then 2/5
    else if c.type = "phrygian" then 3/10
    else 3/10


/-! ## Motive detection -/

/-- Relationship record attached to a motive by `labelMotiveRelationships`. -/
structure MotiveRel where
  type : String
  confidence : ℚ
  transposition : Option ℤ
deriving DecidableEq, Inhabited

structure Motive where
  id : String
  index : ℕ
  notes : List Note
  measureNumber : ℤ
  startBeat : ℕ
  intervalPattern : List ℤ
  rhythmPattern : List ℚ
  contour : String
  relationship : Option MotiveRel
  relatedTo : Option String
deriving DecidableEq, Inhabited

/-- `RuleEngine.groupNotesByBeat` — bucket of notes whose
`Math.floor(beat % beatsPerMeasure)` equals `k`. -/
def groupNotesByBeat (notes : List Note) (beatsPerMeasure : ℕ) (k : ℕ) : List Note :=
  notes.filter (fun n => ⌊jsRem n.beat (beatsPerMeasure : ℚ)⌋ == (k : ℤ))

/-- `l.slice(0, e)` with JavaScript negative-index semantics. -/
def jsSliceTo {α : Type} (l : List α) (e : ℤ) : List α :=
  if e < 0 then l.take ((l.length : ℤ) + e).toNat else l.take e.toNat

/-- `RuleEngine.isFragmentation`. -/
def isFragmentation (motive1 motive2 : Motive) : Bool :=
  let len1 := motive1.notes.length
  let len2 := motive2.notes.length
  if (len2 : ℚ) ≥ (len1 : ℚ) * (4/5) then false
  else
    let intervals1 := jsSliceTo motive1.intervalPattern ((len2 : ℤ) - 1)
    let intervals2 := motive2.intervalPattern
    decide (compareArrays (intervals1.map (fun i => (i : ℚ)))
      (intervals2.map (fun i => (i : ℚ))) > 7/10)

/-- `RuleEngine.analyzeMotiveRelationship` — first-matching classification. -/
def analyzeMotiveRelationship (motive1 motive2 : Motive) : MotiveRel :=
  let intervalSim := compareArrays (motive1.intervalPattern.map (fun i => (i : ℚ)))
    (motive2.intervalPattern.map (fun i => (i : ℚ)))
  let rhythmSim := compareArrays motive1.rhythmPattern motive2.rhythmPattern
  if intervalSim > 9/10 ∧ rhythmSim > 9/10 then
    { type := "repetition", confidence := 19/20, transposition := none }
  else if intervalSim > 4/5 ∧ rhythmSim > 7/10 ∧
      detectTransposition motive1.notes motive2.notes ≠ 0 then
    { type := "sequence", confidence := 17/20,
      transposition := some (detectTransposition motive1.notes motive2.notes) }
  else if rhythmSim > 4/5 ∧ intervalSim < 1/2 then
    { type := "variation", confidence := 7/10, transposition := none }
  else if isFragmentation motive1 motive2 then
    { type := "fragmentation", confidence := 3/4, transposition := none }
  else if isInversion motive1.intervalPattern motive2.intervalPattern then
    { type := "inversion", confidence := 4/5, transposition := none }
  else
    { type := "new", confidence := 3/5, transposition := none }

/-- `RuleEngine.labelMotiveRelationships` — each motive after the first is
labelled with its relationship to its (original) predecessor. -/
def labelMotiveRelationships (motives : List Motive) : List Motive :=
  match motives with
  | [] => []
  | m0 :: _ =>
    m0 :: (motives.zip motives.tail).map (fun p =>
      let rel := analyzeMotiveRelationship p.1 p.2
      { p.2 with
        relationship := some rel
        relatedTo := if rel.type ≠ "new" then some p.1.id else none })

/-- Build a motive record (`detectMotives` push sites). -/
def mkMotive (ids : IdGen) (idx : ℕ) (measureNum : ℤ) (startBeat : ℕ)
    (ns : List Note) : Motive :=
  { id := ids idx, index := idx, notes := ns, measureNumber := measureNum,
    startBeat := startBeat,
    intervalPattern := extractIntervalPattern ns,
    rhythmPattern := extractRhythmPattern ns,
    contour := extractContour ns,
    relationship := none, relatedTo := none }

/-- State of the inner beat loop of `detectMotives`. -/
structure MotiveLoopState where
  motives : List Motive
  motiveIndex : ℕ
  currentMotive : List Note
  motiveStartBeat : ℕ

/-- One step of the beat loop of `detectMotives`. -/
def motiveBeatStep (ids : IdGen) (beatsPerMeasure : ℕ) (measureNum : ℤ)
    (measureNotes : List Note) (st : MotiveLoopState) (beat : ℕ) : MotiveLoopState :=
  let beatNotes := groupNotesByBeat measureNotes beatsPerMeasure beat
  let isStrongBeat := beat = 0 ∨ (beatsPerMeasure = 4 ∧ beat = 2)
  let st :=
    if isStrongBeat ∧ st.currentMotive.length > 0 then
      let st :=
        if st.currentMotive.length ≥ 2 then
          { st with
            motives := st.motives ++
              [mkMotive ids st.motiveIndex measureNum st.motiveStartBeat st.currentMotive],
            motiveIndex := st.motiveIndex + 1 }
        else st
      { st with currentMotive := [], motiveStartBeat := beat }
    else st
  { st with currentMotive := st.currentMotive ++ beatNotes }

/-- One measure group of the outer loop of `detectMotives`. -/
def motiveMeasureStep (ids : IdGen) (beatsPerMeasure : ℕ)
    (st : MotiveLoopState) (g : ℤ × List Note) : MotiveLoopState :=
  if g.2.length = 0 then st
  else
    let st := { st with currentMotive := [], motiveStartBeat := 0 }
    let st := (List.range beatsPerMeasure).foldl
      (motiveBeatStep ids beatsPerMeasure g.1 g.2) st
    if st.currentMotive.length ≥ 2 then
      { st with
        motives := st.motives ++
          [mkMotive ids st.motiveIndex g.1 st.motiveStartBeat st.currentMotive],
        motiveIndex := st.motiveIndex + 1 }
    else st

/-- `RuleEngine.detectMotives`. -/
def detectMotives (ids : IdGen) (notes : List Note) (ts : TimeSignature) : List Motive :=
  if notes.length < 2 then []
  else
    let st := (groupNotesByMeasure notes).foldl (motiveMeasureStep ids ts.beats)
      ⟨[], 0, [], 0⟩
    labelMotiveRelationships st.motives

/-! ## Sub-phrase detection -/

structure SubPhrase where
  id : String
  index : ℕ
  startMeasure : ℤ
  endMeasure : ℤ
  startBeat : ℚ
  endBeat : ℚ
  notes : List Note
  motives : List Motive
  material : String
  similarTo : Option String
  similarity : Option ℚ
deriving DecidableEq, Inhabited

/-- `RuleEngine.hasRhythmicBreak` — long note or rest strictly inside. -/
def hasRhythmicBreak (notes : List Note) : Bool :=
  if notes.length < 4 then false
  else ((notes.drop 1).dropLast).any (fun n => n.duration ≥ 2 ∨ n.isRest)

/-- `RuleEngine.getMotivesInRange`. -/
def getMotivesInRange (motives : List Motive) (measureNum : ℤ)
    (startBeat endBeat : ℕ) : List Motive :=
  motives.filter (fun m =>
    m.measureNumber == measureNum ∧ startBeat ≤ m.startBeat ∧ m.startBeat < endBeat)

/-- `RuleEngine.calculateSubPhraseSimilarity`. -/
def calculateSubPhraseSimilarity (sp1 sp2 : SubPhrase) : ℚ :=
  if sp1.notes.length = 0 ∨ sp2.notes.length = 0 then 0
  else
    let intervalSim := compareArrays
      ((extractIntervalPattern sp1.notes).map (fun i => (i : ℚ)))
      ((extractIntervalPattern sp2.notes).map (fun i => (i : ℚ)))
    let rhythmSim := compareArrays (extractRhythmPattern sp1.notes)
      (extractRhythmPattern sp2.notes)
    intervalSim * (3/5) + rhythmSim * (2/5)

/-- `RuleEngine.analyzeSubPhraseMaterials` — greedy relabelling against the
already-relabelled prefix. -/
def analyzeSubPhraseMaterialsGo (acc : List SubPhrase) (materialIndex : ℕ) :
    List SubPhrase → List SubPhrase
  | [] => acc
  | sp :: rest =>
    match acc.find? (fun prevSp => calculateSubPhraseSimilarity sp prevSp > 1/2) with
    | some prevSp =>
      let similarity := calculateSubPhraseSimilarity sp prevSp
      let sp' :=
        if similarity > 4/5 then
          { sp with material := prevSp.material ++ "'",
                    similarTo := some prevSp.id, similarity := some similarity }
        else
          { sp with material := prevSp.material ++ "v",
                    similarTo := some prevSp.id, similarity := some similarity }
      analyzeSubPhraseMaterialsGo (acc ++ [sp']) materialIndex rest
    | none =>
      let sp' := { sp with material := String.singleton (Char.ofNat (97 + materialIndex)) }
      analyzeSubPhraseMaterialsGo (acc ++ [sp']) (min (materialIndex + 1) 25) rest

def analyzeSubPhraseMaterials (sps : List SubPhrase) : List SubPhrase :=
  analyzeSubPhraseMaterialsGo [] 0 sps

/-- One measure group of the loop of `detectSubPhrases`. -/
def subPhraseMeasureStep (ids : IdGen) (motives : List Motive)
    (st : List SubPhrase × ℕ) (g : ℤ × List Note) : List SubPhrase × ℕ :=
  let measureNum := g.1
  let measureNotes := g.2
  let hasInternalBreak := hasRhythmicBreak measureNotes
  if hasInternalBreak ∧ measureNotes.length > 4 then
    let midPoint := measureNotes.length / 2
    let sp1 : SubPhrase :=
      { id := ids st.2, index := st.2, startMeasure := measureNum,
        endMeasure := measureNum, startBeat := 0, endBeat := 2,
        notes := measureNotes.take midPoint,
        motives := getMotivesInRange motives measureNum 0 2,
        material := assignMaterialLabel st.2,
        similarTo := none, similarity := none }
    let sp2 : SubPhrase :=
      { id := ids (st.2 + 1), index := st.2 + 1, startMeasure := measureNum,
        endMeasure := measureNum, startBeat := 2, endBeat := 4,
        notes := measureNotes.drop midPoint,
        motives := getMotivesInRange motives measureNum 2 4,
        material := assignMaterialLabel (st.2 + 1),
        similarTo := none, similarity := none }
    (st.1 ++ [sp1, sp2], st.2 + 2)
  else
    let sp : SubPhrase :=
      { id := ids st.2, index := st.2, startMeasure := measureNum,
        endMeasure := measureNum, startBeat := 0, endBeat := 4,
        notes := measureNotes,
        motives := getMotivesInRange motives measureNum 0 4,
        material := assignMaterialLabel st.2,
        similarTo := none, similarity := none }
    (st.1 ++ [sp], st.2 + 1)

/-- `RuleEngine.detectSubPhrases`. -/
def detectSubPhrases (ids : IdGen) (notes : List Note) (motives : List Motive) :
    List SubPhrase :=
  let st := (groupNotesByMeasure notes).foldl (subPhraseMeasureStep ids motives)
    (([] : List SubPhrase), 0)
  analyzeSubPhraseMaterials st.1


/-! ## Phrase detection -/

structure Phrase where
  id : String
  index : ℕ
  startMeasure : ℤ
  endMeasure : ℤ
  length : ℤ
  cadence : Option Cadence
  notes : List Note
  subPhrases : List SubPhrase
  material : String
  closure : String
  relationship : Option String
  headSimilarity : Option ℚ
deriving DecidableEq, Inhabited

/-- `l.slice(-k)` — the last `k` elements, the whole list when `k = 0`
(JavaScript `-0` is `0`) or `k ≥ l.length`. -/
def jsSliceLast {α : Type} (l : List α) (k : ℕ) : List α :=
  if k = 0 then l else l.drop (l.length - k)

/-- `RuleEngine.comparePhraseHeads`. -/
def comparePhraseHeads (phrase1 phrase2 : Phrase) : ℚ :=
  let headLength := min (min ((phrase1.notes.length + 1) / 2)
    ((phrase2.notes.length + 1) / 2)) 8
  calculateMelodicSimilarity (phrase1.notes.take headLength) (phrase2.notes.take headLength)

/-- `RuleEngine.comparePhraseTails`. -/
def comparePhraseTails (phrase1 phrase2 : Phrase) : ℚ :=
  let tailLength := min (min ((phrase1.notes.length + 1) / 2)
    ((phrase2.notes.length + 1) / 2)) 8
  calculateMelodicSimilarity (jsSliceLast phrase1.notes tailLength)
    (jsSliceLast phrase2.notes tailLength)

/-- `RuleEngine.analyzePhraseMaterials` — rewrites material/relationship of
each phrase after the first, comparing with its already-rewritten
predecessor. -/
def analyzePhraseMaterialsGo (acc : List Phrase) : List Phrase → List Phrase
  | [] => acc
  | curr :: rest =>
    match acc.getLast? with
    | none => analyzePhraseMaterialsGo (acc ++ [curr]) rest
    | some prev =>
      let headSimilarity := comparePhraseHeads prev curr
      let tailSimilarity := comparePhraseTails prev curr
      let curr' :=
        if headSimilarity > 7/10 ∧ tailSimilarity < 1/2 then
          { curr with material := prev.material ++ "'",
                      relationship := some "parallel",
                      headSimilarity := some headSimilarity }
        else if headSimilarity > 7/10 ∧ tailSimilarity > 7/10 then
          { curr with material := prev.material ++ "r",
                      relationship := some "repetition" }
        else if headSimilarity < 3/10 then
          { curr with relationship := some "contrasting" }
        else
          { curr with relationship := some "development" }
      analyzePhraseMaterialsGo (acc ++ [curr']) rest

def analyzePhraseMaterials (phrases : List Phrase) : List Phrase :=
  analyzePhraseMaterialsGo [] phrases

/-- State of the cadence walk in `detectPhrases`:
accumulated phrases, current phrase start, next phrase index. -/
structure PhraseLoopState where
  phrases : List Phrase
  phraseStart : ℤ
  phraseIndex : ℕ

/-- One step of the cadence walk of `detectPhrases`. -/
def phraseCadenceStep (ids : IdGen) (notes : List Note) (subPhrases : List SubPhrase)
    (st : PhraseLoopState) (cadence : Cadence) : PhraseLoopState :=
  let phraseEnd := cadence.measureNumber
  let phraseLength := phraseEnd - st.phraseStart + 1
  if 2 ≤ phraseLength ∧ phraseLength ≤ 12 then
    let phrase : Phrase :=
      { id := ids st.phraseIndex, index := st.phraseIndex,
        startMeasure := st.phraseStart, endMeasure := phraseEnd,
        length := phraseLength, cadence := some cadence,
        notes := getNotesInRange notes st.phraseStart phraseEnd,
        subPhrases := subPhrases.filter (fun sp =>
          sp.startMeasure ≥ st.phraseStart ∧ sp.endMeasure ≤ phraseEnd),
        material := assignMaterialLabel st.phraseIndex,
        closure := if getCadenceStrength (some cadence) > 7/10 then "closed" else "open",
        relationship := none, headSimilarity := none }
    { phrases := st.phrases ++ [phrase], phraseStart := phraseEnd + 1,
      phraseIndex := st.phraseIndex + 1 }
  else if phraseLength > 12 then
    let midPoint := st.phraseStart + phraseLength / 2
    let firstHalf : Phrase :=
      { id := ids st.phraseIndex, index := st.phraseIndex,
        startMeasure := st.phraseStart, endMeasure := midPoint,
        length := midPoint - st.phraseStart + 1, cadence := none,
        notes := getNotesInRange notes st.phraseStart midPoint,
        subPhrases := subPhrases.filter (fun sp =>
          sp.startMeasure ≥ st.phraseStart ∧ sp.endMeasure ≤ midPoint),
        material := assignMaterialLabel st.phraseIndex,
        closure := "open", relationship := none, headSimilarity := none }
    let secondHalf : Phrase :=
      { id := ids (st.phraseIndex + 1), index := st.phraseIndex + 1,
        startMeasure := midPoint + 1, endMeasure := phraseEnd,
        length := phraseEnd - midPoint, cadence := some cadence,
        notes := getNotesInRange notes (midPoint + 1) phraseEnd,
        subPhrases := subPhrases.filter (fun sp =>
          sp.startMeasure > midPoint ∧ sp.endMeasure ≤ phraseEnd),
        material := assignMaterialLabel (st.phraseIndex + 1),
        closure := if getCadenceStrength (some cadence) > 7/10 then "closed" else "open",
        relationship := none, headSimilarity := none }
    { phrases := st.phrases ++ [firstHalf, secondHalf], phraseStart := phraseEnd + 1,
      phraseIndex := st.phraseIndex + 2 }
  else st

/-- `RuleEngine.detectPhrases`. -/
def detectPhrases (ids : IdGen) (notes : List Note) (cadences : List Cadence)
    (subPhrases : List SubPhrase) : List Phrase :=
  let measureNumbers := measureNumbersOf notes
  match measureNumbers with
  | [] => []
  | m0 :: _ =>
    let sortedCadences := stableSortBy Cadence.measureNumber cadences
    let st := sortedCadences.foldl (phraseCadenceStep ids notes subPhrases)
      ⟨[], m0, 0⟩
    let lastMeasure := (measureNumbers.getLast?).getD 0
    let phrases :=
      if st.phraseStart ≤ lastMeasure ∧ 2 ≤ lastMeasure - st.phraseStart + 1 then
        st.phrases ++
          [{ id := ids st.phraseIndex, index := st.phraseIndex,
             startMeasure := st.phraseStart, endMeasure := lastMeasure,
             length := lastMeasure - st.phraseStart + 1, cadence := none,
             notes := getNotesInRange notes st.phraseStart lastMeasure,
             subPhrases := subPhrases.filter (fun sp => sp.startMeasure ≥ st.phraseStart),
             material := assignMaterialLabel st.phraseIndex,
             closure := "open", relationship := none, headSimilarity := none }]
      else st.phrases
    analyzePhraseMaterials phrases


/-! ## Period detection -/

structure Period where
  id : String
  index : ℕ
  startMeasure : ℤ
  endMeasure : ℤ
  length : ℤ
  phrases : List Phrase
  phraseCount : ℕ
  type : String
  proportion : String
  closure : String
  material : String
  cadence : Option Cadence
deriving DecidableEq, Inhabited

/-- `RuleEngine.isSequentialRelation`. -/
def isSequentialRelation (phrase1 phrase2 : Phrase) : Bool :=
  if phrase1.notes.length = 0 ∨ phrase2.notes.length = 0 then false
  else
    let intervals1 := extractIntervalPattern (phrase1.notes.take 8)
    let intervals2 := extractIntervalPattern (phrase2.notes.take 8)
    let intervalSim := compareArrays (intervals1.map (fun i => (i : ℚ)))
      (intervals2.map (fun i => (i : ℚ)))
    let transposition := detectTransposition phrase1.notes phrase2.notes
    decide (intervalSim > 7/10 ∧ 0 < |transposition|)

/-- `RuleEngine.classifyProportion`. -/
def classifyProportion (phrases : List Phrase) : String :=
  if phrases.length < 2 then "non_square"
  else
    let lengths := phrases.map Phrase.length
    let l0 := lengths.headI
    if !(lengths.all (fun l => l == l0)) then "non_square"
    else
      let isPowerOf2 := Nat.land l0.toNat (l0.toNat - 1) = 0 ∧ 4 ≤ l0
      if isPowerOf2 then "square" else "regular"

/-- `RuleEngine.derivePeriodMaterial`. -/
def derivePeriodMaterial (phrases : List Phrase) : String :=
  if phrases.length = 0 then "a"
  else
    let materials := phrases.map (fun p => charAt0 p.material)
    if materials.dedup.length = 1 then materials.headI
    else String.intercalate "+" materials

/-- `RuleEngine.classifyPeriodType`. -/
def classifyPeriodType (phrases : List Phrase) : String :=
  let count := phrases.length
  if count = 1 then "parallel"
  else if count = 2 then
    let p1 := phrases.headI
    let p2 := (phrases.get? 1).getD p1
    if p2.relationship = some "parallel" ∨
        p2.headSimilarity.any (fun h => decide (7/10 < h)) = true then "parallel"
    else if isSequentialRelation p1 p2 then "sequential"
    else "contrasting"
  else if count = 3 then "three_phrase"
  else if count = 4 then "four_phrase"
  else "compound"

/-- `RuleEngine.isNewSection`. -/
def isNewSection (currentPhrase nextPhrase : Phrase) : Bool :=
  let hasStrongCadence := getCadenceStrength currentPhrase.cadence ≥ 4/5
  let headSimilarity := comparePhraseHeads currentPhrase nextPhrase
  hasStrongCadence ∧ decide (headSimilarity < 3/10)

/-- `RuleEngine.createPeriod` (always called on a non-empty phrase list). -/
def createPeriod (id : String) (phrases : List Phrase) (index : ℕ) : Period :=
  let startMeasure := (phrases.head?.map Phrase.startMeasure).getD 0
  let endMeasure := (phrases.getLast?.map Phrase.endMeasure).getD 0
  let lastCadence := phrases.getLast?.bind Phrase.cadence
  { id, index, startMeasure, endMeasure,
    length := endMeasure - startMeasure + 1,
    phrases, phraseCount := phrases.length,
    type := classifyPeriodType phrases,
    proportion := classifyProportion phrases,
    closure := if getCadenceStrength lastCadence ≥ 7/10 then "closed" else "open",
    material := derivePeriodMaterial phrases,
    cadence := lastCadence }

/-- One phrase of the grouping loop of `detectPeriods`. -/
def periodStep (ids : IdGen) (phrases : List Phrase)
    (st : List Period × ℕ × ℕ) (p : ℕ × Phrase) : List Period × ℕ × ℕ :=
  let i := p.1
  let phrase := p.2
  let cadenceStrength := getCadenceStrength phrase.cadence
  let isStrongCadence := cadenceStrength ≥ 7/10
  let phrasesInPeriod := i - st.2.1 + 1
  let shouldEndPeriod := (isStrongCadence ∧ 2 ≤ phrasesInPeriod) ∨
    4 ≤ phrasesInPeriod ∨
    (i < phrases.length - 1 ∧
      isNewSection phrase ((phrases.get? (i + 1)).getD phrase) = true)
  if shouldEndPeriod ∨ i = phrases.length - 1 then
    let periodPhrases := (phrases.take (i + 1)).drop st.2.1
    let period := createPeriod (ids st.2.2) periodPhrases st.2.2
    (st.1 ++ [period], (i + 1, st.2.2 + 1))
  else st

/-- `RuleEngine.detectPeriods` — greedy grouping of the phrase list. -/
def detectPeriods (ids : IdGen) (phrases : List Phrase) : List Period :=
  if phrases.length = 0 then []
  else ((phrases.enum).foldl (periodStep ids phrases)
    (([] : List Period), ((0 : ℕ), (0 : ℕ)))).1

/-! ## Compound periods -/

structure CompoundPeriod where
  id : String
  type : String
  periods : List Period
  startMeasure : ℤ
  endMeasure : ℤ
  structure_ : String
deriving DecidableEq

/-- `RuleEngine.comparePhraseHeads` on the first phrases of two periods
(`arePeriodsParallel`). -/
def arePeriodsParallel (period1 period2 : Period) : Bool :=
  if period1.phrases.length = 0 ∨ period2.phrases.length = 0 then false
  else
    let firstPhrase1 := period1.phrases.headI
    let firstPhrase2 := period2.phrases.headI
    let headSim := comparePhraseHeads firstPhrase1 firstPhrase2
    let cadence1Strength := getCadenceStrength period1.cadence
    let cadence2Strength := getCadenceStrength period2.cadence
    decide (headSim > 7/10 ∧ cadence1Strength < cadence2Strength)

/-- The loop of `RuleEngine.detectCompoundPeriods` (`i += 2`). -/
def detectCompoundPeriodsGo (ids : IdGen) (i : ℕ) : List Period → List CompoundPeriod
  | p1 :: p2 :: rest =>
    let tailResult := detectCompoundPeriodsGo ids (i + 2) rest
    if arePeriodsParallel p1 p2 then
      { id := ids i, type := "compound", periods := [p1, p2],
        startMeasure := p1.startMeasure, endMeasure := p2.endMeasure,
        structure_ := "AA'" } :: tailResult
    else tailResult
  | _ => []

/-- `RuleEngine.detectCompoundPeriods`. -/
def detectCompoundPeriods (ids : IdGen) (periods : List Period) : List CompoundPeriod :=
  detectCompoundPeriodsGo ids 0 periods

/-! ## Period-level similarity helpers -/

/-- `RuleEngine.calculatePeriodSimilarity`. -/
def calculatePeriodSimilarity (period1 period2 : Period) : ℚ :=
  if period1.phrases.length = 0 ∨ period2.phrases.length = 0 then 0
  else
    let notes1 := period1.phrases.flatMap Phrase.notes
    let notes2 := period2.phrases.flatMap Phrase.notes
    calculateMelodicSimilarity notes1 notes2

/-- `RuleEngine.compareRhythms`. -/
def compareRhythms (period1 period2 : Period) : ℚ :=
  let rhythm1 := period1.phrases.flatMap (fun p => extractRhythmPattern p.notes)
  let rhythm2 := period2.phrases.flatMap (fun p => extractRhythmPattern p.notes)
  compareArrays rhythm1 rhythm2

/-- `RuleEngine.hasRecapitulation` (head of the first period against the
last phrase of the second). -/
def hasRecapPair (period1 period2 : Period) : Bool :=
  match period2.phrases.getLast?, period1.phrases.head? with
  | some lastPhrase, some firstPhrase =>
    decide (comparePhraseHeads firstPhrase lastPhrase > 3/5)
  | _, _ => false


/-! ## Form detection -/

structure MiddleType where
  type : String
  description : String
  confidence : ℚ
deriving DecidableEq, Inhabited

structure InternalForm where
  type : String
  description : String
deriving DecidableEq, Inhabited

structure RecapClass where
  type : String
  description : String
deriving DecidableEq, Inhabited

structure VariationClass where
  type : String
  description : String
deriving DecidableEq, Inhabited

/-- `analyzeExposition` theme/transition slots. -/
structure ThemeSlot where
  period : Period
  startMeasure : ℤ
  endMeasure : ℤ
deriving DecidableEq

structure TransitionSlot where
  periods : List Period
  startMeasure : ℤ
  endMeasure : ℤ
deriving DecidableEq

/-- `analyzeExposition` result (the always-`null` `closingTheme` slot is
omitted). -/
structure ExpoComponents where
  primaryTheme : Option ThemeSlot
  transition : Option TransitionSlot
  secondaryTheme : Option ThemeSlot
deriving DecidableEq

structure RecapPrimary where
  period : Period
  similarity : ℚ
  isVaried : Bool
deriving DecidableEq

structure RecapSecondary where
  period : Period
  similarity : ℚ
  isInTonic : Bool
deriving DecidableEq

structure RecapComponents where
  primaryTheme : Option RecapPrimary
  secondaryTheme : Option RecapSecondary
  isComplete : Bool
  isVaried : Bool
deriving DecidableEq

/-- A form section.  Role-specific optional fields are `none` when the
constructing analyzer does not set them. -/
structure FormSection where
  id : String
  name : String
  type : String
  startMeasure : ℤ
  endMeasure : ℤ
  function : String
  periods : List Period
  middleType : Option MiddleType
  isRecurrence : Option Bool
  internalForm : Option InternalForm
  recapitulationType : Option RecapClass
  variationType : Option VariationClass
  expoComponents : Option ExpoComponents
  recapComponents : Option RecapComponents
deriving DecidableEq

/-- A plain section record with all optional fields unset. -/
def mkSection (id name type : String) (startMeasure endMeasure : ℤ)
    (function : String) (periods : List Period) : FormSection :=
  { id, name, type, startMeasure, endMeasure, function, periods,
    middleType := none, isRecurrence := none, internalForm := none,
    recapitulationType := none, variationType := none,
    expoComponents := none, recapComponents := none }

/-- Form-analysis result.  The fields referenced by the claims are kept
(`formType`, `sections`, `confidence`, `description`); auxiliary echo fields
of individual analyzers (`theme`, `variations`, `pattern`, counts) are
projected away. -/
structure FormAnalysis where
  formType : String
  sections : List FormSection
  confidence : ℚ
  description : Option String
deriving DecidableEq

/-- Material-distribution summary (`analyzeMaterialPattern`). -/
structure MaterialPattern where
  pattern : List String
  materials : List String
  counts : List (String × ℕ)
  mainMaterial : String
  uniqueCount : ℕ
  hasRecapitulation : Bool
deriving DecidableEq

/-- `RuleEngine.analyzeMaterialPattern`. -/
def analyzeMaterialPattern (periods : List Period) : MaterialPattern :=
  let materials := periods.map (fun p => charAt0 p.material)
  let counts := materials.dedup.map (fun m => (m, (materials.filter (· = m)).length))
  let mainMaterial :=
    match counts with
    | [] => "a"
    | c0 :: rest =>
      let best := rest.foldl (fun best e => if best.2 < e.2 then e else best) c0
      if best.1 = "" then "a" else best.1
  { pattern := materials, materials, counts, mainMaterial,
    uniqueCount := counts.length,
    hasRecapitulation := 3 ≤ materials.length ∧ materials.headI = materials.getLastI }

/-- `RuleEngine.analyzeOnePartForm`. -/
def analyzeOnePartForm (ids : IdGen) (periods : List Period) : FormAnalysis :=
  let period := periods.headI
  { formType := "one_part",
    sections := [mkSection (ids 0) "A" "period" period.startMeasure period.endMeasure
      "main" [period]],
    confidence := 9/10,
    description := some "one part form" }

/-- `RuleEngine.analyzeBinaryForm`. -/
def analyzeBinaryForm (ids : IdGen) (periods : List Period) : FormAnalysis :=
  let A := periods.headI
  let B := (periods.get? 1).getD A
  let hasRecap := hasRecapPair A B
  { formType := if hasRecap then "binary_rounded" else "binary_parallel",
    sections :=
      [mkSection (ids 0) "A" "period" A.startMeasure A.endMeasure "exposition" [A],
       mkSection (ids 1) (if hasRecap then "A'" else "B") "period"
         B.startMeasure B.endMeasure
         (if hasRecap then "recapitulation" else "contrast") [B]],
    confidence := 4/5,
    description := some (if hasRecap then "rounded binary" else "parallel binary") }

/-- `RuleEngine.classifyMiddleSection`. -/
def classifyMiddleSection (middlePeriod firstPeriod : Period) : MiddleType :=
  let materialSimilarity := calculatePeriodSimilarity middlePeriod firstPeriod
  let isKeyStable := middlePeriod.closure = "closed"
  let hasCompleteStructure := 2 ≤ middlePeriod.phraseCount
  if hasCompleteStructure ∧ isKeyStable then
    { type := "trio", description := "trio middle", confidence := 4/5 }
  else if materialSimilarity > 1/2 then
    { type := "development", description := "development middle", confidence := 3/4 }
  else
    { type := "episode", description := "episode middle", confidence := 7/10 }

/-- `RuleEngine.analyzeTernaryForm`. -/
def analyzeTernaryForm (ids : IdGen) (periods : List Period)
    (materialPattern : MaterialPattern) : FormAnalysis :=
  let A := periods.headI
  let B := (periods.get? 1).getD A
  let C := (periods.get? 2).getD A
  if materialPattern.hasRecapitulation then
    let middleType := classifyMiddleSection B A
    { formType := "ternary_simple",
      sections :=
        [mkSection (ids 0) "A" "period" A.startMeasure A.endMeasure "exposition" [A],
         { mkSection (ids 1) "B" middleType.type B.startMeasure B.endMeasure
             "middle" [B] with middleType := some middleType },
         mkSection (ids 2) "A'" "period" C.startMeasure C.endMeasure
           "recapitulation" [C]],
      confidence := 17/20,
      description := some "ternary ABA" }
  else
    { formType := "ternary_parallel",
      sections :=
        [mkSection (ids 0) "A" "period" A.startMeasure A.endMeasure "first_theme" [A],
         mkSection (ids 1) "B" "period" B.startMeasure B.endMeasure "second_theme" [B],
         mkSection (ids 2) "C" "period" C.startMeasure C.endMeasure "third_theme" [C]],
      confidence := 3/4,
      description := some "parallel ternary ABC" }

/-- `RuleEngine.analyzeInternalForm`. -/
def analyzeInternalForm (periods : List Period) : InternalForm :=
  if periods.length = 1 then { type := "period", description := "period" }
  else if periods.length = 2 then
    let hasRecap := arePeriodsParallel periods.headI ((periods.get? 1).getD periods.headI)
    if hasRecap then { type := "binary_rounded", description := "rounded binary" }
    else { type := "binary_parallel", description := "parallel binary" }
  else if periods.length = 3 then { type := "ternary", description := "ternary" }
  else { type := "complex", description := "complex" }

/-- `RuleEngine.classifyRecapitulation`. -/
def classifyRecapitulation (originalPeriods recapPeriods : List Period) : RecapClass :=
  if originalPeriods.length = 0 ∨ recapPeriods.length = 0 then
    { type := "unknown", description := "unknown" }
  else
    let originalLength := (originalPeriods.map Period.length).sum
    let recapLength := (recapPeriods.map Period.length).sum
    let lengthRatio : ℚ := (recapLength : ℚ) / (originalLength : ℚ)
    if 19/20 < lengthRatio ∧ lengthRatio < 21/20 then
      { type := "complete", description := "complete recapitulation" }
    else if lengthRatio < 7/10 then
      { type := "abbreviated", description := "abbreviated recapitulation" }
    else if 13/10 < lengthRatio then
      { type := "expanded", description := "expanded recapitulation" }
    else
      { type := "varied", description := "varied recapitulation" }

/-- `RuleEngine.createSections` (the `multi_part` fallback layout). -/
def createSections (ids : IdGen) (periods : List Period) : List FormSection :=
  periods.enum.map (fun p =>
    mkSection (ids p.1) (String.singleton (Char.ofNat (65 + p.1))) "period"
      p.2.startMeasure p.2.endMeasure
      (if p.1 = 0 then "main" else "secondary") [p.2])

/-- The section assembly of `analyzeCompoundTernaryForm`, for a computed
middle range. -/
def compoundTernaryBody (ids : IdGen) (periods : List Period)
    (middleStart middleEnd : ℕ) : FormAnalysis :=
  let aPeriods := periods.take middleStart
    let aSection : FormSection :=
      { mkSection (ids 0) "A" (if 1 < aPeriods.length then "section" else "period")
          ((aPeriods.head?.map Period.startMeasure).getD 0)
          ((aPeriods.getLast?.map Period.endMeasure).getD 0)
          "exposition" aPeriods with
        internalForm := some (analyzeInternalForm aPeriods) }
    let bPeriods := (periods.take (middleEnd + 1)).drop middleStart
    let bSections :=
      if 0 < bPeriods.length then
        let middleType := classifyMiddleSection bPeriods.headI aPeriods.headI
        [{ mkSection (ids 1) "B"
             (if 1 < bPeriods.length then "section" else middleType.type)
             ((bPeriods.head?.map Period.startMeasure).getD 0)
             ((bPeriods.getLast?.map Period.endMeasure).getD 0)
             "middle" bPeriods with
           middleType := some middleType,
           internalForm := some (analyzeInternalForm bPeriods) }]
      else []
    let aPrimePeriods := periods.drop (middleEnd + 1)
    let aPrimeSections :=
      if 0 < aPrimePeriods.length then
        [{ mkSection (ids 2) "A'"
             (if 1 < aPrimePeriods.length then "section" else "period")
             ((aPrimePeriods.head?.map Period.startMeasure).getD 0)
             ((aPrimePeriods.getLast?.map Period.endMeasure).getD 0)
             "recapitulation" aPrimePeriods with
           recapitulationType := some (classifyRecapitulation aPeriods aPrimePeriods) }]
      else []
    { formType := "ternary_compound",
      sections := [aSection] ++ bSections ++ aPrimeSections,
      confidence := 3/4,
      description := some "compound ternary" }

/-- `RuleEngine.analyzeCompoundTernaryForm`. -/
def analyzeCompoundTernaryForm (ids : IdGen) (periods : List Period)
    (materialPattern : MaterialPattern) : FormAnalysis :=
  if !materialPattern.hasRecapitulation then
    { formType := "multi_part", sections := createSections ids periods,
      confidence := 1/2, description := none }
  else
    let materials := materialPattern.materials
    let mainMaterial := materials.headI
    let firstDiffering := materials.enum.find? (fun p =>
      decide (1 ≤ p.1) && decide (p.2 ≠ mainMaterial))
    let middleStart :=
      match firstDiffering with
      | some p => p.1
      | none => 1
    let middleEnd :=
      match firstDiffering with
      | none => periods.length - 2
      | some q =>
        match materials.enum.find? (fun p =>
            decide (q.1 < p.1) && decide (p.2 = mainMaterial)) with
        | some p => p.1 - 1
        | none => periods.length - 2
    compoundTernaryBody ids periods middleStart middleEnd

/-- `RuleEngine.classifyVariationType`. -/
def classifyVariationType (theme variation : Period) : VariationClass :=
  let melodySim := calculateMelodicSimilarity
    ((theme.phrases.head?.map Phrase.notes).getD [])
    ((variation.phrases.head?.map Phrase.notes).getD [])
  let rhythmSim := compareRhythms theme variation
  if melodySim > 7/10 then { type := "ornamental", description := "ornamental variation" }
  else if rhythmSim > 7/10 then { type := "melodic", description := "melodic variation" }
  else { type := "character", description := "character variation" }

structure VariationEntry where
  index : ℕ
  period : Period
  similarity : ℚ
  variationType : VariationClass
deriving DecidableEq

/-- `RuleEngine.createVariationSections`. -/
def createVariationSections (ids : IdGen) (theme : Period)
    (variations : List VariationEntry) : List FormSection :=
  [mkSection (ids 0) "Theme" "theme" theme.startMeasure theme.endMeasure
    "theme" [theme]] ++
  variations.enum.map (fun p =>
    { mkSection (ids (p.1 + 1)) ("Var. " ++ toString (p.1 + 1)) "variation"
        p.2.period.startMeasure p.2.period.endMeasure "variation" [p.2.period] with
      variationType := some p.2.variationType })

/-- The list of variation entries collected by `detectVariationForm`. -/
def variationEntries (periods : List Period) : List VariationEntry :=
  match periods with
  | [] => []
  | theme :: rest =>
    (rest.enum.filter (fun p =>
      let similarity := calculatePeriodSimilarity p.2 theme
      decide (3/10 < similarity ∧ similarity < 9/10))).map (fun p =>
        { index := p.1 + 1, period := p.2,
          similarity := calculatePeriodSimilarity p.2 theme,
          variationType := classifyVariationType theme p.2 })

/-- `RuleEngine.detectVariationForm`. -/
def detectVariationForm (ids : IdGen) (periods : List Period) : FormAnalysis :=
  if periods.length < 3 then
    { formType := "variation", sections := [], confidence := 3/10, description := none }
  else
    let theme := periods.headI
    let variations := variationEntries periods
    let variationCount := variations.length
    let variationRatio : ℚ := (variationCount : ℚ) / ((periods.length : ℚ) - 1)
    if variationRatio > 3/5 then
      { formType := "variation",
        sections := createVariationSections ids theme variations,
        confidence := 7/10 + variationRatio * (1/5),
        description := some "variation form" }
    else
      { formType := "variation", sections := [], confidence := 3/10, description := none }

/-- One period of the section loop of `detectRondoForm`. -/
def rondoStep (ids : IdGen) (mainMaterial : String)
    (st : List FormSection × ℕ × ℕ) (p : Period × String) :
    List FormSection × ℕ × ℕ :=
  let period := p.1
  let material := p.2
  if material = mainMaterial then
    (st.1 ++ [{ mkSection (ids st.1.length)
        (if st.2.1 = 0 then "A (Main Theme)" else "A" ++ toString st.2.1)
        "refrain" period.startMeasure period.endMeasure "main_theme" [period] with
      isRecurrence := some (0 < st.2.1) }],
     (st.2.1 + 1, st.2.2))
  else
    let episodeIndex := st.2.2 + 1
    let episodeName := String.singleton (Char.ofNat (65 + episodeIndex))
    (st.1 ++ [mkSection (ids st.1.length)
        (episodeName ++ " (Episode " ++ toString episodeIndex ++ ")")
        "episode" period.startMeasure period.endMeasure "episode" [period]],
     (st.2.1, episodeIndex))

/-- `RuleEngine.detectRondoForm`. -/
def detectRondoForm (ids : IdGen) (periods : List Period)
    (materialPattern : MaterialPattern) : FormAnalysis :=
  let materials := materialPattern.materials
  let mainMaterial := materialPattern.mainMaterial
  let mainCount := ((materialPattern.counts.find? (fun e => e.1 = mainMaterial)).map
    (·.2)).getD 0
  if mainCount < 3 then
    { formType := "rondo", sections := [], confidence := 3/10, description := none }
  else
    let episodeMaterials := (materialPattern.counts.map (·.1)).filter (· ≠ mainMaterial)
    let episodeCount := episodeMaterials.length
    if episodeCount < 2 then
      { formType := "rondo", sections := [], confidence := 2/5, description := none }
    else
      let st := (periods.zip materials).foldl (rondoStep ids mainMaterial)
        (([] : List FormSection), ((0 : ℕ), (0 : ℕ)))
      { formType := "rondo", sections := st.1,
        confidence := min (9/10) (1/2 + mainCount * (1/10) + episodeCount * (1/10)),
        description := some "rondo form" }

/-- `RuleEngine.analyzeExposition`. -/
def analyzeExposition (periods : List Period) : ExpoComponents :=
  if periods.length = 0 then
    { primaryTheme := none, transition := none, secondaryTheme := none }
  else
    let primaryTheme :=
      periods.head?.map (fun p => ThemeSlot.mk p p.startMeasure p.endMeasure)
    let secondaryTheme :=
      if 2 ≤ periods.length then
        periods.getLast?.map (fun p => ThemeSlot.mk p p.startMeasure p.endMeasure)
      else none
    let transition :=
      if 3 ≤ periods.length then
        let transitionPeriods := (periods.drop 1).dropLast
        some (TransitionSlot.mk transitionPeriods
          ((transitionPeriods.head?.map Period.startMeasure).getD 0)
          ((transitionPeriods.getLast?.map Period.endMeasure).getD 0))
      else none
    { primaryTheme, transition, secondaryTheme }

/-- `RuleEngine.analyzeRecapitulation`. -/
def analyzeRecapitulation (recapPeriods expositionPeriods : List Period) :
    RecapComponents :=
  let primaryTheme :=
    if 1 ≤ recapPeriods.length ∧ 1 ≤ expositionPeriods.length then
      let similarity := calculatePeriodSimilarity recapPeriods.headI
        expositionPeriods.headI
      some { period := recapPeriods.headI, similarity,
             isVaried := decide (similarity < 4/5) }
    else none
  let secondaryTheme :=
    if 2 ≤ recapPeriods.length ∧ 2 ≤ expositionPeriods.length then
      let expSecondary := expositionPeriods.getLastI
      let recapSecondary := recapPeriods.getLastI
      let similarity := calculatePeriodSimilarity recapSecondary expSecondary
      some { period := recapSecondary, similarity, isInTonic := true }
    else none
  { primaryTheme, secondaryTheme,
    isComplete := decide ((recapPeriods.length : ℚ) ≥
      (expositionPeriods.length : ℚ) * (7/10)),
    isVaried := false }

/-- `RuleEngine.detectSonataForm`. -/
def detectSonataForm (ids : IdGen) (periods : List Period) : FormAnalysis :=
  if periods.length < 3 then
    { formType := "sonata", sections := [], confidence := 3/10, description := none }
  else
    let expEndIndex := periods.length / 3
    let devEndIndex := 2 * periods.length / 3
    let firstPeriod := periods.headI
    let lastPeriods := periods.drop devEndIndex
    let hasRecapitulation := lastPeriods.any (fun p =>
      decide (calculatePeriodSimilarity p firstPeriod > 1/2))
    if !hasRecapitulation then
      { formType := "sonata", sections := [], confidence := 2/5, description := none }
    else
      let expositionPeriods := periods.take (expEndIndex + 1)
      let developmentPeriods := (periods.take (devEndIndex + 1)).drop (expEndIndex + 1)
      let recapPeriods := periods.drop (devEndIndex + 1)
      let expoSection : FormSection :=
        { mkSection (ids 0) "Exposition" "exposition"
            ((expositionPeriods.head?.map Period.startMeasure).getD 0)
            ((expositionPeriods.getLast?.map Period.endMeasure).getD 0)
            "exposition" expositionPeriods with
          expoComponents := some (analyzeExposition expositionPeriods) }
      let devSections :=
        if 0 < developmentPeriods.length then
          [mkSection (ids 1) "Development" "development"
            ((developmentPeriods.head?.map Period.startMeasure).getD 0)
            ((developmentPeriods.getLast?.map Period.endMeasure).getD 0)
            "development" developmentPeriods]
        else []
      let recapSections :=
        if 0 < recapPeriods.length then
          [{ mkSection (ids 2) "Recapitulation" "recapitulation"
               ((recapPeriods.head?.map Period.startMeasure).getD 0)
               ((recapPeriods.getLast?.map Period.endMeasure).getD 0)
               "recapitulation" recapPeriods with
             recapComponents := some (analyzeRecapitulation recapPeriods
               expositionPeriods) }]
        else []
      { formType := "sonata",
        sections := [expoSection] ++ devSections ++ recapSections,
        confidence := 13/20,
        description := some "sonata form" }

/-- `RuleEngine.detectForm` — the prioritised cascade. -/
def detectForm (ids : IdGen) (periods : List Period) : FormAnalysis :=
  let periodCount := periods.length
  if periodCount = 0 then
    { formType := "one_part", sections := [], confidence := 1/2, description := none }
  else
    let materialPattern := analyzeMaterialPattern periods
    if periodCount = 1 then analyzeOnePartForm ids periods
    else if periodCount = 2 then analyzeBinaryForm ids periods
    else if periodCount = 3 then analyzeTernaryForm ids periods materialPattern
    else
      let variationAnalysis := detectVariationForm ids periods
      if variationAnalysis.confidence > 7/10 then variationAnalysis
      else
        let rondoResult :=
          if 5 ≤ periodCount then
            let rondoAnalysis := detectRondoForm ids periods materialPattern
            if rondoAnalysis.confidence > 3/5 then some rondoAnalysis else none
          else none
        match rondoResult with
        | some r => r
        | none =>
          let sonataResult :=
            if 3 ≤ periodCount then
              let sonataAnalysis := detectSonataForm ids periods
              if sonataAnalysis.confidence > 3/5 then some sonataAnalysis else none
            else none
          match sonataResult with
          | some r => r
          | none =>
            if 4 ≤ periodCount then
              analyzeCompoundTernaryForm ids periods materialPattern
            else
              { formType := "multi_part", sections := createSections ids periods,
                confidence := 1/2, description := none }


/-! ## Popular-music form detection -/

/-- Result of `detectPopularMusicForm`.  `sections` is optional because the
failure result carries no `sections` field (relevant to the
`Object.assign` merge in `analyzeComplete`). -/
structure PopForm where
  formType : String
  sections : Option (List FormSection)
  confidence : ℚ
  description : Option String
deriving DecidableEq

/-- Tail of `/^(ab)+a?$/` after one `ab` has been consumed. -/
def abPatCont (x y : Char) : List Char → Bool
  | [] => true
  | [c] => c = x
  | c :: d :: rest => c = x ∧ d = y ∧ abPatCont x y rest

/-- `/^(xy)+x?$/` on a lowercased character list. -/
def abPat (x y : Char) : List Char → Bool
  | c :: d :: rest => c = x ∧ d = y ∧ abPatCont x y rest
  | _ => false

/-- `pattern.match(/^(ab)+a?$/i)` on the joined material letters. -/
def matchesAlternating (materials : List String) : Bool :=
  let cs := (String.join materials).toList.map Char.toLower
  abPat 'a' 'b' cs ∨ abPat 'b' 'a' cs

/-- One period of the loop of `createVerseChorusSections`. -/
def verseChorusStep (ids : IdGen) (verseMaterial : String)
    (st : List FormSection × ℕ × ℕ) (p : Period × String) :
    List FormSection × ℕ × ℕ :=
  if p.2 = verseMaterial then
    let verseCount := st.2.1 + 1
    (st.1 ++ [mkSection (ids st.1.length) ("Verse " ++ toString verseCount)
      "verse" p.1.startMeasure p.1.endMeasure "verse" [p.1]],
     (verseCount, st.2.2))
  else
    let chorusCount := st.2.2 + 1
    (st.1 ++ [mkSection (ids st.1.length) ("Chorus " ++ toString chorusCount)
      "chorus" p.1.startMeasure p.1.endMeasure "chorus" [p.1]],
     (st.2.1, chorusCount))

/-- `RuleEngine.createVerseChorusSections`. -/
def createVerseChorusSections (ids : IdGen) (periods : List Period)
    (materials : List String) : List FormSection :=
  ((periods.zip materials).foldl (verseChorusStep ids materials.headI)
    (([] : List FormSection), ((0 : ℕ), (0 : ℕ)))).1

/-- `RuleEngine.createAABASections`. -/
def createAABASections (ids : IdGen) (periods : List Period) : List FormSection :=
  let names := ["A (Verse 1)", "A (Verse 2)", "B (Bridge)", "A' (Verse 3)"]
  let functions := ["verse", "verse", "bridge", "verse"]
  periods.enum.map (fun p =>
    mkSection (ids p.1)
      ((names.get? p.1).getD ("Section " ++ toString (p.1 + 1)))
      ((functions.get? p.1).getD "section")
      p.2.startMeasure p.2.endMeasure
      ((functions.get? p.1).getD "section") [p.2])

/-- `RuleEngine.detectPopularMusicForm`. -/
def detectPopularMusicForm (ids : IdGen) (periods : List Period) : PopForm :=
  if periods.length < 2 then
    { formType := "unknown", sections := none, confidence := 3/10, description := none }
  else
    let materialPattern := analyzeMaterialPattern periods
    let materials := materialPattern.materials
    let uniqueMaterials := materialPattern.counts.map (·.1)
    if uniqueMaterials.length = 2 ∧ matchesAlternating materials then
      { formType := "verse_chorus",
        sections := some (createVerseChorusSections ids periods materials),
        confidence := 3/4,
        description := some "verse chorus form" }
    else if materials.length = 4 ∧
        (String.join materials).toList.map Char.toLower = ['a', 'a', 'b', 'a'] then
      { formType := "aaba",
        sections := some (createAABASections ids periods),
        confidence := 4/5,
        description := some "32 bar form" }
    else
      { formType := "unknown", sections := none, confidence := 3/10, description := none }

/-! ## Complete analysis (projected onto the fields the claims reference) -/

/-- The fields of the `FullAnalysis` record produced by
`analyzeComplete` / `analyzeCompleteChunked` that the claims reference.
Omitted fields (`modeAnalysis`, hierarchy level counts, `themes`, auxiliary
structures, statistics, tooltip data, `processingInfo`) are derived from the
fields kept and are outside the scope of the stated claims. -/
structure AnalysisResult where
  motives : List Motive
  subPhrases : List SubPhrase
  cadences : List Cadence
  phrases : List Phrase
  periods : List Period
  compoundPeriods : List CompoundPeriod
  form : FormAnalysis
deriving DecidableEq

/-- Steps 8–9 of `analyzeComplete`: rule-cascade form, then the
popular-music probe overriding it via `Object.assign` when its confidence
is higher. -/
def detectFormWithPop (ids : IdGen) (periods : List Period) : FormAnalysis :=
  let formAnalysis := detectForm ids periods
  let popFormAnalysis := detectPopularMusicForm ids periods
  if popFormAnalysis.confidence > formAnalysis.confidence then
    { formType := popFormAnalysis.formType,
      sections := popFormAnalysis.sections.getD formAnalysis.sections,
      confidence := popFormAnalysis.confidence,
      description := match popFormAnalysis.description with
        | some d => some d
        | none => formAnalysis.description }
  else formAnalysis

/-- `RuleEngine.analyzeComplete` (projected). -/
def analyzeComplete (ids : IdGen) (notes : List Note) (ks : KeySignature)
    (ts : TimeSignature) : AnalysisResult :=
  let motives := detectMotives ids notes ts
  let subPhrases := detectSubPhrases ids notes motives
  let cadences := detectCadences ids notes ks
  let phrases := detectPhrases ids notes cadences subPhrases
  let periods := detectPeriods ids phrases
  let compoundPeriods := detectCompoundPeriods ids periods
  let form := detectFormWithPop ids periods
  { motives, subPhrases, cadences, phrases, periods, compoundPeriods, form }

/-- `RuleEngine.processInChunks` with the default options
(`maxMeasures = 32`, `overlapMeasures = 4`); `key` models the
`r.startMeasure || r.measureNumber || 0` field access of the merge filter. -/
def processInChunks {α : Type} (key : α → ℤ) (notes : List Note)
    (processor : List Note → List α) : List α :=
  if (measureNumbersOf notes).length ≤ 32 then processor notes
  else
    let measureNumbers := measureNumbersOf notes
    let chunkIdx := (List.range ((measureNumbers.length + 27) / 28)).map (· * 28)
    chunkIdx.foldl (fun results i =>
      let chunkStart := (measureNumbers.get? i).getD 0
      let chunkEndIndex := min (i + 32) measureNumbers.length - 1
      let chunkEnd := (measureNumbers.get? chunkEndIndex).getD 0
      let chunkNotes := notes.filter (fun n =>
        chunkStart ≤ n.measureNumber ∧ n.measureNumber ≤ chunkEnd)
      let chunkResults := processor chunkNotes
      if results.length = 0 then results ++ chunkResults
      else
        let overlapStart := chunkStart
        results ++ chunkResults.filter (fun r => overlapStart + 2 ≤ key r))
      []

/-- `RuleEngine.analyzeCompleteChunked` (projected).  Small inputs delegate
to `analyzeComplete`; large inputs run motive and sub-phrase detection per
chunk (with the merge rule of `processInChunks`) and every other detector on
the whole stream. -/
def analyzeCompleteChunked (ids : IdGen) (notes : List Note) (ks : KeySignature)
    (ts : TimeSignature) : AnalysisResult :=
  if notes.length < 1000 ∧ (measureNumbersOf notes).length < 64 then
    analyzeComplete ids notes ks ts
  else
    let motives := processInChunks (fun m => m.measureNumber) notes
      (fun chunkNotes => detectMotives ids chunkNotes ts)
    let subPhrases := processInChunks (fun sp => sp.startMeasure) notes
      (fun chunkNotes =>
        let chunkMotives := motives.filter (fun m =>
          chunkNotes.any (fun n => n.measureNumber == m.measureNumber))
        detectSubPhrases ids chunkNotes chunkMotives)
    let cadences := detectCadences ids notes ks
    let phrases := detectPhrases ids notes cadences subPhrases
    let periods := detectPeriods ids phrases
    let compoundPeriods := detectCompoundPeriods ids periods
    let form := detectFormWithPop ids periods
    { motives, subPhrases, cadences, phrases, periods, compoundPeriods, form }


/-! ## Structure tree (`StructureAnalyzer`) -/

/-- A parsed score, restricted to the fields `buildTree` reads.  The
invariants assumed of a decoder-produced score are stated as hypotheses of
the theorems below. -/
structure ParsedScore where
  measures : List ℤ
  notes : List Note
  keySignature : KeySignature
  timeSignature : Option TimeSignature
deriving DecidableEq

/-- A node of the structure tree.  The `parent` back-pointer of the source
(non-owning, cyclic) is not representable in a purely functional tree and is
redundant with the `children` relation; the `features`, `visualStyle` and
`tooltipData` payloads carry no measure information and are omitted. -/
inductive TreeNode : Type where
  | mk (id : String) (type : String) (startMeasure endMeasure : ℤ)
    (material : String) (confidence : ℚ) (children : List TreeNode)

def TreeNode.id : TreeNode → String
  | .mk i _ _ _ _ _ _ => i

def TreeNode.type : TreeNode → String
  | .mk _ t _ _ _ _ _ => t

def TreeNode.startMeasure : TreeNode → ℤ
  | .mk _ _ s _ _ _ _ => s

def TreeNode.endMeasure : TreeNode → ℤ
  | .mk _ _ _ e _ _ _ => e

def TreeNode.material : TreeNode → String
  | .mk _ _ _ _ m _ _ => m

def TreeNode.confidence : TreeNode → ℚ
  | .mk _ _ _ _ _ c _ => c

def TreeNode.children : TreeNode → List TreeNode
  | .mk _ _ _ _ _ _ cs => cs

/-- `StructureAnalyzer.addMotives` — motive leaves of 1–2 measures under a
parent covering `[startMeasure, endMeasure]`. -/
def addMotives (ids : IdGen) (startMeasure endMeasure : ℤ) : List TreeNode :=
  let totalMeasures := endMeasure - startMeasure + 1
  let motiveSize : ℤ := if totalMeasures ≤ 2 then 1 else 2
  let count : ℕ := if totalMeasures ≤ 0 then 0
    else ((totalMeasures + motiveSize - 1) / motiveSize).toNat
  (List.range count).map (fun (k : ℕ) =>
    let motiveEnd := min (startMeasure + (k : ℤ) * motiveSize + motiveSize - 1) endMeasure
    TreeNode.mk (ids k) "motive" (startMeasure + (k : ℤ) * motiveSize) motiveEnd
      ("m" ++ toString (k + 1)) (3/5) [])

/-- The phrase subtree of `StructureAnalyzer.buildTree`: derived sub-phrase
halves for phrases of ≥ 4 measures, motive leaves below. -/
def phraseSubtree (ids : IdGen) (phrase : Phrase) : TreeNode :=
  let phraseMeasures := phrase.endMeasure - phrase.startMeasure + 1
  let children :=
    if 4 ≤ phraseMeasures then
      let midPoint := phrase.startMeasure + phraseMeasures / 2 - 1
      [TreeNode.mk (ids 0) "subphrase" phrase.startMeasure midPoint
        (phrase.material ++ "₁") (13/20)
        (addMotives ids phrase.startMeasure midPoint),
       TreeNode.mk (ids 1) "subphrase" (midPoint + 1) phrase.endMeasure
        (phrase.material ++ "₂") (13/20)
        (addMotives ids (midPoint + 1) phrase.endMeasure)]
    else
      addMotives ids phrase.startMeasure phrase.endMeasure
  TreeNode.mk phrase.id "phrase" phrase.startMeasure phrase.endMeasure
    phrase.material (if phrase.cadence.isSome then 4/5 else 3/5) children

/-- The period subtree of `StructureAnalyzer.buildTree`
(`period.phrases[0]?.startMeasure || 0` boundary access). -/
def periodSubtree (ids : IdGen) (period : Period) : TreeNode :=
  TreeNode.mk period.id "period"
    (orElseInt ((period.phrases.head?.map Phrase.startMeasure).getD 0) 0)
    (orElseInt ((period.phrases.getLast?.map Phrase.endMeasure).getD 0) 0)
    (if period.type = "parallel" then "a+a'" else "a+b") (3/4)
    (period.phrases.map (phraseSubtree ids))

/-- `StructureAnalyzer.buildTree`.  Section nodes come first among the
root's children; each period node is attached to the first section whose
range contains it, else to the root (in period order, after the sections). -/
def buildTree (ids : IdGen) (parsedScore : ParsedScore) (phrases : List Phrase)
    (periods : List Period) (formAnalysis : FormAnalysis) : TreeNode :=
  let sections := formAnalysis.sections
  let assignedSection : Period → Option ℕ := fun period =>
    let node := periodSubtree ids period
    sections.findIdx? (fun s =>
      s.startMeasure ≤ node.startMeasure ∧ node.endMeasure ≤ s.endMeasure)
  let sectionNodes := sections.enum.map (fun p =>
    TreeNode.mk p.2.id "theme" p.2.startMeasure p.2.endMeasure p.2.name
      formAnalysis.confidence
      ((periods.filter (fun period => assignedSection period = some p.1)).map
        (periodSubtree ids)))
  let orphanPeriodNodes :=
    (periods.filter (fun period => assignedSection period = none)).map
      (periodSubtree ids)
  TreeNode.mk (ids 0) "section" 1 parsedScore.measures.length "A" (4/5)
    (sectionNodes ++ orphanPeriodNodes)

/-- `StructureAnalyzer.buildHierarchy`, projected onto the tree it returns.
The subsequent passes (`assignConfidence`, `labelMaterials`,
`generateTreeTooltips`) rewrite only `confidence`, `material`,
`visualStyle` and `tooltipData` of existing nodes; they do not change node
types, boundaries or the parent/child shape, so the boundary invariants of
the claims are decided by `buildTree`. -/
def buildHierarchy (ids : IdGen) (parsedScore : ParsedScore) : TreeNode :=
  let useChunked := 1000 < parsedScore.notes.length ∨ 64 < parsedScore.measures.length
  let ts := parsedScore.timeSignature.getD ⟨4, 4⟩
  let analysisResult :=
    if useChunked then
      analyzeCompleteChunked ids parsedScore.notes parsedScore.keySignature ts
    else
      analyzeComplete ids parsedScore.notes parsedScore.keySignature ts
  buildTree ids parsedScore analysisResult.phrases analysisResult.periods
    analysisResult.form

/-! ### The tree invariant of the claims -/

/-- Children ranges are pairwise non-overlapping, in list order. -/
def rangesDisjoint : List TreeNode → Bool
  | [] => true
  | c :: rest =>
    rest.all (fun d =>
      decide (c.endMeasure < d.startMeasure ∨ d.endMeasure < c.startMeasure)) &&
    rangesDisjoint rest

/-- Consecutive children are range-adjacent (`end + 1 = next start`). -/
def rangesContiguous : List TreeNode → Bool
  | [] => true
  | [_] => true
  | c :: d :: rest =>
    decide (c.endMeasure + 1 = d.startMeasure) && rangesContiguous (d :: rest)

mutual

/-- The per-node tree invariant of the claims: ordered range, children
contained in the parent, child ranges pairwise non-overlapping, and
contiguous for the children of `theme` (period level) and `period`
(phrase level) nodes. -/
def treeInv : TreeNode → Bool
  | .mk _ type startMeasure endMeasure _ _ children =>
    decide (startMeasure ≤ endMeasure) &&
    treeInvChildren startMeasure endMeasure children &&
    rangesDisjoint children &&
    (if type = "theme" ∨ type = "period" then rangesContiguous children else true)

/-- Each child lies inside the parent range and recursively satisfies the
invariant. -/
def treeInvChildren (startMeasure endMeasure : ℤ) : List TreeNode → Bool
  | [] => true
  | c :: rest =>
    decide (startMeasure ≤ c.startMeasure) && decide (c.endMeasure ≤ endMeasure) &&
    treeInv c && treeInvChildren startMeasure endMeasure rest

end


/-! ## Preference learner (`PreferenceManager` / `VisualSchemeRecommender`) -/

/-- The JavaScript `s || d` idiom on strings: the empty string is falsy. -/
def orElseStr (s d : String) : String := if s = "" then d else s

/-- A visual scheme.  Schemes pass through `recordSelection` unmodified and
their payload (shapes, colors, animation) is not referenced by the claims
under verification, so only an identifier is carried. -/
structure Scheme where
  id : String
deriving DecidableEq

/-- The feature record consumed by `extractFeatureVector`
(`extractNodeFeatures` output, optionally extended with emotion features). -/
structure NodeFeatures where
  type : String
  startMeasure : ℤ
  endMeasure : ℤ
  material : Option String
  confidence : ℚ
  cadence : Option Cadence
  periodType : Option String
  closure : Option String
  emotionTempo : Option String
  emotionDynamics : Option String
  emotionTension : Option String
deriving DecidableEq

/-- `PreferenceManager.extractFeatureVector`. -/
def extractFeatureVector (features : NodeFeatures) : List ℚ :=
  let structureTypes := ["motive", "subphrase", "phrase", "period", "theme", "section"]
  let typeOneHot := structureTypes.map (fun t => if features.type = t then (1 : ℚ) else 0)
  let confidenceEntry := [orElseRat features.confidence (1/2)]
  let duration : ℚ := ((features.endMeasure : ℚ) - features.startMeasure + 1) / 16
  let durationEntry := [min 1 duration]
  let materialEntries : List ℚ :=
    [if (features.material.map (fun m => m.toList.contains '\'')).getD false then 1 else 0,
     if (features.material.map (fun m => decide (1 < m.length))).getD false then 1 else 0]
  let cadenceTypes := ["perfect_authentic", "imperfect_authentic", "half", "deceptive",
    "none"]
  let cadenceType := orElseStr ((features.cadence.map Cadence.type).getD "") "none"
  let cadenceOneHot := cadenceTypes.map (fun t => if cadenceType = t then (1 : ℚ) else 0)
  let periodTypes := ["parallel", "contrasting", "sequential", "none"]
  let periodType := orElseStr (features.periodType.getD "") "none"
  let periodOneHot := periodTypes.map (fun t => if periodType = t then (1 : ℚ) else 0)
  let tempoEntry : ℚ :=
    match features.emotionTempo with
    | some "fast" => 1
    | some "moderate" => 1/2
    | some "slow" => 0
    | _ => 1/2
  let dynamicsEntry : ℚ :=
    match features.emotionDynamics with
    | some "strong" => 1
    | some "moderate" => 1/2
    | some "soft" => 0
    | _ => 1/2
  let tensionEntry : ℚ :=
    match features.emotionTension with
    | some "tense" => 1
    | some "neutral" => 1/2
    | some "relaxed" => 0
    | _ => 1/2
  typeOneHot ++ confidenceEntry ++ durationEntry ++ materialEntries ++
    cadenceOneHot ++ periodOneHot ++ [tempoEntry, dynamicsEntry, tensionEntry]

structure PreferenceExample where
  features : List ℚ
  scheme : Scheme
  reward : ℚ
  timestamp : ℚ
deriving DecidableEq

/-- The dynamic feature-weight record (`this.featureWeights`). -/
structure FeatureWeights where
  structureType : ℚ
  confidence : ℚ
  duration : ℚ
  materialVariation : ℚ
  cadenceType : ℚ
  periodType : ℚ
  emotionTempo : ℚ
  emotionDynamics : ℚ
  emotionTension : ℚ
deriving DecidableEq

/-- Initial feature weights of the `PreferenceManager` constructor. -/
def initialFeatureWeights : FeatureWeights :=
  { structureType := 1, confidence := 1/2, duration := 4/5,
    materialVariation := 7/10, cadenceType := 9/10, periodType := 4/5,
    emotionTempo := 3/5, emotionDynamics := 3/5, emotionTension := 7/10 }

/-- `PreferenceManager` mutable state. -/
structure PreferenceManagerState where
  examples : List PreferenceExample
  k : ℕ
  exampleCount : ℕ
  featureWeights : FeatureWeights
deriving DecidableEq

/-- The freshly-constructed `PreferenceManager`. -/
def initPreferenceManager : PreferenceManagerState :=
  { examples := [], k := 5, exampleCount := 0,
    featureWeights := initialFeatureWeights }

/-- `PreferenceManager.recordSelection` (`Date.now()` modelled by `now`). -/
def pmRecordSelection (st : PreferenceManagerState) (features : NodeFeatures)
    (scheme : Scheme) (reward : ℚ) (now : ℚ) : PreferenceManagerState :=
  let featureVector := extractFeatureVector features
  { st with
    examples := st.examples ++
      [{ features := featureVector, scheme, reward, timestamp := now }],
    exampleCount := st.exampleCount + 1 }

/-- `PreferenceManager.getWeightVector`. -/
def getWeightVector (st : PreferenceManagerState) : List ℚ :=
  let w := st.featureWeights
  [w.structureType, w.structureType, w.structureType,
   w.structureType, w.structureType, w.structureType,
   w.confidence,
   w.duration,
   w.materialVariation, w.materialVariation,
   w.cadenceType, w.cadenceType, w.cadenceType, w.cadenceType, w.cadenceType,
   w.periodType, w.periodType, w.periodType, w.periodType,
   w.emotionTempo, w.emotionDynamics, w.emotionTension]

/-- `PreferenceManager.updateFeatureWeights` — the intended per-bucket
adjustment.  (Defined by the source but never invoked by any
`recordSelection` path; see the theorems below.) -/
def updateFeatureWeights (st : PreferenceManagerState) (features : NodeFeatures)
    (accepted : Bool) : PreferenceManagerState :=
  let adjustment : ℚ := if accepted then 1/20 else -3/100
  let clamp : ℚ → ℚ := fun w => max (1/10) (min 2 w)
  let w := st.featureWeights
  let w := if features.type ≠ "" then
      { w with structureType := clamp (w.structureType + adjustment) } else w
  let w := if features.cadence.isSome then
      { w with cadenceType := clamp (w.cadenceType + adjustment) } else w
  let w := if (features.periodType.map (fun s => decide (s ≠ ""))).getD false then
      { w with periodType := clamp (w.periodType + adjustment) } else w
  { st with featureWeights := w }

/-- `PreferenceManager.adjustK` — also defined but never invoked. -/
def adjustK (st : PreferenceManagerState) : PreferenceManagerState :=
  if 20 < st.exampleCount then { st with k := 7 }
  else if 10 < st.exampleCount then { st with k := 5 }
  else { st with k := 3 }

/-- The node view consumed by
`VisualSchemeRecommender.extractNodeFeatures` (`node.features?.cadence`
etc. are flattened). -/
structure RecommenderNode where
  type : String
  startMeasure : ℤ
  endMeasure : ℤ
  material : Option String
  confidence : ℚ
  featCadence : Option Cadence
  featPeriodType : Option String
  featClosure : Option String
deriving DecidableEq

/-- `VisualSchemeRecommender.extractNodeFeatures`. -/
def extractNodeFeatures (node : RecommenderNode) : NodeFeatures :=
  { type := node.type, startMeasure := node.startMeasure,
    endMeasure := node.endMeasure, material := node.material,
    confidence := node.confidence, cadence := node.featCadence,
    periodType := node.featPeriodType, closure := node.featClosure,
    emotionTempo := none, emotionDynamics := none, emotionTension := none }

/-- `VisualSchemeRecommender.recordSelection` — maps the user action to a
reward and delegates to the preference manager. -/
def recommenderRecordSelection (st : PreferenceManagerState) (node : RecommenderNode)
    (scheme : Scheme) (action : String) (now : ℚ) : PreferenceManagerState :=
  let reward : ℚ :=
    if action = "accept" then 1
    else if action = "modify" then 1/2
    else if action = "reject" then -1
    else 0
  let features := extractNodeFeatures node
  pmRecordSelection st features scheme reward now


/-! ## DTW aligner (`DTWAligner`)

The frame distance is a Euclidean norm, so the cost matrix lives in
`ℝ≥0∞` (`Infinity` entries included); its comparisons are classical.
The chroma frames themselves are rational vectors. -/

/-- A chroma frame (12 pitch-class energies in the source). -/
abbrev Chroma : Type := List ℚ

/-- `DTWAligner.euclideanDistance` over the overlapping prefix
(`len = min` of the lengths). -/
noncomputable def euclideanDistance (vec1 vec2 : Chroma) : ℝ :=
  Real.sqrt (((((vec1 : List ℚ).zip (vec2 : List ℚ)).map
    (fun p => (p.1 - p.2) ^ 2)).sum : ℚ))

/-- The frame cost `d(seq1[i], seq2[j])` as an extended nonnegative real. -/
noncomputable def dtwCost (seq1 seq2 : List Chroma) (i j : ℕ) : ENNReal :=
  ENNReal.ofReal (euclideanDistance ((seq1.get? i).getD []) ((seq2.get? j).getD []))

/-- The DTW cost matrix `dtw[i][j]` of `DTWAligner.computeDTW`:
`dtw[0][0] = 0`, border `∞`, and the standard recurrence. -/
noncomputable def dtwMatrix (seq1 seq2 : List Chroma) : ℕ → ℕ → ENNReal
  | 0, 0 => 0
  | 0, _ + 1 => ⊤
  | _ + 1, 0 => ⊤
  | i + 1, j + 1 =>
    dtwCost seq1 seq2 i j +
      min (dtwMatrix seq1 seq2 i (j + 1))
        (min (dtwMatrix seq1 seq2 (i + 1) j) (dtwMatrix seq1 seq2 i j))

/-- `DTWAligner.backtrack` — diagonal preferred, then the smaller of
left/up; prepends `(i-1, j-1)` at each step. -/
noncomputable def backtrack (D : ℕ → ℕ → ENNReal) : ℕ → ℕ → List (ℕ × ℕ)
  | 0, _ => []
  | _ + 1, 0 => []
  | i + 1, j + 1 =>
    let diag := D i j
    let left := D (i + 1) j
    let up := D i (j + 1)
    (if diag ≤ left ∧ diag ≤ up then backtrack D i j
     else if left < up then backtrack D (i + 1) j
     else backtrack D i (j + 1)) ++ [(i, j)]

/-- `DTWAligner.computeDTW` — `{path: [], distance: ∞}` when either
sequence is empty. -/
noncomputable def computeDTW (seq1 seq2 : List Chroma) : List (ℕ × ℕ) × ENNReal :=
  let n := seq1.length
  let m := seq2.length
  if n = 0 ∨ m = 0 then ([], ⊤)
  else
    let D := dtwMatrix seq1 seq2
    (backtrack D n m, D n m)

/-- Alignment options of `DTWAligner.align` with their defaults. -/
structure AlignOptions where
  hopSize : ℚ := 1024
  sampleRate : ℚ := 44100
  beatsPerMeasure : ℚ := 4
  tempo : ℚ := 120
deriving DecidableEq

/-- The result state of `DTWAligner.align`: the path, the two insertion-
ordered maps, the clipped confidence and the accumulated distance. -/
structure AlignmentResult where
  path : List (ℕ × ℕ)
  measureToTime : List (ℤ × ℚ)
  timeToMeasure : List (ℚ × ℤ)
  confidence : ℝ
  distance : ENNReal

/-- `DTWAligner.align`. -/
noncomputable def align (symbolicChroma acousticChroma : List Chroma)
    (options : AlignOptions := {}) : AlignmentResult :=
  let r := computeDTW symbolicChroma acousticChroma
  let path := r.1
  let distance := r.2
  let secondsPerFrame := options.hopSize / options.sampleRate
  let secondsPerBeat := 60 / options.tempo
  let secondsPerMeasure := secondsPerBeat * options.beatsPerMeasure
  let framesPerMeasure := jsRound (secondsPerMeasure / secondsPerFrame)
  let maps := path.foldl (fun maps p =>
    let measureNumber := ⌊(p.1 : ℚ) / (framesPerMeasure : ℚ)⌋ + 1
    let timestamp := (p.2 : ℚ) * secondsPerFrame
    let m2t := if (maps.1.find? (fun e => e.1 == measureNumber)).isSome then maps.1
      else maps.1 ++ [(measureNumber, timestamp)]
    let roundedTime := (jsRound (timestamp * 10) : ℚ) / 10
    let t2m := if (maps.2.find? (fun e => e.1 == roundedTime)).isSome then maps.2
      else maps.2 ++ [(roundedTime, measureNumber)]
    (m2t, t2m)) (([] : List (ℤ × ℚ)), ([] : List (ℚ × ℤ)))
  let maxDistance : ℝ := (symbolicChroma.length : ℝ) * (acousticChroma.length : ℝ)
  let confidence : ℝ :=
    if distance = ⊤ then 0
    else max 0 (min 1 (1 - distance.toReal / maxDistance))
  { path, measureToTime := maps.1, timeToMeasure := maps.2, confidence, distance }

/-- `DTWAligner.getTimestamp` on the `measureToTime` map left by `align`:
stored value, `0` on an empty map, else linear interpolation between the
two closest known measures. -/
def getTimestamp (measureToTime : List (ℤ × ℚ)) (measureNumber : ℤ) : ℚ :=
  match measureToTime.find? (fun e => e.1 == measureNumber) with
  | some e => e.2
  | none =>
    let measures := stableSortBy id (measureToTime.map (·.1))
    match measures with
    | [] => 0
    | m0 :: _ =>
      let last := (measures.getLast?).getD m0
      let bounds := measures.foldl (fun bounds m =>
        let lower := if m ≤ measureNumber then m else bounds.1
        let upper := if measureNumber ≤ m ∧ m < bounds.2 then m else bounds.2
        (lower, upper)) (m0, last)
      let lower := bounds.1
      let upper := bounds.2
      let lookup : ℤ → ℚ := fun m =>
        ((measureToTime.find? (fun e => e.1 == m)).map (·.2)).getD 0
      if lower = upper then lookup lower
      else
        let lowerTime := lookup lower
        let upperTime := lookup upper
        let ratio : ℚ := ((measureNumber : ℚ) - lower) / ((upper : ℚ) - lower)
        lowerTime + ratio * (upperTime - lowerTime)


/-! ## Identifier erasure

`generateId` is the only consumer of `Math.random()` in the engine.  The
normalisers below blank every identifier-valued field (including references
to identifiers such as `relatedTo` / `similarTo`, whose presence is kept);
determinism of `analyzeComplete` modulo node ids is the statement that the
normalised result does not depend on the identifier stream. -/

def normCadence (c : Cadence) : Cadence := { c with id := "" }

def normMotive (m : Motive) : Motive :=
  { m with id := "", relatedTo := m.relatedTo.map (fun _ => "") }

def normSubPhrase (sp : SubPhrase) : SubPhrase :=
  { sp with id := "", similarTo := sp.similarTo.map (fun _ => ""),
            motives := sp.motives.map normMotive }

def normPhrase (p : Phrase) : Phrase :=
  { p with id := "", cadence := p.cadence.map normCadence,
           subPhrases := p.subPhrases.map normSubPhrase }

def normPeriod (pd : Period) : Period :=
  { pd with id := "", phrases := pd.phrases.map normPhrase,
            cadence := pd.cadence.map normCadence }

def normCompoundPeriod (cp : CompoundPeriod) : CompoundPeriod :=
  { cp with id := "", periods := cp.periods.map normPeriod }

def normThemeSlot (t : ThemeSlot) : ThemeSlot :=
  { t with period := normPeriod t.period }

def normTransitionSlot (t : TransitionSlot) : TransitionSlot :=
  { t with periods := t.periods.map normPeriod }

def normExpoComponents (e : ExpoComponents) : ExpoComponents :=
  { primaryTheme := e.primaryTheme.map normThemeSlot,
    transition := e.transition.map normTransitionSlot,
    secondaryTheme := e.secondaryTheme.map normThemeSlot }

def normRecapComponents (r : RecapComponents) : RecapComponents :=
  { r with
    primaryTheme := r.primaryTheme.map (fun p => { p with period := normPeriod p.period }),
    secondaryTheme := r.secondaryTheme.map (fun p => { p with period := normPeriod p.period }) }

def normSection (s : FormSection) : FormSection :=
  { s with id := "", periods := s.periods.map normPeriod,
           expoComponents := s.expoComponents.map normExpoComponents,
           recapComponents := s.recapComponents.map normRecapComponents }

def normForm (f : FormAnalysis) : FormAnalysis :=
  { f with sections := f.sections.map normSection }

/-- Identifier blanking on the popular-music probe result. -/
def normPopForm (f : PopForm) : PopForm :=
  { f with sections := f.sections.map (fun l => l.map normSection) }

def normResult (r : AnalysisResult) : AnalysisResult :=
  { motives := r.motives.map normMotive,
    subPhrases := r.subPhrases.map normSubPhrase,
    cadences := r.cadences.map normCadence,
    phrases := r.phrases.map normPhrase,
    periods := r.periods.map normPeriod,
    compoundPeriods := r.compoundPeriods.map normCompoundPeriod,
    form := normForm r.form }

mutual

/-- Identifier-blanking on structure-tree nodes. -/
def normTree : TreeNode → TreeNode
  | .mk _ t s e m c ch => .mk "" t s e m c (normTreeList ch)

def normTreeList : List TreeNode → List TreeNode
  | [] => []
  | n :: rest => normTree n :: normTreeList rest

end

/-- Equality after a normaliser: the congruence relation threaded through
the determinism proof. -/
@[reducible] def NEq {α : Type} {β : Type} (norm : α → β) (a₁ a₂ : α) : Prop :=
  norm a₁ = norm a₂

/-- Pointwise lifting of a relation to `Option`. -/
def OptRel {α₁ α₂ : Type} (R : α₁ → α₂ → Prop) : Option α₁ → Option α₂ → Prop
  | none, none => True
  | some a, some b => R a b
  | _, _ => False

/-! ## Skeletons (agreement up to attached sub-phrase lists) -/

/-- A phrase with its attached sub-phrase list cleared: the part of a phrase
that chunked and unchunked analysis agree on. -/
def phraseSkel (p : Phrase) : Phrase := { p with subPhrases := [] }

/-- A period with every contained phrase skeletonised. -/
def periodSkel (pd : Period) : Period :=
  { pd with phrases := pd.phrases.map phraseSkel }

def themeSlotSkel (t : ThemeSlot) : ThemeSlot :=
  { t with period := periodSkel t.period }

def transitionSlotSkel (t : TransitionSlot) : TransitionSlot :=
  { t with periods := t.periods.map periodSkel }

def expoComponentsSkel (e : ExpoComponents) : ExpoComponents :=
  { primaryTheme := e.primaryTheme.map themeSlotSkel,
    transition := e.transition.map transitionSlotSkel,
    secondaryTheme := e.secondaryTheme.map themeSlotSkel }

def recapComponentsSkel (r : RecapComponents) : RecapComponents :=
  { r with
    primaryTheme := r.primaryTheme.map (fun p => { p with period := periodSkel p.period }),
    secondaryTheme := r.secondaryTheme.map (fun p => { p with period := periodSkel p.period }) }

/-- A form section with every contained period skeletonised. -/
def sectionSkel (s : FormSection) : FormSection :=
  { s with periods := s.periods.map periodSkel,
           expoComponents := s.expoComponents.map expoComponentsSkel,
           recapComponents := s.recapComponents.map recapComponentsSkel }

/-- A form analysis with every section skeletonised: the part of the form
output that chunked and unchunked analysis agree on. -/
def formSkel (f : FormAnalysis) : FormAnalysis :=
  { f with sections := f.sections.map sectionSkel }

def popFormSkel (f : PopForm) : PopForm :=
  { f with sections := f.sections.map (fun l => l.map sectionSkel) }

/-! ## Chain predicates (used to state and prove the tree invariants) -/

/-- The phrases of a list tile `[s, …]` left to right: each phrase starts
where demanded, covers at least one measure, and hands `end + 1` on. -/
def ChainedFrom (s : ℤ) : List Phrase → Prop
  | [] => True
  | p :: rest =>
    p.startMeasure = s ∧ p.startMeasure ≤ p.endMeasure ∧
      ChainedFrom (p.endMeasure + 1) rest

/-- Periods tile `[s, …]` left to right (on their stored boundary fields). -/
def PeriodsChainedFrom (s : ℤ) : List Period → Prop
  | [] => True
  | pd :: rest =>
    pd.startMeasure = s ∧ pd.startMeasure ≤ pd.endMeasure ∧
      PeriodsChainedFrom (pd.endMeasure + 1) rest

/-! ## Concrete inputs for witnesses and counterexamples -/

/-- A fixed identifier stream for concrete evaluations. -/
def cexIds : IdGen := fun _ => ""

/-- C5: a minor-key iv → V bass motion (D3 under measure 1, E3 under
measure 2; tonic A). -/
def c5Notes : List Note :=
  [⟨some "D3", 1, 1, 0, false⟩, ⟨some "E3", 1, 2, 0, false⟩]

/-- C2: notes spanning measures 1–24 with a single PAC cadence at
measure 24, so the 24-measure span is split at the midpoint. -/
def c2Notes : List Note :=
  [⟨some "C4", 1, 1, 0, false⟩, ⟨some "C4", 1, 24, 0, false⟩]

def c2Cadence : Cadence := ⟨"c", 24, 0, "perfect_authentic", "strong", 19/20⟩

/-- C2 witness input: a two-measure span closed by a PAC. -/
def w2Notes : List Note :=
  [⟨some "C4", 1, 1, 0, false⟩, ⟨some "C4", 1, 2, 0, false⟩]

def w2Cadence : Cadence := ⟨"c", 2, 0, "perfect_authentic", "strong", 19/20⟩

/-- The phrase `detectPhrases` emits on the C2 witness input. -/
def w2Phrase : Phrase :=
  { id := "", index := 0, startMeasure := 1, endMeasure := 2, length := 2,
    cadence := some w2Cadence, notes := w2Notes, subPhrases := [],
    material := "a", closure := "closed", relationship := none,
    headSimilarity := none }

/-- C1: one note per measure over measures 1..64 — large enough for the
chunked pipeline (64 distinct measures), with chunk windows 1–32, 29–60
and 57–64. -/
def c1Notes : List Note :=
  (List.range 64).map (fun k => ⟨some "C4", 1, (k : ℤ) + 1, 0, false⟩)

/-- A period used as raw input to `detectForm` (the claims over `detectForm`
quantify over arbitrary period lists). -/
def mkTestPeriod (idx : ℕ) (s e : ℤ) (material : String) (ns : List Note) : Period :=
  { id := "", index := idx, startMeasure := s, endMeasure := e,
    length := e - s + 1,
    phrases := [{ id := "", index := idx, startMeasure := s, endMeasure := e,
                  length := e - s + 1, cadence := none, notes := ns,
                  subPhrases := [], material := material, closure := "open",
                  relationship := none, headSimilarity := none }],
    phraseCount := 1, type := "parallel", proportion := "square",
    closure := "open", material := material, cadence := none }

/-- Two-note melodies: the theme moves C→D, a variation repeats C
(melodic similarity to the theme exactly 0.4 ∈ (0.3, 0.9)). -/
def themeNotes : List Note :=
  [⟨some "C4", 1, 1, 0, false⟩, ⟨some "D4", 1, 1, 1, false⟩]

def variationNotes : List Note :=
  [⟨some "C4", 1, 1, 0, false⟩, ⟨some "C4", 1, 1, 1, false⟩]

/-- C8 counterexample: 6 periods; periods 1–3 qualify as variations
(similarity 0.4), periods 4–5 duplicate the theme (similarity 1), so the
qualifying fraction is exactly 3/5 = 60 %. -/
def c8Periods : List Period :=
  [mkTestPeriod 0 1 4 "a" themeNotes,
   mkTestPeriod 1 5 8 "a" variationNotes,
   mkTestPeriod 2 9 12 "a" variationNotes,
   mkTestPeriod 3 13 16 "a" variationNotes,
   mkTestPeriod 4 17 20 "a" themeNotes,
   mkTestPeriod 5 21 24 "a" themeNotes]

/-- C8 witness: 4 periods, all three non-theme periods qualifying
(fraction 1 > 60 %). -/
def w8Periods : List Period :=
  [mkTestPeriod 0 1 4 "a" themeNotes,
   mkTestPeriod 1 5 8 "a" variationNotes,
   mkTestPeriod 2 9 12 "a" variationNotes,
   mkTestPeriod 3 13 16 "a" variationNotes]

/-- C4 counterexample: a parsed score with no measures. -/
def c4Score : ParsedScore :=
  { measures := [], notes := [], keySignature := ⟨0, "major"⟩,
    timeSignature := some ⟨4, 4⟩ }

/-- C4 witness: a two-measure score with one note per measure. -/
def w4Score : ParsedScore :=
  { measures := [1, 2],
    notes := [⟨some "C4", 1, 1, 0, false⟩, ⟨some "E4", 1, 2, 0, false⟩],
    keySignature := ⟨0, "major"⟩, timeSignature := some ⟨4, 4⟩ }

/-- C6/C7: the features of a phrase node as recorded on a selection. -/
def c6Features : NodeFeatures :=
  { type := "phrase", startMeasure := 1, endMeasure := 4, material := some "a",
    confidence := 4/5, cadence := some ⟨"", 4, 0, "perfect_authentic", "strong", 19/20⟩,
    periodType := some "parallel", closure := some "closed",
    emotionTempo := none, emotionDynamics := none, emotionTension := none }

def c7Node : RecommenderNode :=
  { type := "phrase", startMeasure := 1, endMeasure := 4, material := some "a",
    confidence := 4/5, featCadence := some ⟨"", 4, 0, "perfect_authentic", "strong", 19/20⟩,
    featPeriodType := some "parallel", featClosure := some "closed" }

/-- C9 witness: a one-frame chroma sequence. -/
def c9Chroma : List Chroma := [([1, 0, 0] : List ℚ)]

/-- C10 witness: a non-empty acoustic side against an empty symbolic side. -/
def c10Acoustic : List Chroma := [([1, 0] : List ℚ)]


/-- The qualifying fraction of `detectVariationForm`: the share of periods
1…N−1 whose melodic similarity to period 0 lies strictly between 0.3
and 0.9. -/
def variationRatio (periods : List Period) : ℚ :=
  ((variationEntries periods).length : ℚ) / ((periods.length : ℚ) - 1)

/-- The phrase invariant of claim C2, as amended: consistent length of at
least 2 measures, and closure exactly when the attached cadence has
strength above 0.7 (a missing cadence having strength 0). -/
def PhraseInv (p : Phrase) : Prop :=
  p.length = p.endMeasure - p.startMeasure + 1 ∧ 2 ≤ p.length ∧
  (p.closure = "closed" ↔ 7/10 < getCadenceStrength p.cadence)

instance (p : Phrase) : Decidable (PhraseInv p) := by
  unfold PhraseInv; infer_instance

/-! ## Chain bookkeeping for the tree-invariant proof -/

/-- The measure handed on after a phrase chain: `s` for the empty chain,
`last end + 1` otherwise. -/
def chainNext (s : ℤ) : List Phrase → ℤ
  | [] => s
  | p :: rest => chainNext (p.endMeasure + 1) rest

/-- The measure handed on after a period chain. -/
def periodChainNext (s : ℤ) : List Period → ℤ
  | [] => s
  | pd :: rest => periodChainNext (pd.endMeasure + 1) rest

/-- A period as produced by `createPeriod` on a non-empty chained slice:
non-empty phrase list chained from the stored `startMeasure`, the stored
`endMeasure` being the last phrase's end. -/
def PeriodOK (pd : Period) : Prop :=
  pd.phrases ≠ [] ∧ ChainedFrom pd.startMeasure pd.phrases ∧
  chainNext pd.startMeasure pd.phrases = pd.endMeasure + 1

/-- `gs` lists non-empty groups of consecutive periods of the list, in
order, possibly skipping periods before, between and after the groups. -/
inductive Cover : List Period → List (List Period) → Prop where
  | nil (rest : List Period) : Cover rest []
  | skip (p : Period) {pds : List Period} {gs : List (List Period)} :
      Cover pds gs → Cover (p :: pds) gs
  | group {g pds : List Period} {gs : List (List Period)} :
      g ≠ [] → Cover pds gs → Cover (g ++ pds) (g :: gs)

/-- The span of a form section is exactly the span of its group. -/
def SecSpanOf (sec : FormSection) (g : List Period) : Prop :=
  sec.startMeasure = g.headI.startMeasure ∧ sec.endMeasure = g.getLastI.endMeasure

/-- The sections' measure spans are, in order, the spans of an ordered
list of disjoint groups of consecutive periods of `pds`. -/
def SectionsOf (pds : List Period) (secs : List FormSection) : Prop :=
  ∃ gs, Cover pds gs ∧ List.Forall₂ SecSpanOf secs gs


/-! # Theorems -/

section ConcreteEvaluation

attribute [local semireducible] Rat.add Rat.sub Rat.mul Rat.inv

set_option maxRecDepth 20000

/-- C5 (counterexample): in A minor, with the measure-1 bass on scale
degree 3 (D, iv) and the measure-2 bass on degree 4 (E, V), the detector
emits a Half cadence of confidence 0.8 — not a Phrygian cadence: the
`currDegree = 4` rule fires first. -/
theorem C5_counterexample :
    getScaleDegree (some "D3") (getTonicFromKey ⟨0, "minor"⟩) = 3 ∧
    getScaleDegree (some "E3") (getTonicFromKey ⟨0, "minor"⟩) = 4 ∧
    (detectCadences cexIds c5Notes ⟨0, "minor"⟩).map
      (fun c => (c.type, c.strength, c.confidence)) = [("half", "weak", 4/5)] ∧
    (detectCadences cexIds c5Notes ⟨0, "minor"⟩).all
      (fun c => c.type ≠ "phrygian") = true := by
  refine ⟨by decide, by decide, by decide, by decide⟩

end ConcreteEvaluation

/-- C5 (amended): whenever the previous bass degree is 3 (iv) and the
current bass degree is 4 (V), `classifyCadence` returns a Half cadence
(strength `weak`, confidence 0.8) in every mode: the Half rule
(`currDegree = 4`) precedes and shadows the Phrygian rule, which is
unreachable. -/
theorem C5_theorem (id : String) (prev curr melody m : ℤ) (mode : String)
    (hp : prev = 3) (hc : curr = 4) :
    classifyCadence id prev curr melody m mode =
      some { id := id, measureNumber := m, beat := 0, type := "half",
             strength := "weak", confidence := 4/5 } := by
  subst hp hc
  simp [classifyCadence]

/-- C5 witness: the amended statement at the concrete degrees of the
counterexample input. -/
theorem C5_witness :
    classifyCadence "" 3 4 4 2 "minor" =
      some { id := "", measureNumber := 2, beat := 0, type := "half",
             strength := "weak", confidence := 4/5 } :=
  C5_theorem "" 3 4 4 2 "minor" rfl rfl


section ConcreteEvaluationB

attribute [local semireducible] Rat.add Rat.sub Rat.mul Rat.inv

set_option maxRecDepth 20000

/-- C6 (counterexample): the feature vector of a concrete phrase-node
record has dimension 22, not 23. -/
theorem C6_counterexample :
    (extractFeatureVector c6Features).length = 22 ∧
    (extractFeatureVector c6Features).length ≠ 23 := by
  constructor
  · decide
  · decide

end ConcreteEvaluationB

/-- C6 (amended): for every feature record the vector has dimension 22 —
one-hot(type, 6) ++ [confidence] ++ [min(1, length/16)] ++
[hasPrime, isCompound] ++ one-hot(cadence, 5 incl. none) ++
one-hot(periodType, 4 incl. none) ++ three emotion encodings, each emotion
encoding lying in {0, 0.5, 1}; the weight vector also has 22 entries, and
every stored example carries exactly this 22-dimensional vector. -/
theorem C6_theorem (f : NodeFeatures) (st : PreferenceManagerState) (s : Scheme)
    (r now : ℚ) :
    (extractFeatureVector f).length = 22 ∧
    (getWeightVector st).length = 22 ∧
    (∀ q ∈ (extractFeatureVector f).drop 19, q = 0 ∨ q = 1/2 ∨ q = 1) ∧
    (pmRecordSelection st f s r now).examples =
      st.examples ++ [{ features := extractFeatureVector f, scheme := s,
                        reward := r, timestamp := now }] := by
  refine ⟨rfl, rfl, ?_, rfl⟩
  intro q hq
  simp only [extractFeatureVector, List.drop_append_of_le_length, List.append_assoc] at hq
  have hq' : q ∈ [(match f.emotionTempo with
      | some "fast" => (1 : ℚ)
      | some "moderate" => 1/2
      | some "slow" => 0
      | _ => 1/2),
    (match f.emotionDynamics with
      | some "strong" => (1 : ℚ)
      | some "moderate" => 1/2
      | some "soft" => 0
      | _ => 1/2),
    (match f.emotionTension with
      | some "tense" => (1 : ℚ)
      | some "neutral" => 1/2
      | some "relaxed" => 0
      | _ => 1/2)] := hq
  simp only [List.mem_cons, List.not_mem_nil, or_false] at hq'
  rcases hq' with h | h | h <;> subst h <;> split <;> simp

section ConcreteEvaluationB2

attribute [local semireducible] Rat.add Rat.sub Rat.mul Rat.inv

set_option maxRecDepth 20000

/-- C6 witness: the amended statement instantiated on the concrete feature
record, the membership hypothesis discharged at the first emotion entry. -/
theorem C6_witness :
    (extractFeatureVector c6Features).length = 22 ∧
    ((1 : ℚ)/2 = 0 ∨ (1 : ℚ)/2 = 1/2 ∨ (1 : ℚ)/2 = 1) :=
  ⟨(C6_theorem c6Features initPreferenceManager ⟨""⟩ 1 0).1,
   (C6_theorem c6Features initPreferenceManager ⟨""⟩ 1 0).2.2.1 (1/2) (by decide)⟩

end ConcreteEvaluationB2


/-- C7 (code bug): neither `PreferenceManager.recordSelection` nor the
`VisualSchemeRecommender.recordSelection` wrapper ever invokes
`updateFeatureWeights`: recording a selection appends the example but
leaves the feature weights — and hence the weight vector — unchanged, for
every state, feature record, scheme, action and reward.  In particular the
freshly-constructed manager still carries the initial weights after an
accepted phrase-node selection. -/
theorem C7_theorem (st : PreferenceManagerState) (f : NodeFeatures) (s : Scheme)
    (r now : ℚ) (node : RecommenderNode) (action : String) :
    (pmRecordSelection st f s r now).featureWeights = st.featureWeights ∧
    getWeightVector (pmRecordSelection st f s r now) = getWeightVector st ∧
    (recommenderRecordSelection st node s action now).featureWeights =
      st.featureWeights ∧
    (recommenderRecordSelection initPreferenceManager c7Node ⟨""⟩ "accept"
      0).featureWeights = initialFeatureWeights :=
  ⟨rfl, rfl, rfl, rfl⟩


/-- The squared terms of the self-distance all vanish. -/
theorem euclideanDistance_self (v : Chroma) : euclideanDistance v v = 0 := by
  have h : (((v : List ℚ).zip v).map (fun p => (p.1 - p.2) ^ 2)).sum = 0 := by
    induction v with
    | nil => simp
    | cons a t ih => simpa using ih
  simp [euclideanDistance, h]

/-- The frame cost of a sequence against itself vanishes on the diagonal. -/
theorem dtwCost_self (s : List Chroma) (i : ℕ) : dtwCost s s i i = 0 := by
  simp [dtwCost, euclideanDistance_self]

/-- The DTW cost matrix of a self-alignment vanishes on the diagonal. -/
theorem dtwMatrix_self_diag (s : List Chroma) : ∀ i, dtwMatrix s s i i = 0 := by
  intro i
  induction i with
  | zero => simp [dtwMatrix]
  | succ i ih =>
    rw [dtwMatrix]
    rw [ih, dtwCost_self]
    have h1 : min (dtwMatrix s s (i + 1) i) (0 : ENNReal) = 0 :=
      min_eq_right (zero_le _)
    rw [h1]
    rw [min_eq_right (zero_le _)]
    simp

/-- Backtracking a self-alignment from `(i, i)` follows the diagonal. -/
theorem backtrack_self_diag (s : List Chroma) :
    ∀ i, backtrack (dtwMatrix s s) i i = (List.range i).map (fun k => (k, k)) := by
  intro i
  induction i with
  | zero => simp [backtrack]
  | succ i ih =>
    rw [backtrack]
    have hdiag : dtwMatrix s s i i = 0 := dtwMatrix_self_diag s i
    rw [if_pos ⟨by rw [hdiag]; exact zero_le _, by rw [hdiag]; exact zero_le _⟩]
    rw [ih, List.range_succ]
    simp

/-- C9: aligning a non-empty chroma sequence with itself yields the diagonal
path `[(0,0), …, (n−1,n−1)]` with accumulated distance 0, and the alignment
confidence is exactly 1. -/
theorem C9_theorem (S : List Chroma) (h : S ≠ []) (opts : AlignOptions) :
    computeDTW S S = ((List.range S.length).map (fun k => (k, k)), 0) ∧
    (align S S opts).confidence = 1 := by
  have hn : S.length ≠ 0 := fun hc => h (List.length_eq_zero.mp hc)
  have hdtw : computeDTW S S = ((List.range S.length).map (fun k => (k, k)), 0) := by
    unfold computeDTW
    rw [if_neg (by simp [hn])]
    show (backtrack (dtwMatrix S S) S.length S.length,
      dtwMatrix S S S.length S.length) = _
    rw [backtrack_self_diag, dtwMatrix_self_diag]
  refine ⟨hdtw, ?_⟩
  show (let r := computeDTW S S; _ : AlignmentResult).confidence = 1
  rw [align, hdtw]
  have hne : (0 : ENNReal) ≠ ⊤ := by simp
  simp only [hne, if_false]
  norm_num

/-- C9 witness: the one-frame self-alignment. -/
theorem C9_witness :
    c9Chroma ≠ [] ∧
    computeDTW c9Chroma c9Chroma = ([(0, 0)], 0) ∧
    (align c9Chroma c9Chroma {}).confidence = 1 := by
  refine ⟨by simp [c9Chroma], ?_, (C9_theorem c9Chroma (by simp [c9Chroma]) {}).2⟩
  have h := (C9_theorem c9Chroma (by simp [c9Chroma]) {}).1
  simpa using h

/-- C10: when either chroma sequence is empty, `computeDTW` returns the
empty path with distance ∞ (no exception: the guard returns early), the
alignment maps stay empty, and `getTimestamp` returns 0 for every measure
number. -/
theorem C10_theorem (s a : List Chroma) (h : s = [] ∨ a = []) (opts : AlignOptions) :
    computeDTW s a = ([], ⊤) ∧
    (align s a opts).path = [] ∧
    (align s a opts).measureToTime = [] ∧
    (align s a opts).distance = ⊤ ∧
    ∀ m : ℤ, getTimestamp (align s a opts).measureToTime m = 0 := by
  have hdtw : computeDTW s a = ([], ⊤) := by
    unfold computeDTW
    rcases h with h | h <;> subst h <;> simp
  have halign3 : (align s a opts).path = [] ∧
      (align s a opts).measureToTime = [] ∧ (align s a opts).distance = ⊤ := by
    rw [align, hdtw]
    exact ⟨rfl, rfl, rfl⟩
  refine ⟨hdtw, halign3.1, halign3.2.1, halign3.2.2, ?_⟩
  intro m
  rw [halign3.2.1]
  rfl

/-- C10 witness: the empty symbolic side against a one-frame acoustic side,
evaluated at measure 5. -/
theorem C10_witness :
    (([] : List Chroma) = [] ∨ c10Acoustic = []) ∧
    computeDTW [] c10Acoustic = ([], ⊤) ∧
    getTimestamp (align [] c10Acoustic {}).measureToTime 5 = 0 :=
  ⟨Or.inl rfl,
   (C10_theorem [] c10Acoustic (Or.inl rfl) {}).1,
   (C10_theorem [] c10Acoustic (Or.inl rfl) {}).2.2.2.2 5⟩


/-- The material-relationship pass preserves the phrase invariant (it only
rewrites `material`, `relationship` and `headSimilarity`). -/
theorem analyzePhraseMaterialsGo_inv (l : List Phrase) :
    ∀ acc, (∀ p ∈ acc, PhraseInv p) → (∀ p ∈ l, PhraseInv p) →
    ∀ p ∈ analyzePhraseMaterialsGo acc l, PhraseInv p := by
  induction l with
  | nil =>
    intro acc hacc _ p hp
    exact hacc p hp
  | cons curr rest ih =>
    intro acc hacc hl p hp
    rw [analyzePhraseMaterialsGo] at hp
    have hcurr : PhraseInv curr := hl curr (by simp)
    have hrest : ∀ q ∈ rest, PhraseInv q := fun q hq => hl q (by simp [hq])
    rcases hlast : acc.getLast? with _ | prev
    · rw [hlast] at hp
      refine ih (acc ++ [curr]) ?_ hrest p hp
      intro q hq
      rcases List.mem_append.mp hq with h | h
      · exact hacc q h
      · simp at h; subst h; exact hcurr
    · rw [hlast] at hp
      refine ih _ ?_ hrest p hp
      intro q hq
      rcases List.mem_append.mp hq with h | h
      · exact hacc q h
      · simp at h
        subst h
        split_ifs <;>
          simpa [PhraseInv] using hcurr

/-- Each phrase pushed by the cadence walk satisfies the invariant. -/
theorem phraseCadenceStep_inv (ids : IdGen) (notes : List Note)
    (sps : List SubPhrase) (st : PhraseLoopState) (c : Cadence)
    (h : ∀ p ∈ st.phrases, PhraseInv p) :
    ∀ p ∈ (phraseCadenceStep ids notes sps st c).phrases, PhraseInv p := by
  intro p hp
  unfold phraseCadenceStep at hp
  by_cases h1 : 2 ≤ c.measureNumber - st.phraseStart + 1 ∧
      c.measureNumber - st.phraseStart + 1 ≤ 12
  · rw [if_pos h1] at hp
    simp only [List.mem_append, List.mem_singleton] at hp
    rcases hp with hp | hp
    · exact h p hp
    · subst hp
      unfold PhraseInv
      dsimp only
      refine ⟨by ring, h1.1, ?_⟩
      by_cases hc : getCadenceStrength (some c) > 7/10
      · rw [if_pos hc]
        exact iff_of_true rfl hc
      · rw [if_neg hc]
        exact iff_of_false (by decide) hc
  · rw [if_neg h1] at hp
    by_cases h2 : 12 < c.measureNumber - st.phraseStart + 1
    · rw [if_pos h2] at hp
      simp only [List.mem_append, List.mem_cons, List.mem_singleton,
        List.not_mem_nil, or_false] at hp
      rcases hp with hp | hp | hp
      · exact h p hp
      · subst hp
        unfold PhraseInv
        dsimp only
        refine ⟨by ring, by omega, ?_⟩
        exact iff_of_false (by decide) (by norm_num [getCadenceStrength])
      · subst hp
        unfold PhraseInv
        dsimp only
        refine ⟨by ring, by omega, ?_⟩
        by_cases hc : getCadenceStrength (some c) > 7/10
        · rw [if_pos hc]
          exact iff_of_true rfl hc
        · rw [if_neg hc]
          exact iff_of_false (by decide) hc
    · rw [if_neg h2] at hp
      exact h p hp

/-- The cadence walk preserves the invariant over any cadence list. -/
theorem phraseFold_inv (ids : IdGen) (notes : List Note) (sps : List SubPhrase) :
    ∀ (cadences : List Cadence) (st : PhraseLoopState),
    (∀ p ∈ st.phrases, PhraseInv p) →
    ∀ p ∈ (cadences.foldl (phraseCadenceStep ids notes sps) st).phrases, PhraseInv p := by
  intro cadences
  induction cadences with
  | nil => intro st h; exact h
  | cons c rest ih =>
    intro st h
    exact ih _ (phraseCadenceStep_inv ids notes sps st c h)

section ConcreteEvaluationC2

attribute [local semireducible] Rat.add Rat.sub Rat.mul Rat.inv

set_option maxRecDepth 20000

end ConcreteEvaluationC2


/-- When the qualifying fraction strictly exceeds 60 %, the variation probe
succeeds with confidence `0.7 + 0.2·ratio`. -/
theorem detectVariationForm_success (ids : IdGen) (periods : List Period)
    (h3 : 3 ≤ periods.length) (hr : 3/5 < variationRatio periods) :
    detectVariationForm ids periods =
      { formType := "variation",
        sections := createVariationSections ids periods.headI
          (variationEntries periods),
        confidence := 7/10 + variationRatio periods * (1/5),
        description := some "variation form" } := by
  unfold detectVariationForm
  rw [if_neg (by omega)]
  unfold variationRatio at hr
  rw [if_pos hr]
  unfold variationRatio
  rfl

/-- C8 (amended): for every period list with `N ≥ 4`, if the fraction of
periods 1…N−1 whose similarity to period 0 lies strictly between 0.3 and
0.9 is **strictly greater than** 60 %, then `detectForm` returns the
variation form with confidence `0.7 + 0.2·ratio`.  (At exactly 60 % the
probe fails — see the counterexample.) -/
theorem C8_theorem (ids : IdGen) (periods : List Period)
    (h4 : 4 ≤ periods.length) (hr : 3/5 < variationRatio periods) :
    detectForm ids periods =
      { formType := "variation",
        sections := createVariationSections ids periods.headI
          (variationEntries periods),
        confidence := 7/10 + variationRatio periods * (1/5),
        description := some "variation form" } := by
  have hvf := detectVariationForm_success ids periods (by omega) hr
  unfold detectForm
  rw [if_neg (by omega : ¬ periods.length = 0)]
  rw [if_neg (by omega : ¬ periods.length = 1)]
  rw [if_neg (by omega : ¬ periods.length = 2)]
  rw [if_neg (by omega : ¬ periods.length = 3)]
  rw [hvf]
  rw [if_pos (by nlinarith [hr] : (7 : ℚ)/10 + variationRatio periods * (1/5) > 7/10)]

section ConcreteEvaluationC8

attribute [local semireducible] Rat.add Rat.sub Rat.mul Rat.inv

set_option maxRecDepth 40000

/-- C8 (counterexample): six periods of which exactly three of the five
non-theme periods qualify (similarity 0.4 each), so the fraction is exactly
60 % — at least 60 % as the claim demands — yet `detectForm` returns the
sonata form (confidence 0.65), not a variation form. -/
theorem C8_counterexample :
    variationRatio c8Periods = 3/5 ∧
    4 ≤ c8Periods.length ∧
    (detectForm cexIds c8Periods).formType = "sonata" ∧
    ¬ ((detectForm cexIds c8Periods).formType = "variation") := by
  refine ⟨by decide, by decide, by decide, by decide⟩

/-- C8 witness: four periods, all three non-theme periods qualifying
(fraction 1), so the amended statement yields the variation form with
confidence 0.9. -/
theorem C8_witness :
    4 ≤ w8Periods.length ∧ 3/5 < variationRatio w8Periods ∧
    detectForm cexIds w8Periods =
      { formType := "variation",
        sections := createVariationSections cexIds w8Periods.headI
          (variationEntries w8Periods),
        confidence := 7/10 + variationRatio w8Periods * (1/5),
        description := some "variation form" } :=
  ⟨by decide, by decide, C8_theorem cexIds w8Periods (by decide) (by decide)⟩

end ConcreteEvaluationC8

/-! ## Generic congruence helpers (determinism development) -/

theorem forall2_iff_map_eq {α β : Type} (norm : α → β) :
    ∀ xs ys : List α, List.Forall₂ (NEq norm) xs ys ↔ xs.map norm = ys.map norm := by
  intro xs
  induction xs with
  | nil =>
    intro ys; cases ys with
    | nil => simp
    | cons b bs => simp
  | cons a as ih =>
    intro ys; cases ys with
    | nil => simp
    | cons b bs => simp [ih, NEq]

theorem foldl_rel2 {α₁ α₂ σ₁ σ₂ : Type} (Ra : α₁ → α₂ → Prop) (R : σ₁ → σ₂ → Prop)
    (f₁ : σ₁ → α₁ → σ₁) (f₂ : σ₂ → α₂ → σ₂)
    (hstep : ∀ s₁ s₂ a₁ a₂, R s₁ s₂ → Ra a₁ a₂ → R (f₁ s₁ a₁) (f₂ s₂ a₂)) :
    ∀ {l₁ : List α₁} {l₂ : List α₂}, List.Forall₂ Ra l₁ l₂ →
      ∀ s₁ s₂, R s₁ s₂ → R (l₁.foldl f₁ s₁) (l₂.foldl f₂ s₂) := by
  intro l₁ l₂ h
  induction h with
  | nil => intro s₁ s₂ hs; simpa using hs
  | cons ha _ ih =>
    intro s₁ s₂ hs
    exact ih _ _ (hstep _ _ _ _ hs ha)

theorem map_rel2 {α₁ α₂ β₁ β₂ : Type} (Ra : α₁ → α₂ → Prop) (Rb : β₁ → β₂ → Prop)
    (f₁ : α₁ → β₁) (f₂ : α₂ → β₂)
    (hf : ∀ a₁ a₂, Ra a₁ a₂ → Rb (f₁ a₁) (f₂ a₂)) :
    ∀ {l₁ : List α₁} {l₂ : List α₂}, List.Forall₂ Ra l₁ l₂ →
      List.Forall₂ Rb (l₁.map f₁) (l₂.map f₂) := by
  intro l₁ l₂ h
  induction h with
  | nil => exact List.Forall₂.nil
  | cons ha _ ih => exact List.Forall₂.cons (hf _ _ ha) ih

theorem filter_rel2 {α₁ α₂ : Type} (Ra : α₁ → α₂ → Prop)
    (p₁ : α₁ → Bool) (p₂ : α₂ → Bool)
    (hp : ∀ a₁ a₂, Ra a₁ a₂ → p₁ a₁ = p₂ a₂) :
    ∀ {l₁ : List α₁} {l₂ : List α₂}, List.Forall₂ Ra l₁ l₂ →
      List.Forall₂ Ra (l₁.filter p₁) (l₂.filter p₂) := by
  intro l₁ l₂ h
  induction h with
  | nil => exact List.Forall₂.nil
  | cons ha _ ih =>
    rename_i a₁ a₂ as bs
    rw [List.filter_cons, List.filter_cons, hp _ _ ha]
    split
    · exact List.Forall₂.cons ha ih
    · exact ih

theorem append_rel2 {α₁ α₂ : Type} (Ra : α₁ → α₂ → Prop)
    {l₁ l₃ : List α₁} {l₂ l₄ : List α₂}
    (h : List.Forall₂ Ra l₁ l₂) (h' : List.Forall₂ Ra l₃ l₄) :
    List.Forall₂ Ra (l₁ ++ l₃) (l₂ ++ l₄) := by
  induction h with
  | nil => simpa using h'
  | cons ha _ ih => exact List.Forall₂.cons ha ih

theorem optRel_none_some {α₁ α₂ : Type} {R : α₁ → α₂ → Prop} {a : α₂}
    (h : OptRel R none (some a)) : False := h

theorem optRel_some_none {α₁ α₂ : Type} {R : α₁ → α₂ → Prop} {a : α₁}
    (h : OptRel R (some a) none) : False := h

theorem optRel_some_some {α₁ α₂ : Type} {R : α₁ → α₂ → Prop}
    {o₁ : Option α₁} {o₂ : Option α₂} (h : OptRel R o₁ o₂) {a : α₁} {b : α₂}
    (h₁ : o₁ = some a) (h₂ : o₂ = some b) : R a b := by
  rw [h₁, h₂] at h; exact h

theorem optRel_mixed_ns {α₁ α₂ : Type} {R : α₁ → α₂ → Prop}
    {o₁ : Option α₁} {o₂ : Option α₂} (h : OptRel R o₁ o₂) {b : α₂}
    (h₁ : o₁ = none) (h₂ : o₂ = some b) : False := by
  rw [h₁, h₂] at h; exact h

theorem optRel_mixed_sn {α₁ α₂ : Type} {R : α₁ → α₂ → Prop}
    {o₁ : Option α₁} {o₂ : Option α₂} (h : OptRel R o₁ o₂) {a : α₁}
    (h₁ : o₁ = some a) (h₂ : o₂ = none) : False := by
  rw [h₁, h₂] at h; exact h

theorem find?_rel2 {α₁ α₂ : Type} (Ra : α₁ → α₂ → Prop)
    (p₁ : α₁ → Bool) (p₂ : α₂ → Bool)
    (hp : ∀ a₁ a₂, Ra a₁ a₂ → p₁ a₁ = p₂ a₂) :
    ∀ {l₁ : List α₁} {l₂ : List α₂}, List.Forall₂ Ra l₁ l₂ →
      OptRel Ra (l₁.find? p₁) (l₂.find? p₂) := by
  intro l₁ l₂ h
  induction h with
  | nil => trivial
  | cons ha _ ih =>
    rename_i a₁ a₂ as bs
    rw [List.find?_cons, List.find?_cons, hp _ _ ha]
    split
    · exact ha
    · exact ih

theorem get?_rel2 {α₁ α₂ : Type} (Ra : α₁ → α₂ → Prop) :
    ∀ {l₁ : List α₁} {l₂ : List α₂}, List.Forall₂ Ra l₁ l₂ →
      ∀ n, OptRel Ra (l₁.get? n) (l₂.get? n) := by
  intro l₁ l₂ h
  induction h with
  | nil => intro n; trivial
  | cons ha _ ih =>
    intro n
    cases n with
    | zero => exact ha
    | succ k => exact ih k

theorem head?_rel2 {α₁ α₂ : Type} (Ra : α₁ → α₂ → Prop)
    {l₁ : List α₁} {l₂ : List α₂} (h : List.Forall₂ Ra l₁ l₂) :
    OptRel Ra l₁.head? l₂.head? := by
  cases h with
  | nil => trivial
  | cons ha _ => exact ha

theorem getLast?_rel2 {α₁ α₂ : Type} (Ra : α₁ → α₂ → Prop) :
    ∀ {l₁ : List α₁} {l₂ : List α₂}, List.Forall₂ Ra l₁ l₂ →
      OptRel Ra l₁.getLast? l₂.getLast? := by
  intro l₁ l₂ h
  induction h with
  | nil => trivial
  | cons ha h ih =>
    rename_i a₁ a₂ as bs
    cases h with
    | nil => exact ha
    | cons hb h' =>
      simpa [List.getLast?_cons_cons] using ih

theorem take_rel2 {α₁ α₂ : Type} (Ra : α₁ → α₂ → Prop) :
    ∀ {l₁ : List α₁} {l₂ : List α₂}, List.Forall₂ Ra l₁ l₂ →
      ∀ n, List.Forall₂ Ra (l₁.take n) (l₂.take n) := by
  intro l₁ l₂ h
  induction h with
  | nil => intro n; simpa using List.Forall₂.nil
  | cons ha _ ih =>
    intro n
    cases n with
    | zero => exact List.Forall₂.nil
    | succ k => exact List.Forall₂.cons ha (ih k)

theorem drop_rel2 {α₁ α₂ : Type} (Ra : α₁ → α₂ → Prop) :
    ∀ {l₁ : List α₁} {l₂ : List α₂}, List.Forall₂ Ra l₁ l₂ →
      ∀ n, List.Forall₂ Ra (l₁.drop n) (l₂.drop n) := by
  intro l₁ l₂ h
  induction h with
  | nil => intro n; simpa using List.Forall₂.nil
  | cons ha h ih =>
    intro n
    cases n with
    | zero => exact List.Forall₂.cons ha h
    | succ k => exact ih k

theorem dropLast_rel2 {α₁ α₂ : Type} (Ra : α₁ → α₂ → Prop) :
    ∀ {l₁ : List α₁} {l₂ : List α₂}, List.Forall₂ Ra l₁ l₂ →
      List.Forall₂ Ra l₁.dropLast l₂.dropLast := by
  intro l₁ l₂ h
  induction h with
  | nil => exact List.Forall₂.nil
  | cons ha h ih =>
    rename_i a₁ a₂ as bs
    cases h with
    | nil => exact List.Forall₂.nil
    | cons hb h' =>
      simpa [List.dropLast_cons₂] using List.Forall₂.cons ha ih

theorem enumFrom_rel2 {α₁ α₂ : Type} (Ra : α₁ → α₂ → Prop) :
    ∀ {l₁ : List α₁} {l₂ : List α₂}, List.Forall₂ Ra l₁ l₂ →
      ∀ k, List.Forall₂ (fun p q => p.1 = q.1 ∧ Ra p.2 q.2)
        (l₁.enumFrom k) (l₂.enumFrom k) := by
  intro l₁ l₂ h
  induction h with
  | nil => intro k; exact List.Forall₂.nil
  | cons ha _ ih =>
    intro k
    exact List.Forall₂.cons ⟨rfl, ha⟩ (ih (k + 1))

theorem enum_rel2 {α₁ α₂ : Type} (Ra : α₁ → α₂ → Prop)
    {l₁ : List α₁} {l₂ : List α₂} (h : List.Forall₂ Ra l₁ l₂) :
    List.Forall₂ (fun p q => p.1 = q.1 ∧ Ra p.2 q.2) l₁.enum l₂.enum :=
  enumFrom_rel2 Ra h 0

theorem zip_tail_rel2 {α₁ α₂ : Type} (Ra : α₁ → α₂ → Prop) :
    ∀ {l₁ : List α₁} {l₂ : List α₂}, List.Forall₂ Ra l₁ l₂ →
      List.Forall₂ (fun p q => Ra p.1 q.1 ∧ Ra p.2 q.2)
        (l₁.zip l₁.tail) (l₂.zip l₂.tail) := by
  intro l₁ l₂ h
  induction h with
  | nil => exact List.Forall₂.nil
  | cons ha h ih =>
    rename_i a₁ a₂ as bs
    cases h with
    | nil => exact List.Forall₂.nil
    | cons hb h' =>
      exact List.Forall₂.cons ⟨ha, hb⟩ ih


theorem neq_field {α β γ : Type} (norm : α → β) (f : β → γ) {a₁ a₂ : α}
    (h : NEq norm a₁ a₂) : f (norm a₁) = f (norm a₂) :=
  congrArg f h

theorem forall2_eq_refl {α : Type} (l : List α) : List.Forall₂ (Eq (α := α)) l l := by
  induction l with
  | nil => exact List.Forall₂.nil
  | cons a as ih => exact List.Forall₂.cons rfl ih

/-! ## Norm-field inversion lemmas -/

theorem normCadence_fields {c₁ c₂ : Cadence} (h : NEq normCadence c₁ c₂) :
    c₁.measureNumber = c₂.measureNumber ∧ c₁.beat = c₂.beat ∧ c₁.type = c₂.type ∧
    c₁.strength = c₂.strength ∧ c₁.confidence = c₂.confidence := by
  cases c₁; cases c₂
  simpa [NEq, normCadence] using h

/-! ## Cadence-stage congruence -/

theorem classifyCadence_norm (id₁ id₂ : String) (p c m mm : ℤ) (mode : String) :
    OptRel (NEq normCadence) (classifyCadence id₁ p c m mm mode)
      (classifyCadence id₂ p c m mm mode) := by
  unfold classifyCadence
  split_ifs <;> first | trivial | exact rfl

theorem detectCadences_norm (ids₁ ids₂ : IdGen) (notes : List Note) (ks : KeySignature) :
    (detectCadences ids₁ notes ks).map normCadence =
    (detectCadences ids₂ notes ks).map normCadence := by
  unfold detectCadences
  rw [← forall2_iff_map_eq]
  refine foldl_rel2 Eq (List.Forall₂ (NEq normCadence)) _ _ ?_
    (forall2_eq_refl _) [] [] List.Forall₂.nil
  intro s₁ s₂ a₁ a₂ hs ha
  subst ha
  dsimp only
  cases h1 : getLowestNote a₁.2.1.2 with
  | none => exact hs
  | some prevBass =>
    cases h2 : getLowestNote a₁.2.2.2 with
    | none => exact hs
    | some currBass =>
      dsimp only
      have hc := classifyCadence_norm (ids₁ a₁.1) (ids₂ a₁.1)
        (getScaleDegree prevBass.pitch (getTonicFromKey ks))
        (getScaleDegree currBass.pitch (getTonicFromKey ks))
        (match getHighestNote a₁.2.2.2 with
         | some mel => getScaleDegree mel.pitch (getTonicFromKey ks)
         | none => -1)
        a₁.2.2.1 (if ks.mode = "" then "major" else ks.mode)
      cases hc1 : classifyCadence (ids₁ a₁.1)
          (getScaleDegree prevBass.pitch (getTonicFromKey ks))
          (getScaleDegree currBass.pitch (getTonicFromKey ks))
          (match getHighestNote a₁.2.2.2 with
           | some mel => getScaleDegree mel.pitch (getTonicFromKey ks)
           | none => -1)
          a₁.2.2.1 (if ks.mode = "" then "major" else ks.mode) with
      | none =>
        cases hc2 : classifyCadence (ids₂ a₁.1)
            (getScaleDegree prevBass.pitch (getTonicFromKey ks))
            (getScaleDegree currBass.pitch (getTonicFromKey ks))
            (match getHighestNote a₁.2.2.2 with
             | some mel => getScaleDegree mel.pitch (getTonicFromKey ks)
             | none => -1)
            a₁.2.2.1 (if ks.mode = "" then "major" else ks.mode) with
        | none => exact hs
        | some c₂ => rw [hc1, hc2] at hc; exact absurd hc (by simp [OptRel])
      | some c₁ =>
        cases hc2 : classifyCadence (ids₂ a₁.1)
            (getScaleDegree prevBass.pitch (getTonicFromKey ks))
            (getScaleDegree currBass.pitch (getTonicFromKey ks))
            (match getHighestNote a₁.2.2.2 with
             | some mel => getScaleDegree mel.pitch (getTonicFromKey ks)
             | none => -1)
            a₁.2.2.1 (if ks.mode = "" then "major" else ks.mode) with
        | none => rw [hc1, hc2] at hc; exact absurd hc (by simp [OptRel])
        | some c₂ =>
          rw [hc1, hc2] at hc
          exact append_rel2 _ hs (List.Forall₂.cons hc List.Forall₂.nil)

/-! ## Motive-stage congruence -/

theorem isFragmentation_congr {a₁ a₂ b₁ b₂ : Motive}
    (ha : NEq normMotive a₁ a₂) (hb : NEq normMotive b₁ b₂) :
    isFragmentation a₁ b₁ = isFragmentation a₂ b₂ := by
  have h1 : a₁.notes = a₂.notes := neq_field normMotive Motive.notes ha
  have h2 : b₁.notes = b₂.notes := neq_field normMotive Motive.notes hb
  have h3 : a₁.intervalPattern = a₂.intervalPattern := neq_field normMotive Motive.intervalPattern ha
  have h4 : b₁.intervalPattern = b₂.intervalPattern := neq_field normMotive Motive.intervalPattern hb
  unfold isFragmentation
  rw [h1, h2, h3, h4]

theorem analyzeMotiveRelationship_congr {a₁ a₂ b₁ b₂ : Motive}
    (ha : NEq normMotive a₁ a₂) (hb : NEq normMotive b₁ b₂) :
    analyzeMotiveRelationship a₁ b₁ = analyzeMotiveRelationship a₂ b₂ := by
  have h1 : a₁.notes = a₂.notes := neq_field normMotive Motive.notes ha
  have h2 : b₁.notes = b₂.notes := neq_field normMotive Motive.notes hb
  have h3 : a₁.intervalPattern = a₂.intervalPattern := neq_field normMotive Motive.intervalPattern ha
  have h4 : b₁.intervalPattern = b₂.intervalPattern := neq_field normMotive Motive.intervalPattern hb
  have h5 : a₁.rhythmPattern = a₂.rhythmPattern := neq_field normMotive Motive.rhythmPattern ha
  have h6 : b₁.rhythmPattern = b₂.rhythmPattern := neq_field normMotive Motive.rhythmPattern hb
  unfold analyzeMotiveRelationship
  rw [isFragmentation_congr ha hb, h1, h2, h3, h4, h5, h6]

theorem normMotive_override (x : Motive) (rel : MotiveRel) (r : Option String) :
    normMotive { x with relationship := some rel, relatedTo := r } =
      { (normMotive x) with
        relationship := some rel,
        relatedTo := r.map (fun _ => "") } := by
  cases x; rfl

theorem labelMotiveRelationships_norm :
    ∀ {ms₁ ms₂ : List Motive}, List.Forall₂ (NEq normMotive) ms₁ ms₂ →
      List.Forall₂ (NEq normMotive) (labelMotiveRelationships ms₁)
        (labelMotiveRelationships ms₂) := by
  intro ms₁ ms₂ h
  cases h with
  | nil => exact List.Forall₂.nil
  | cons ha h' =>
    rename_i a₁ a₂ as bs
    unfold labelMotiveRelationships
    refine List.Forall₂.cons ha ?_
    have hz := zip_tail_rel2 (NEq normMotive) (List.Forall₂.cons ha h')
    refine map_rel2 _ (NEq normMotive) _ _ ?_ hz
    intro p q hpq
    obtain ⟨hp1, hp2⟩ := hpq
    have hrel : analyzeMotiveRelationship p.1 p.2 = analyzeMotiveRelationship q.1 q.2 :=
      analyzeMotiveRelationship_congr hp1 hp2
    show normMotive _ = normMotive _
    dsimp only
    rw [normMotive_override, normMotive_override, hp2, hrel]
    by_cases hc : (analyzeMotiveRelationship q.1 q.2).type ≠ "new" <;> simp [hc]

theorem motiveBeatStep_rel (ids₁ ids₂ : IdGen) (bpm : ℕ) (mn : ℤ)
    (mns : List Note) {st₁ st₂ : MotiveLoopState}
    (h : List.Forall₂ (NEq normMotive) st₁.motives st₂.motives ∧
      st₁.motiveIndex = st₂.motiveIndex ∧ st₁.currentMotive = st₂.currentMotive ∧
      st₁.motiveStartBeat = st₂.motiveStartBeat) (beat : ℕ) :
    List.Forall₂ (NEq normMotive) (motiveBeatStep ids₁ bpm mn mns st₁ beat).motives
        (motiveBeatStep ids₂ bpm mn mns st₂ beat).motives ∧
      (motiveBeatStep ids₁ bpm mn mns st₁ beat).motiveIndex =
        (motiveBeatStep ids₂ bpm mn mns st₂ beat).motiveIndex ∧
      (motiveBeatStep ids₁ bpm mn mns st₁ beat).currentMotive =
        (motiveBeatStep ids₂ bpm mn mns st₂ beat).currentMotive ∧
      (motiveBeatStep ids₁ bpm mn mns st₁ beat).motiveStartBeat =
        (motiveBeatStep ids₂ bpm mn mns st₂ beat).motiveStartBeat := by
  obtain ⟨hm, hi, hc, hb⟩ := h
  cases st₁ with
  | mk m₁ i₁ c₁ b₁ =>
    cases st₂ with
    | mk m₂ i₂ c₂ b₂ =>
      dsimp only at hm hi hc hb
      subst hi; subst hc; subst hb
      unfold motiveBeatStep
      dsimp only
      split_ifs <;>
        exact ⟨by first
          | exact hm
          | exact append_rel2 _ hm (List.Forall₂.cons rfl List.Forall₂.nil),
          rfl, rfl, rfl⟩

theorem motiveMeasureStep_rel (ids₁ ids₂ : IdGen) (bpm : ℕ)
    {st₁ st₂ : MotiveLoopState}
    (h : List.Forall₂ (NEq normMotive) st₁.motives st₂.motives ∧
      st₁.motiveIndex = st₂.motiveIndex ∧ st₁.currentMotive = st₂.currentMotive ∧
      st₁.motiveStartBeat = st₂.motiveStartBeat) (g : ℤ × List Note) :
    List.Forall₂ (NEq normMotive) (motiveMeasureStep ids₁ bpm st₁ g).motives
        (motiveMeasureStep ids₂ bpm st₂ g).motives ∧
      (motiveMeasureStep ids₁ bpm st₁ g).motiveIndex =
        (motiveMeasureStep ids₂ bpm st₂ g).motiveIndex ∧
      (motiveMeasureStep ids₁ bpm st₁ g).currentMotive =
        (motiveMeasureStep ids₂ bpm st₂ g).currentMotive ∧
      (motiveMeasureStep ids₁ bpm st₁ g).motiveStartBeat =
        (motiveMeasureStep ids₂ bpm st₂ g).motiveStartBeat := by
  obtain ⟨hm, hi, hc, hb⟩ := h
  unfold motiveMeasureStep
  split_ifs with hg
  · exact ⟨hm, hi, hc, hb⟩
  · have hinner := foldl_rel2 Eq
      (fun (s₁ s₂ : MotiveLoopState) =>
        List.Forall₂ (NEq normMotive) s₁.motives s₂.motives ∧
        s₁.motiveIndex = s₂.motiveIndex ∧ s₁.currentMotive = s₂.currentMotive ∧
        s₁.motiveStartBeat = s₂.motiveStartBeat)
      (motiveBeatStep ids₁ bpm g.1 g.2) (motiveBeatStep ids₂ bpm g.1 g.2)
      (fun u₁ u₂ b₁ b₂ hu hb₂ => hb₂ ▸ motiveBeatStep_rel ids₁ ids₂ bpm g.1 g.2 hu b₁)
      (forall2_eq_refl (List.range bpm))
      { st₁ with currentMotive := [], motiveStartBeat := 0 }
      { st₂ with currentMotive := [], motiveStartBeat := 0 }
      ⟨hm, hi, rfl, rfl⟩
    obtain ⟨hm', hi', hc', hb'⟩ := hinner
    dsimp only
    rw [hc', hi', hb']
    split_ifs with h2
    · exact ⟨append_rel2 _ hm' (List.Forall₂.cons rfl List.Forall₂.nil), rfl, rfl, rfl⟩
    · exact ⟨hm', hi', hc', hb'⟩

theorem detectMotives_norm (ids₁ ids₂ : IdGen) (notes : List Note) (ts : TimeSignature) :
    (detectMotives ids₁ notes ts).map normMotive =
    (detectMotives ids₂ notes ts).map normMotive := by
  unfold detectMotives
  split_ifs
  · rfl
  · rw [← forall2_iff_map_eq]
    refine labelMotiveRelationships_norm ?_
    exact (foldl_rel2 Eq
      (fun (s₁ s₂ : MotiveLoopState) =>
        List.Forall₂ (NEq normMotive) s₁.motives s₂.motives ∧
        s₁.motiveIndex = s₂.motiveIndex ∧ s₁.currentMotive = s₂.currentMotive ∧
        s₁.motiveStartBeat = s₂.motiveStartBeat)
      (motiveMeasureStep ids₁ ts.beats) (motiveMeasureStep ids₂ ts.beats)
      (fun u₁ u₂ b₁ b₂ hu hb₂ => hb₂ ▸ motiveMeasureStep_rel ids₁ ids₂ ts.beats hu b₁)
      (forall2_eq_refl (groupNotesByMeasure notes))
      ⟨[], 0, [], 0⟩ ⟨[], 0, [], 0⟩ ⟨List.Forall₂.nil, rfl, rfl, rfl⟩).1


/-! ## Sub-phrase-stage congruence -/

theorem calculateSubPhraseSimilarity_congr {a₁ a₂ b₁ b₂ : SubPhrase}
    (ha : NEq normSubPhrase a₁ a₂) (hb : NEq normSubPhrase b₁ b₂) :
    calculateSubPhraseSimilarity a₁ b₁ = calculateSubPhraseSimilarity a₂ b₂ := by
  have h1 : a₁.notes = a₂.notes := neq_field normSubPhrase SubPhrase.notes ha
  have h2 : b₁.notes = b₂.notes := neq_field normSubPhrase SubPhrase.notes hb
  unfold calculateSubPhraseSimilarity
  rw [h1, h2]

theorem getMotivesInRange_rel {ms₁ ms₂ : List Motive}
    (h : List.Forall₂ (NEq normMotive) ms₁ ms₂) (mn : ℤ) (sb eb : ℕ) :
    List.Forall₂ (NEq normMotive) (getMotivesInRange ms₁ mn sb eb)
      (getMotivesInRange ms₂ mn sb eb) := by
  unfold getMotivesInRange
  refine filter_rel2 _ _ _ ?_ h
  intro a₁ a₂ ha
  have h1 : a₁.measureNumber = a₂.measureNumber :=
    neq_field normMotive Motive.measureNumber ha
  have h2 : a₁.startBeat = a₂.startBeat := neq_field normMotive Motive.startBeat ha
  rw [h1, h2]

theorem normSubPhrase_material_congr {sp₁ sp₂ : SubPhrase}
    (h : NEq normSubPhrase sp₁ sp₂) (mat : String) :
    normSubPhrase { sp₁ with material := mat } =
    normSubPhrase { sp₂ with material := mat } := by
  cases sp₁; cases sp₂
  simp only [NEq, normSubPhrase, SubPhrase.mk.injEq] at h ⊢
  tauto

theorem normSubPhrase_override_congr {sp₁ sp₂ prev₁ prev₂ : SubPhrase}
    (h : NEq normSubPhrase sp₁ sp₂) (hmat : prev₁.material = prev₂.material)
    (suffix : String) (sim : ℚ) :
    normSubPhrase
      { sp₁ with
        material := prev₁.material ++ suffix,
        similarTo := some prev₁.id,
        similarity := some sim } =
    normSubPhrase
      { sp₂ with
        material := prev₂.material ++ suffix,
        similarTo := some prev₂.id,
        similarity := some sim } := by
  cases sp₁; cases sp₂
  simp only [NEq, normSubPhrase, SubPhrase.mk.injEq, Option.map_some] at h ⊢
  rw [hmat]
  tauto

theorem analyzeSubPhraseMaterialsGo_rel :
    ∀ {l₁ l₂ : List SubPhrase}, List.Forall₂ (NEq normSubPhrase) l₁ l₂ →
      ∀ {acc₁ acc₂ : List SubPhrase}, List.Forall₂ (NEq normSubPhrase) acc₁ acc₂ →
      ∀ mi : ℕ,
      List.Forall₂ (NEq normSubPhrase) (analyzeSubPhraseMaterialsGo acc₁ mi l₁)
        (analyzeSubPhraseMaterialsGo acc₂ mi l₂) := by
  intro l₁ l₂ h
  induction h with
  | nil => intro acc₁ acc₂ hacc mi; exact hacc
  | cons ha h' ih =>
    intro acc₁ acc₂ hacc mi
    rename_i sp₁ sp₂ rest₁ rest₂
    unfold analyzeSubPhraseMaterialsGo
    have hfind := find?_rel2 (NEq normSubPhrase)
      (fun prevSp => decide (calculateSubPhraseSimilarity sp₁ prevSp > 1/2))
      (fun prevSp => decide (calculateSubPhraseSimilarity sp₂ prevSp > 1/2))
      (fun a₁ a₂ hA => by
        show decide (calculateSubPhraseSimilarity sp₁ a₁ > 1/2) =
          decide (calculateSubPhraseSimilarity sp₂ a₂ > 1/2)
        rw [calculateSubPhraseSimilarity_congr ha hA]) hacc
    cases hf1 : acc₁.find?
        (fun prevSp => decide (calculateSubPhraseSimilarity sp₁ prevSp > 1/2)) with
    | none =>
      cases hf2 : acc₂.find?
          (fun prevSp => decide (calculateSubPhraseSimilarity sp₂ prevSp > 1/2)) with
      | none =>
        exact ih (append_rel2 _ hacc
          (List.Forall₂.cons (normSubPhrase_material_congr ha _) List.Forall₂.nil)) _
      | some prev₂ => rw [hf1, hf2] at hfind; exact absurd hfind (by simp [OptRel])
    | some prev₁ =>
      cases hf2 : acc₂.find?
          (fun prevSp => decide (calculateSubPhraseSimilarity sp₂ prevSp > 1/2)) with
      | none => rw [hf1, hf2] at hfind; exact absurd hfind (by simp [OptRel])
      | some prev₂ =>
        rw [hf1, hf2] at hfind
        have hsim : calculateSubPhraseSimilarity sp₁ prev₁ =
            calculateSubPhraseSimilarity sp₂ prev₂ :=
          calculateSubPhraseSimilarity_congr ha hfind
        have hmat : prev₁.material = prev₂.material :=
          neq_field normSubPhrase SubPhrase.material hfind
        dsimp only
        rw [hsim]
        split_ifs with hgt <;>
          exact ih (append_rel2 _ hacc
            (List.Forall₂.cons (normSubPhrase_override_congr ha hmat _ _)
              List.Forall₂.nil)) _

theorem subPhraseMeasureStep_rel (ids₁ ids₂ : IdGen) {ms₁ ms₂ : List Motive}
    (hm : List.Forall₂ (NEq normMotive) ms₁ ms₂)
    {st₁ st₂ : List SubPhrase × ℕ}
    (h : List.Forall₂ (NEq normSubPhrase) st₁.1 st₂.1 ∧ st₁.2 = st₂.2)
    (g : ℤ × List Note) :
    List.Forall₂ (NEq normSubPhrase) (subPhraseMeasureStep ids₁ ms₁ st₁ g).1
        (subPhraseMeasureStep ids₂ ms₂ st₂ g).1 ∧
      (subPhraseMeasureStep ids₁ ms₁ st₁ g).2 = (subPhraseMeasureStep ids₂ ms₂ st₂ g).2 := by
  obtain ⟨hl, hn⟩ := h
  unfold subPhraseMeasureStep
  dsimp only
  have hmr : ∀ (mn : ℤ) (sb eb : ℕ),
      (getMotivesInRange ms₁ mn sb eb).map normMotive =
      (getMotivesInRange ms₂ mn sb eb).map normMotive :=
    fun mn sb eb => (forall2_iff_map_eq normMotive _ _).1 (getMotivesInRange_rel hm mn sb eb)
  split_ifs with hbr
  · refine ⟨append_rel2 _ hl (List.Forall₂.cons ?_ (List.Forall₂.cons ?_ List.Forall₂.nil)), by rw [hn]⟩
    · show normSubPhrase _ = normSubPhrase _
      simp only [normSubPhrase]
      rw [hn, hmr]
    · show normSubPhrase _ = normSubPhrase _
      simp only [normSubPhrase]
      rw [hn, hmr]
  · refine ⟨append_rel2 _ hl (List.Forall₂.cons ?_ List.Forall₂.nil), by rw [hn]⟩
    show normSubPhrase _ = normSubPhrase _
    simp only [normSubPhrase]
    rw [hn, hmr]

theorem detectSubPhrases_norm (ids₁ ids₂ : IdGen) (notes : List Note)
    {ms₁ ms₂ : List Motive} (hm : List.Forall₂ (NEq normMotive) ms₁ ms₂) :
    (detectSubPhrases ids₁ notes ms₁).map normSubPhrase =
    (detectSubPhrases ids₂ notes ms₂).map normSubPhrase := by
  unfold detectSubPhrases analyzeSubPhraseMaterials
  rw [← forall2_iff_map_eq]
  refine analyzeSubPhraseMaterialsGo_rel ?_ List.Forall₂.nil 0
  exact (foldl_rel2 Eq
    (fun (s₁ s₂ : List SubPhrase × ℕ) =>
      List.Forall₂ (NEq normSubPhrase) s₁.1 s₂.1 ∧ s₁.2 = s₂.2)
    (subPhraseMeasureStep ids₁ ms₁) (subPhraseMeasureStep ids₂ ms₂)
    (fun u₁ u₂ b₁ b₂ hu hb₂ => hb₂ ▸ subPhraseMeasureStep_rel ids₁ ids₂ hm hu b₁)
    (forall2_eq_refl (groupNotesByMeasure notes))
    ([], 0) ([], 0) ⟨List.Forall₂.nil, rfl⟩).1


/-! ## Phrase-stage congruence -/

theorem stableInsert_rel {α₁ α₂ : Type} (Ra : α₁ → α₂ → Prop)
    (key₁ : α₁ → ℤ) (key₂ : α₂ → ℤ)
    (hk : ∀ a₁ a₂, Ra a₁ a₂ → key₁ a₁ = key₂ a₂) {a₁ a₂} (ha : Ra a₁ a₂) :
    ∀ {l₁ l₂}, List.Forall₂ Ra l₁ l₂ →
      List.Forall₂ Ra (stableInsert key₁ a₁ l₁) (stableInsert key₂ a₂ l₂) := by
  intro l₁ l₂ h
  induction h with
  | nil => exact List.Forall₂.cons ha List.Forall₂.nil
  | cons hb h' ih =>
    rename_i b₁ b₂ bs₁ bs₂
    unfold stableInsert
    rw [hk _ _ hb, hk _ _ ha]
    split_ifs
    · exact List.Forall₂.cons hb ih
    · exact List.Forall₂.cons ha (List.Forall₂.cons hb h')

theorem stableSortBy_rel {α₁ α₂ : Type} (Ra : α₁ → α₂ → Prop)
    (key₁ : α₁ → ℤ) (key₂ : α₂ → ℤ)
    (hk : ∀ a₁ a₂, Ra a₁ a₂ → key₁ a₁ = key₂ a₂)
    {l₁ l₂} (h : List.Forall₂ Ra l₁ l₂) :
    List.Forall₂ Ra (stableSortBy key₁ l₁) (stableSortBy key₂ l₂) := by
  unfold stableSortBy
  exact foldl_rel2 Ra (List.Forall₂ Ra) _ _
    (fun s₁ s₂ a₁ a₂ hs ha => stableInsert_rel Ra key₁ key₂ hk ha hs)
    h [] [] List.Forall₂.nil

theorem getCadenceStrength_congr {c₁ c₂ : Cadence} (h : NEq normCadence c₁ c₂) :
    getCadenceStrength (some c₁) = getCadenceStrength (some c₂) := by
  have ht : c₁.type = c₂.type := neq_field normCadence Cadence.type h
  unfold getCadenceStrength
  dsimp only
  rw [ht]

theorem phraseCadenceStep_rel2 (ids₁ ids₂ : IdGen) (notes : List Note)
    {sps₁ sps₂ : List SubPhrase} (hsp : List.Forall₂ (NEq normSubPhrase) sps₁ sps₂)
    {st₁ st₂ : PhraseLoopState}
    (h : List.Forall₂ (NEq normPhrase) st₁.phrases st₂.phrases ∧
      st₁.phraseStart = st₂.phraseStart ∧ st₁.phraseIndex = st₂.phraseIndex)
    {c₁ c₂ : Cadence} (hc : NEq normCadence c₁ c₂) :
    List.Forall₂ (NEq normPhrase) (phraseCadenceStep ids₁ notes sps₁ st₁ c₁).phrases
        (phraseCadenceStep ids₂ notes sps₂ st₂ c₂).phrases ∧
      (phraseCadenceStep ids₁ notes sps₁ st₁ c₁).phraseStart =
        (phraseCadenceStep ids₂ notes sps₂ st₂ c₂).phraseStart ∧
      (phraseCadenceStep ids₁ notes sps₁ st₁ c₁).phraseIndex =
        (phraseCadenceStep ids₂ notes sps₂ st₂ c₂).phraseIndex := by
  obtain ⟨hp, hs, hi⟩ := h
  have hmn : c₁.measureNumber = c₂.measureNumber :=
    neq_field normCadence Cadence.measureNumber hc
  have hstr : getCadenceStrength (some c₁) = getCadenceStrength (some c₂) :=
    getCadenceStrength_congr hc
  have hfGE : ∀ s e : ℤ,
      (sps₁.filter (fun sp => decide (sp.startMeasure ≥ s ∧ sp.endMeasure ≤ e))).map
        normSubPhrase =
      (sps₂.filter (fun sp => decide (sp.startMeasure ≥ s ∧ sp.endMeasure ≤ e))).map
        normSubPhrase :=
    fun s e => (forall2_iff_map_eq normSubPhrase _ _).1 (filter_rel2 _ _ _
      (fun a₁ a₂ hA => by
        have h1 : a₁.startMeasure = a₂.startMeasure :=
          neq_field normSubPhrase SubPhrase.startMeasure hA
        have h2 : a₁.endMeasure = a₂.endMeasure :=
          neq_field normSubPhrase SubPhrase.endMeasure hA
        rw [h1, h2]) hsp)
  have hfGT : ∀ s e : ℤ,
      (sps₁.filter (fun sp => decide (sp.startMeasure > s ∧ sp.endMeasure ≤ e))).map
        normSubPhrase =
      (sps₂.filter (fun sp => decide (sp.startMeasure > s ∧ sp.endMeasure ≤ e))).map
        normSubPhrase :=
    fun s e => (forall2_iff_map_eq normSubPhrase _ _).1 (filter_rel2 _ _ _
      (fun a₁ a₂ hA => by
        have h1 : a₁.startMeasure = a₂.startMeasure :=
          neq_field normSubPhrase SubPhrase.startMeasure hA
        have h2 : a₁.endMeasure = a₂.endMeasure :=
          neq_field normSubPhrase SubPhrase.endMeasure hA
        rw [h1, h2]) hsp)
  unfold phraseCadenceStep
  dsimp only
  rw [hmn, hs, hi, hstr]
  split_ifs <;> refine ⟨?_, by first | rfl | exact hs, by first | rfl | exact hi⟩ <;>
    first
    | exact hp
    | (refine append_rel2 _ hp (List.Forall₂.cons ?_ List.Forall₂.nil) <;>
        (show normPhrase _ = normPhrase _
         simp only [normPhrase, Option.map_some', Option.map_none', hc]
         first
         | rw [hfGE]
         | rw [hfGT]
         | rfl))
    | (refine append_rel2 _ hp
        (List.Forall₂.cons ?_ (List.Forall₂.cons ?_ List.Forall₂.nil)) <;>
        (show normPhrase _ = normPhrase _
         simp only [normPhrase, Option.map_some', Option.map_none', hc]
         first
         | rw [hfGE]
         | rw [hfGT]
         | rfl))

theorem comparePhraseHeads_congr {a₁ a₂ b₁ b₂ : Phrase}
    (ha : NEq normPhrase a₁ a₂) (hb : NEq normPhrase b₁ b₂) :
    comparePhraseHeads a₁ b₁ = comparePhraseHeads a₂ b₂ := by
  have h1 : a₁.notes = a₂.notes := neq_field normPhrase Phrase.notes ha
  have h2 : b₁.notes = b₂.notes := neq_field normPhrase Phrase.notes hb
  unfold comparePhraseHeads
  rw [h1, h2]

theorem comparePhraseTails_congr {a₁ a₂ b₁ b₂ : Phrase}
    (ha : NEq normPhrase a₁ a₂) (hb : NEq normPhrase b₁ b₂) :
    comparePhraseTails a₁ b₁ = comparePhraseTails a₂ b₂ := by
  have h1 : a₁.notes = a₂.notes := neq_field normPhrase Phrase.notes ha
  have h2 : b₁.notes = b₂.notes := neq_field normPhrase Phrase.notes hb
  unfold comparePhraseTails
  rw [h1, h2]

theorem normPhrase_parallel_congr {p₁ p₂ prev₁ prev₂ : Phrase}
    (h : NEq normPhrase p₁ p₂) (hm : prev₁.material = prev₂.material)
    (hs : ℚ) :
    normPhrase
      { p₁ with
        material := prev₁.material ++ "'",
        relationship := some "parallel",
        headSimilarity := some hs } =
    normPhrase
      { p₂ with
        material := prev₂.material ++ "'",
        relationship := some "parallel",
        headSimilarity := some hs } := by
  cases p₁; cases p₂
  simp only [NEq, normPhrase, Phrase.mk.injEq] at h ⊢
  rw [hm]
  tauto

theorem normPhrase_material_rel_congr {p₁ p₂ prev₁ prev₂ : Phrase}
    (h : NEq normPhrase p₁ p₂) (hm : prev₁.material = prev₂.material)
    (suffix rel : String) :
    normPhrase
      { p₁ with
        material := prev₁.material ++ suffix,
        relationship := some rel } =
    normPhrase
      { p₂ with
        material := prev₂.material ++ suffix,
        relationship := some rel } := by
  cases p₁; cases p₂
  simp only [NEq, normPhrase, Phrase.mk.injEq] at h ⊢
  rw [hm]
  tauto

theorem normPhrase_rel_congr {p₁ p₂ : Phrase}
    (h : NEq normPhrase p₁ p₂) (rel : String) :
    normPhrase { p₁ with relationship := some rel } =
    normPhrase { p₂ with relationship := some rel } := by
  cases p₁; cases p₂
  simp only [NEq, normPhrase, Phrase.mk.injEq] at h ⊢
  tauto

theorem analyzePhraseMaterialsGo_rel :
    ∀ {l₁ l₂ : List Phrase}, List.Forall₂ (NEq normPhrase) l₁ l₂ →
      ∀ {acc₁ acc₂ : List Phrase}, List.Forall₂ (NEq normPhrase) acc₁ acc₂ →
      List.Forall₂ (NEq normPhrase) (analyzePhraseMaterialsGo acc₁ l₁)
        (analyzePhraseMaterialsGo acc₂ l₂) := by
  intro l₁ l₂ h
  induction h with
  | nil => intro acc₁ acc₂ hacc; exact hacc
  | cons ha h' ih =>
    intro acc₁ acc₂ hacc
    rename_i p₁ p₂ rest₁ rest₂
    unfold analyzePhraseMaterialsGo
    have hlast := getLast?_rel2 (NEq normPhrase) hacc
    cases hl1 : acc₁.getLast? with
    | none =>
      cases hl2 : acc₂.getLast? with
      | none => exact ih (append_rel2 _ hacc (List.Forall₂.cons ha List.Forall₂.nil))
      | some prev₂ => rw [hl1, hl2] at hlast; exact absurd hlast (by simp [OptRel])
    | some prev₁ =>
      cases hl2 : acc₂.getLast? with
      | none => rw [hl1, hl2] at hlast; exact absurd hlast (by simp [OptRel])
      | some prev₂ =>
        rw [hl1, hl2] at hlast
        have hh : comparePhraseHeads prev₁ p₁ = comparePhraseHeads prev₂ p₂ :=
          comparePhraseHeads_congr hlast ha
        have ht : comparePhraseTails prev₁ p₁ = comparePhraseTails prev₂ p₂ :=
          comparePhraseTails_congr hlast ha
        have hm : prev₁.material = prev₂.material :=
          neq_field normPhrase Phrase.material hlast
        dsimp only
        rw [hh, ht]
        split_ifs <;>
          first
          | exact ih (append_rel2 _ hacc
              (List.Forall₂.cons (normPhrase_parallel_congr ha hm _) List.Forall₂.nil))
          | exact ih (append_rel2 _ hacc
              (List.Forall₂.cons (normPhrase_material_rel_congr ha hm _ _)
                List.Forall₂.nil))
          | exact ih (append_rel2 _ hacc
              (List.Forall₂.cons (normPhrase_rel_congr ha _) List.Forall₂.nil))

theorem detectPhrases_norm (ids₁ ids₂ : IdGen) (notes : List Note)
    {cads₁ cads₂ : List Cadence} (hcad : List.Forall₂ (NEq normCadence) cads₁ cads₂)
    {sps₁ sps₂ : List SubPhrase} (hsp : List.Forall₂ (NEq normSubPhrase) sps₁ sps₂) :
    (detectPhrases ids₁ notes cads₁ sps₁).map normPhrase =
    (detectPhrases ids₂ notes cads₂ sps₂).map normPhrase := by
  unfold detectPhrases
  cases hmn : measureNumbersOf notes with
  | nil => rfl
  | cons m0 ms =>
    rw [← forall2_iff_map_eq]
    dsimp only
    refine analyzePhraseMaterialsGo_rel ?_ List.Forall₂.nil
    have hsorted := stableSortBy_rel (NEq normCadence)
      Cadence.measureNumber Cadence.measureNumber
      (fun a₁ a₂ hA => neq_field normCadence Cadence.measureNumber hA) hcad
    have hfold := foldl_rel2 (NEq normCadence)
      (fun (s₁ s₂ : PhraseLoopState) =>
        List.Forall₂ (NEq normPhrase) s₁.phrases s₂.phrases ∧
        s₁.phraseStart = s₂.phraseStart ∧ s₁.phraseIndex = s₂.phraseIndex)
      (phraseCadenceStep ids₁ notes sps₁) (phraseCadenceStep ids₂ notes sps₂)
      (fun u₁ u₂ b₁ b₂ hu hb₂ => phraseCadenceStep_rel2 ids₁ ids₂ notes hsp hu hb₂)
      hsorted ⟨[], m0, 0⟩ ⟨[], m0, 0⟩ ⟨List.Forall₂.nil, rfl, rfl⟩
    obtain ⟨hph, hst, hidx⟩ := hfold
    rw [hst, hidx]
    split_ifs with hfin
    · refine append_rel2 _ hph (List.Forall₂.cons ?_ List.Forall₂.nil)
      show normPhrase _ = normPhrase _
      simp only [normPhrase]
      rw [(forall2_iff_map_eq normSubPhrase _ _).1 (filter_rel2 _ _ _
        (fun a₁ a₂ hA => by
          have h1 : a₁.startMeasure = a₂.startMeasure :=
            neq_field normSubPhrase SubPhrase.startMeasure hA
          rw [h1]) hsp)]
    · exact hph


/-! ## Period-stage congruence -/

theorem map_eq_rel2 {α₁ α₂ β : Type} (Ra : α₁ → α₂ → Prop)
    (f₁ : α₁ → β) (f₂ : α₂ → β) (hf : ∀ a₁ a₂, Ra a₁ a₂ → f₁ a₁ = f₂ a₂) :
    ∀ {l₁ : List α₁} {l₂ : List α₂}, List.Forall₂ Ra l₁ l₂ →
      l₁.map f₁ = l₂.map f₂ := by
  intro l₁ l₂ h
  induction h with
  | nil => rfl
  | cons ha _ ih => simp [hf _ _ ha, ih]

theorem optRel_map_eq {α₁ α₂ β : Type} (R : α₁ → α₂ → Prop)
    (f₁ : α₁ → β) (f₂ : α₂ → β) (hf : ∀ a₁ a₂, R a₁ a₂ → f₁ a₁ = f₂ a₂)
    {o₁ : Option α₁} {o₂ : Option α₂} (h : OptRel R o₁ o₂) :
    o₁.map f₁ = o₂.map f₂ := by
  cases o₁ <;> cases o₂ <;> simp_all [OptRel]
  exact hf _ _ h

theorem getCadenceStrengthOpt_congr {o₁ o₂ : Option Cadence}
    (h : o₁.map normCadence = o₂.map normCadence) :
    getCadenceStrength o₁ = getCadenceStrength o₂ := by
  cases o₁ <;> cases o₂ <;> simp only [Option.map_some', Option.map_none'] at h
  · rfl
  · exact absurd h (by simp)
  · exact absurd h (by simp)
  · exact getCadenceStrength_congr (Option.some.inj h)

theorem isSequentialRelation_congr {a₁ a₂ b₁ b₂ : Phrase}
    (ha : NEq normPhrase a₁ a₂) (hb : NEq normPhrase b₁ b₂) :
    isSequentialRelation a₁ b₁ = isSequentialRelation a₂ b₂ := by
  have h1 : a₁.notes = a₂.notes := neq_field normPhrase Phrase.notes ha
  have h2 : b₁.notes = b₂.notes := neq_field normPhrase Phrase.notes hb
  unfold isSequentialRelation
  rw [h1, h2]

theorem classifyProportion_congr {phs₁ phs₂ : List Phrase}
    (h : List.Forall₂ (NEq normPhrase) phs₁ phs₂) :
    classifyProportion phs₁ = classifyProportion phs₂ := by
  have hlen : phs₁.length = phs₂.length := h.length_eq
  have hmap : phs₁.map Phrase.length = phs₂.map Phrase.length :=
    map_eq_rel2 _ _ _ (fun a₁ a₂ hA => neq_field normPhrase Phrase.length hA) h
  unfold classifyProportion
  rw [hlen, hmap]

theorem derivePeriodMaterial_congr {phs₁ phs₂ : List Phrase}
    (h : List.Forall₂ (NEq normPhrase) phs₁ phs₂) :
    derivePeriodMaterial phs₁ = derivePeriodMaterial phs₂ := by
  have hlen : phs₁.length = phs₂.length := h.length_eq
  have hmap : phs₁.map (fun p => charAt0 p.material) =
      phs₂.map (fun p => charAt0 p.material) :=
    map_eq_rel2 _ _ _ (fun a₁ a₂ hA => by
      have hm : a₁.material = a₂.material := neq_field normPhrase Phrase.material hA
      rw [hm]) h
  unfold derivePeriodMaterial
  rw [hlen, hmap]

theorem classifyPeriodType_congr {phs₁ phs₂ : List Phrase}
    (h : List.Forall₂ (NEq normPhrase) phs₁ phs₂) :
    classifyPeriodType phs₁ = classifyPeriodType phs₂ := by
  have hlen : phs₁.length = phs₂.length := h.length_eq
  unfold classifyPeriodType
  rw [hlen]
  cases h with
  | nil => rfl
  | cons ha h' =>
    rename_i p₁ p₂ rest₁ rest₂
    cases h' with
    | nil => rfl
    | cons hb h'' =>
      rename_i q₁ q₂ rest₁' rest₂'
      dsimp only [List.headI, List.get?, Option.getD_some]
      have hrel : q₁.relationship = q₂.relationship :=
        neq_field normPhrase Phrase.relationship hb
      have hhs : q₁.headSimilarity = q₂.headSimilarity :=
        neq_field normPhrase Phrase.headSimilarity hb
      rw [hrel, hhs, isSequentialRelation_congr ha hb]

theorem isNewSection_congr {a₁ a₂ b₁ b₂ : Phrase}
    (ha : NEq normPhrase a₁ a₂) (hb : NEq normPhrase b₁ b₂) :
    isNewSection a₁ b₁ = isNewSection a₂ b₂ := by
  have hc : a₁.cadence.map normCadence = a₂.cadence.map normCadence :=
    neq_field normPhrase Phrase.cadence ha
  unfold isNewSection
  rw [getCadenceStrengthOpt_congr hc, comparePhraseHeads_congr ha hb]

theorem createPeriod_norm {phs₁ phs₂ : List Phrase}
    (h : List.Forall₂ (NEq normPhrase) phs₁ phs₂) (id₁ id₂ : String) (idx : ℕ) :
    normPeriod (createPeriod id₁ phs₁ idx) = normPeriod (createPeriod id₂ phs₂ idx) := by
  have hlen : phs₁.length = phs₂.length := h.length_eq
  have hstart : phs₁.head?.map Phrase.startMeasure = phs₂.head?.map Phrase.startMeasure :=
    optRel_map_eq _ _ _ (fun a₁ a₂ hA => neq_field normPhrase Phrase.startMeasure hA)
      (head?_rel2 _ h)
  have hend : phs₁.getLast?.map Phrase.endMeasure = phs₂.getLast?.map Phrase.endMeasure :=
    optRel_map_eq _ _ _ (fun a₁ a₂ hA => neq_field normPhrase Phrase.endMeasure hA)
      (getLast?_rel2 _ h)
  have hcadopt : (phs₁.getLast?.bind Phrase.cadence).map normCadence =
      (phs₂.getLast?.bind Phrase.cadence).map normCadence := by
    have hl := getLast?_rel2 (NEq normPhrase) h
    cases hl1 : phs₁.getLast? with
    | none =>
      cases hl2 : phs₂.getLast? with
      | none => rfl
      | some q => rw [hl1, hl2] at hl; exact absurd hl (by simp [OptRel])
    | some q₁ =>
      cases hl2 : phs₂.getLast? with
      | none => rw [hl1, hl2] at hl; exact absurd hl (by simp [OptRel])
      | some q₂ =>
        rw [hl1, hl2] at hl
        simpa using neq_field normPhrase Phrase.cadence hl
  have hphr : phs₁.map normPhrase = phs₂.map normPhrase :=
    (forall2_iff_map_eq normPhrase _ _).1 h
  unfold createPeriod
  dsimp only
  simp only [normPeriod]
  rw [hstart, hend, hcadopt, hphr, hlen, classifyPeriodType_congr h,
    classifyProportion_congr h, derivePeriodMaterial_congr h,
    getCadenceStrengthOpt_congr hcadopt]

theorem periodStep_rel (ids₁ ids₂ : IdGen) {phs₁ phs₂ : List Phrase}
    (h : List.Forall₂ (NEq normPhrase) phs₁ phs₂)
    {st₁ st₂ : List Period × ℕ × ℕ}
    (hst : List.Forall₂ (NEq normPeriod) st₁.1 st₂.1 ∧ st₁.2 = st₂.2)
    {p₁ : ℕ × Phrase} {p₂ : ℕ × Phrase}
    (hp : p₁.1 = p₂.1 ∧ NEq normPhrase p₁.2 p₂.2) :
    List.Forall₂ (NEq normPeriod) (periodStep ids₁ phs₁ st₁ p₁).1
        (periodStep ids₂ phs₂ st₂ p₂).1 ∧
      (periodStep ids₁ phs₁ st₁ p₁).2 = (periodStep ids₂ phs₂ st₂ p₂).2 := by
  obtain ⟨hs, hn⟩ := hst
  obtain ⟨hi, hph⟩ := hp
  have hlen : phs₁.length = phs₂.length := h.length_eq
  have hcad : p₁.2.cadence.map normCadence = p₂.2.cadence.map normCadence :=
    neq_field normPhrase Phrase.cadence hph
  have hnewsec : isNewSection p₁.2 ((phs₁.get? (p₂.1 + 1)).getD p₁.2) =
      isNewSection p₂.2 ((phs₂.get? (p₂.1 + 1)).getD p₂.2) := by
    have hg := get?_rel2 (NEq normPhrase) h (p₂.1 + 1)
    cases hg1 : phs₁.get? (p₂.1 + 1) with
    | none =>
      cases hg2 : phs₂.get? (p₂.1 + 1) with
      | none => exact isNewSection_congr hph hph
      | some q => exact (optRel_mixed_ns hg hg1 hg2).elim
    | some q₁ =>
      cases hg2 : phs₂.get? (p₂.1 + 1) with
      | none => exact (optRel_mixed_sn hg hg1 hg2).elim
      | some q₂ => exact isNewSection_congr hph (optRel_some_some hg hg1 hg2)
  unfold periodStep
  dsimp only
  rw [hi, hn, hlen, getCadenceStrengthOpt_congr hcad, hnewsec]
  split_ifs with hcond
  · refine ⟨append_rel2 _ hs (List.Forall₂.cons ?_ List.Forall₂.nil), rfl⟩
    exact createPeriod_norm (drop_rel2 _ (take_rel2 _ h (p₂.1 + 1)) st₂.2.1) _ _ _
  · exact ⟨hs, hn⟩

theorem detectPeriods_norm (ids₁ ids₂ : IdGen) {phs₁ phs₂ : List Phrase}
    (h : List.Forall₂ (NEq normPhrase) phs₁ phs₂) :
    (detectPeriods ids₁ phs₁).map normPeriod =
    (detectPeriods ids₂ phs₂).map normPeriod := by
  have hlen : phs₁.length = phs₂.length := h.length_eq
  unfold detectPeriods
  rw [hlen]
  split_ifs
  · rfl
  · rw [← forall2_iff_map_eq]
    exact (foldl_rel2 (fun (a : ℕ × Phrase) (b : ℕ × Phrase) =>
        a.1 = b.1 ∧ NEq normPhrase a.2 b.2)
      (fun (s₁ s₂ : List Period × ℕ × ℕ) =>
        List.Forall₂ (NEq normPeriod) s₁.1 s₂.1 ∧ s₁.2 = s₂.2)
      (periodStep ids₁ phs₁) (periodStep ids₂ phs₂)
      (fun u₁ u₂ b₁ b₂ hu hb₂ => periodStep_rel ids₁ ids₂ h hu hb₂)
      (enum_rel2 _ h) ([], 0, 0) ([], 0, 0) ⟨List.Forall₂.nil, rfl⟩).1


/-! ## Compound-period congruence -/

theorem headI_rel2 {α₁ α₂ : Type} [Inhabited α₁] [Inhabited α₂]
    (R : α₁ → α₂ → Prop) (hdef : R default default) :
    ∀ {l₁ : List α₁} {l₂ : List α₂}, List.Forall₂ R l₁ l₂ → R l₁.headI l₂.headI := by
  intro l₁ l₂ h
  cases h with
  | nil => exact hdef
  | cons ha _ => exact ha

theorem periodPhrases_rel {pd₁ pd₂ : Period} (h : NEq normPeriod pd₁ pd₂) :
    List.Forall₂ (NEq normPhrase) pd₁.phrases pd₂.phrases :=
  (forall2_iff_map_eq normPhrase _ _).2 (neq_field normPeriod Period.phrases h)

theorem arePeriodsParallel_congr {a₁ a₂ b₁ b₂ : Period}
    (ha : NEq normPeriod a₁ a₂) (hb : NEq normPeriod b₁ b₂) :
    arePeriodsParallel a₁ b₁ = arePeriodsParallel a₂ b₂ := by
  have hpa := periodPhrases_rel ha
  have hpb := periodPhrases_rel hb
  have hla : a₁.phrases.length = a₂.phrases.length := hpa.length_eq
  have hlb : b₁.phrases.length = b₂.phrases.length := hpb.length_eq
  have hha : NEq normPhrase a₁.phrases.headI a₂.phrases.headI :=
    headI_rel2 (NEq normPhrase) rfl hpa
  have hhb : NEq normPhrase b₁.phrases.headI b₂.phrases.headI :=
    headI_rel2 (NEq normPhrase) rfl hpb
  have hca : a₁.cadence.map normCadence = a₂.cadence.map normCadence :=
    neq_field normPeriod Period.cadence ha
  have hcb : b₁.cadence.map normCadence = b₂.cadence.map normCadence :=
    neq_field normPeriod Period.cadence hb
  unfold arePeriodsParallel
  dsimp only
  rw [hla, hlb, comparePhraseHeads_congr hha hhb,
    getCadenceStrengthOpt_congr hca, getCadenceStrengthOpt_congr hcb]

theorem detectCompoundPeriodsGo_rel (ids₁ ids₂ : IdGen) :
    ∀ (n : ℕ) {l₁ l₂ : List Period}, l₁.length ≤ n →
      List.Forall₂ (NEq normPeriod) l₁ l₂ → ∀ i,
      List.Forall₂ (NEq normCompoundPeriod) (detectCompoundPeriodsGo ids₁ i l₁)
        (detectCompoundPeriodsGo ids₂ i l₂) := by
  intro n
  induction n with
  | zero =>
    intro l₁ l₂ hn h i
    cases h with
    | nil => exact List.Forall₂.nil
    | cons ha h' => simp at hn
  | succ k ih =>
    intro l₁ l₂ hn h i
    cases h with
    | nil => exact List.Forall₂.nil
    | cons ha h' =>
      rename_i a₁ a₂ as bs
      cases h' with
      | nil => exact List.Forall₂.nil
      | cons hb h'' =>
        rename_i b₁ b₂ cs ds
        unfold detectCompoundPeriodsGo
        rw [arePeriodsParallel_congr ha hb]
        have htail := ih (by simp at hn; omega) h'' (i + 2)
        split_ifs
        · refine List.Forall₂.cons ?_ htail
          show normCompoundPeriod _ = normCompoundPeriod _
          have hs : a₁.startMeasure = a₂.startMeasure :=
            neq_field normPeriod Period.startMeasure ha
          have he : b₁.endMeasure = b₂.endMeasure :=
            neq_field normPeriod Period.endMeasure hb
          simp only [normCompoundPeriod, hs, he, List.map_cons, List.map_nil, ha, hb]
        · exact htail

theorem detectCompoundPeriods_norm (ids₁ ids₂ : IdGen) {ps₁ ps₂ : List Period}
    (h : List.Forall₂ (NEq normPeriod) ps₁ ps₂) :
    (detectCompoundPeriods ids₁ ps₁).map normCompoundPeriod =
    (detectCompoundPeriods ids₂ ps₂).map normCompoundPeriod := by
  unfold detectCompoundPeriods
  exact (forall2_iff_map_eq normCompoundPeriod _ _).1
    (detectCompoundPeriodsGo_rel ids₁ ids₂ ps₁.length (le_refl _) h 0)

/-! ## Period-level read-function congruence -/

theorem flatMap_eq_rel2 {α₁ α₂ β : Type} (Ra : α₁ → α₂ → Prop)
    (f₁ : α₁ → List β) (f₂ : α₂ → List β)
    (hf : ∀ a₁ a₂, Ra a₁ a₂ → f₁ a₁ = f₂ a₂) :
    ∀ {l₁ : List α₁} {l₂ : List α₂}, List.Forall₂ Ra l₁ l₂ →
      l₁.flatMap f₁ = l₂.flatMap f₂ := by
  intro l₁ l₂ h
  induction h with
  | nil => rfl
  | cons ha _ ih => simp only [List.flatMap_cons, hf _ _ ha, ih]

theorem calculatePeriodSimilarity_congr {a₁ a₂ b₁ b₂ : Period}
    (ha : NEq normPeriod a₁ a₂) (hb : NEq normPeriod b₁ b₂) :
    calculatePeriodSimilarity a₁ b₁ = calculatePeriodSimilarity a₂ b₂ := by
  have hpa := periodPhrases_rel ha
  have hpb := periodPhrases_rel hb
  have hna : a₁.phrases.flatMap Phrase.notes = a₂.phrases.flatMap Phrase.notes :=
    flatMap_eq_rel2 _ _ _ (fun x y hxy => neq_field normPhrase Phrase.notes hxy) hpa
  have hnb : b₁.phrases.flatMap Phrase.notes = b₂.phrases.flatMap Phrase.notes :=
    flatMap_eq_rel2 _ _ _ (fun x y hxy => neq_field normPhrase Phrase.notes hxy) hpb
  unfold calculatePeriodSimilarity
  dsimp only
  rw [hpa.length_eq, hpb.length_eq, hna, hnb]

theorem compareRhythms_congr {a₁ a₂ b₁ b₂ : Period}
    (ha : NEq normPeriod a₁ a₂) (hb : NEq normPeriod b₁ b₂) :
    compareRhythms a₁ b₁ = compareRhythms a₂ b₂ := by
  have hra : a₁.phrases.flatMap (fun p => extractRhythmPattern p.notes) =
      a₂.phrases.flatMap (fun p => extractRhythmPattern p.notes) :=
    flatMap_eq_rel2 _ _ _ (fun x y hxy => by
      have hn : x.notes = y.notes := neq_field normPhrase Phrase.notes hxy
      rw [hn]) (periodPhrases_rel ha)
  have hrb : b₁.phrases.flatMap (fun p => extractRhythmPattern p.notes) =
      b₂.phrases.flatMap (fun p => extractRhythmPattern p.notes) :=
    flatMap_eq_rel2 _ _ _ (fun x y hxy => by
      have hn : x.notes = y.notes := neq_field normPhrase Phrase.notes hxy
      rw [hn]) (periodPhrases_rel hb)
  unfold compareRhythms
  dsimp only
  rw [hra, hrb]

theorem hasRecapPair_congr {a₁ a₂ b₁ b₂ : Period}
    (ha : NEq normPeriod a₁ a₂) (hb : NEq normPeriod b₁ b₂) :
    hasRecapPair a₁ b₁ = hasRecapPair a₂ b₂ := by
  have hlast := getLast?_rel2 (NEq normPhrase) (periodPhrases_rel hb)
  have hhead := head?_rel2 (NEq normPhrase) (periodPhrases_rel ha)
  unfold hasRecapPair
  cases hl1 : b₁.phrases.getLast? with
  | none =>
    cases hl2 : b₂.phrases.getLast? with
    | none => rfl
    | some q => exact (optRel_mixed_ns hlast hl1 hl2).elim
  | some q₁ =>
    cases hl2 : b₂.phrases.getLast? with
    | none => exact (optRel_mixed_sn hlast hl1 hl2).elim
    | some q₂ =>
      have hq := optRel_some_some hlast hl1 hl2
      cases hh1 : a₁.phrases.head? with
      | none =>
        cases hh2 : a₂.phrases.head? with
        | none => rfl
        | some r => exact (optRel_mixed_ns hhead hh1 hh2).elim
      | some r₁ =>
        cases hh2 : a₂.phrases.head? with
        | none => exact (optRel_mixed_sn hhead hh1 hh2).elim
        | some r₂ =>
          have hr := optRel_some_some hhead hh1 hh2
          dsimp only
          rw [comparePhraseHeads_congr hr hq]

theorem classifyMiddleSection_congr {a₁ a₂ b₁ b₂ : Period}
    (ha : NEq normPeriod a₁ a₂) (hb : NEq normPeriod b₁ b₂) :
    classifyMiddleSection a₁ b₁ = classifyMiddleSection a₂ b₂ := by
  have hcl : a₁.closure = a₂.closure := neq_field normPeriod Period.closure ha
  have hpc : a₁.phraseCount = a₂.phraseCount := neq_field normPeriod Period.phraseCount ha
  unfold classifyMiddleSection
  dsimp only
  rw [calculatePeriodSimilarity_congr ha hb, hcl, hpc]

theorem analyzeInternalForm_congr {ps₁ ps₂ : List Period}
    (h : List.Forall₂ (NEq normPeriod) ps₁ ps₂) :
    analyzeInternalForm ps₁ = analyzeInternalForm ps₂ := by
  have hlen : ps₁.length = ps₂.length := h.length_eq
  unfold analyzeInternalForm
  rw [hlen]
  cases h with
  | nil => rfl
  | cons ha h' =>
    cases h' with
    | nil => rfl
    | cons hb h'' =>
      dsimp only [List.headI, List.get?, Option.getD_some]
      rw [arePeriodsParallel_congr ha hb]

theorem classifyRecapitulation_congr {o₁ o₂ r₁ r₂ : List Period}
    (ho : List.Forall₂ (NEq normPeriod) o₁ o₂)
    (hr : List.Forall₂ (NEq normPeriod) r₁ r₂) :
    classifyRecapitulation o₁ r₁ = classifyRecapitulation o₂ r₂ := by
  have hmo : o₁.map Period.length = o₂.map Period.length :=
    map_eq_rel2 _ _ _ (fun x y hxy => neq_field normPeriod Period.length hxy) ho
  have hmr : r₁.map Period.length = r₂.map Period.length :=
    map_eq_rel2 _ _ _ (fun x y hxy => neq_field normPeriod Period.length hxy) hr
  unfold classifyRecapitulation
  dsimp only
  rw [ho.length_eq, hr.length_eq, hmo, hmr]

theorem classifyVariationType_congr {a₁ a₂ b₁ b₂ : Period}
    (ha : NEq normPeriod a₁ a₂) (hb : NEq normPeriod b₁ b₂) :
    classifyVariationType a₁ b₁ = classifyVariationType a₂ b₂ := by
  have hha : a₁.phrases.head?.map Phrase.notes = a₂.phrases.head?.map Phrase.notes :=
    optRel_map_eq _ _ _ (fun x y hxy => neq_field normPhrase Phrase.notes hxy)
      (head?_rel2 _ (periodPhrases_rel ha))
  have hhb : b₁.phrases.head?.map Phrase.notes = b₂.phrases.head?.map Phrase.notes :=
    optRel_map_eq _ _ _ (fun x y hxy => neq_field normPhrase Phrase.notes hxy)
      (head?_rel2 _ (periodPhrases_rel hb))
  unfold classifyVariationType
  dsimp only
  rw [hha, hhb, compareRhythms_congr ha hb]

theorem analyzeMaterialPattern_congr {ps₁ ps₂ : List Period}
    (h : List.Forall₂ (NEq normPeriod) ps₁ ps₂) :
    analyzeMaterialPattern ps₁ = analyzeMaterialPattern ps₂ := by
  have hm : ps₁.map (fun p => charAt0 p.material) =
      ps₂.map (fun p => charAt0 p.material) :=
    map_eq_rel2 _ _ _ (fun x y hxy => by
      have h1 : x.material = y.material := neq_field normPeriod Period.material hxy
      rw [h1]) h
  unfold analyzeMaterialPattern
  dsimp only
  rw [hm]


/-! ## Form-analyzer congruence -/

theorem mkSection_norm (id₁ id₂ n t : String) (s e : ℤ) (f : String)
    {ps₁ ps₂ : List Period} (h : ps₁.map normPeriod = ps₂.map normPeriod) :
    normSection (mkSection id₁ n t s e f ps₁) =
    normSection (mkSection id₂ n t s e f ps₂) := by
  simp only [mkSection, normSection]
  rw [h]

theorem analyzeOnePartForm_norm (ids₁ ids₂ : IdGen) {ps₁ ps₂ : List Period}
    (h : List.Forall₂ (NEq normPeriod) ps₁ ps₂) :
    normForm (analyzeOnePartForm ids₁ ps₁) = normForm (analyzeOnePartForm ids₂ ps₂) := by
  have hh : NEq normPeriod ps₁.headI ps₂.headI := headI_rel2 (NEq normPeriod) rfl h
  have hs : ps₁.headI.startMeasure = ps₂.headI.startMeasure :=
    neq_field normPeriod Period.startMeasure hh
  have he : ps₁.headI.endMeasure = ps₂.headI.endMeasure :=
    neq_field normPeriod Period.endMeasure hh
  unfold analyzeOnePartForm
  simp [normForm, normSection, mkSection, hs, he, hh]

theorem analyzeBinaryForm_norm (ids₁ ids₂ : IdGen) {ps₁ ps₂ : List Period}
    (h : List.Forall₂ (NEq normPeriod) ps₁ ps₂) :
    normForm (analyzeBinaryForm ids₁ ps₁) = normForm (analyzeBinaryForm ids₂ ps₂) := by
  have hh : NEq normPeriod ps₁.headI ps₂.headI := headI_rel2 (NEq normPeriod) rfl h
  have hB : NEq normPeriod ((ps₁.get? 1).getD ps₁.headI) ((ps₂.get? 1).getD ps₂.headI) := by
    have hg := get?_rel2 (NEq normPeriod) h 1
    cases hg1 : ps₁.get? 1 with
    | none =>
      cases hg2 : ps₂.get? 1 with
      | none => exact hh
      | some q => exact (optRel_mixed_ns hg hg1 hg2).elim
    | some q₁ =>
      cases hg2 : ps₂.get? 1 with
      | none => exact (optRel_mixed_sn hg hg1 hg2).elim
      | some q₂ => exact optRel_some_some hg hg1 hg2
  have hsA : ps₁.headI.startMeasure = ps₂.headI.startMeasure :=
    neq_field normPeriod Period.startMeasure hh
  have heA : ps₁.headI.endMeasure = ps₂.headI.endMeasure :=
    neq_field normPeriod Period.endMeasure hh
  have hsB : ((ps₁.get? 1).getD ps₁.headI).startMeasure =
      ((ps₂.get? 1).getD ps₂.headI).startMeasure :=
    neq_field normPeriod Period.startMeasure hB
  have heB : ((ps₁.get? 1).getD ps₁.headI).endMeasure =
      ((ps₂.get? 1).getD ps₂.headI).endMeasure :=
    neq_field normPeriod Period.endMeasure hB
  have hrec := hasRecapPair_congr hh hB
  unfold analyzeBinaryForm
  simp only [List.get?_eq_getElem?] at hB hsB heB hrec
  simp [normForm, normSection, mkSection, hsA, heA, hsB, heB, hh, hB, hrec]


theorem getD_get?_rel {α₁ α₂ : Type} (R : α₁ → α₂ → Prop)
    {l₁ : List α₁} {l₂ : List α₂} (h : List.Forall₂ R l₁ l₂) (n : ℕ)
    {d₁ : α₁} {d₂ : α₂} (hd : R d₁ d₂) :
    R ((l₁.get? n).getD d₁) ((l₂.get? n).getD d₂) := by
  have hg := get?_rel2 R h n
  cases hg1 : l₁.get? n with
  | none =>
    cases hg2 : l₂.get? n with
    | none => exact hd
    | some q => exact (optRel_mixed_ns hg hg1 hg2).elim
  | some q₁ =>
    cases hg2 : l₂.get? n with
    | none => exact (optRel_mixed_sn hg hg1 hg2).elim
    | some q₂ => exact optRel_some_some hg hg1 hg2

theorem getLastI_rel2 {α₁ α₂ : Type} [Inhabited α₁] [Inhabited α₂]
    (R : α₁ → α₂ → Prop) (hdef : R default default)
    {l₁ : List α₁} {l₂ : List α₂} (h : List.Forall₂ R l₁ l₂) :
    R l₁.getLastI l₂.getLastI := by
  have hg := getLast?_rel2 R h
  rw [List.getLastI_eq_getLast?, List.getLastI_eq_getLast?]
  cases hg1 : l₁.getLast? with
  | none =>
    cases hg2 : l₂.getLast? with
    | none => exact hdef
    | some q => exact (optRel_mixed_ns hg hg1 hg2).elim
  | some q₁ =>
    cases hg2 : l₂.getLast? with
    | none => exact (optRel_mixed_sn hg hg1 hg2).elim
    | some q₂ => exact optRel_some_some hg hg1 hg2

theorem any_eq_rel2 {α₁ α₂ : Type} (Ra : α₁ → α₂ → Prop)
    (p₁ : α₁ → Bool) (p₂ : α₂ → Bool)
    (hp : ∀ a₁ a₂, Ra a₁ a₂ → p₁ a₁ = p₂ a₂) :
    ∀ {l₁ : List α₁} {l₂ : List α₂}, List.Forall₂ Ra l₁ l₂ →
      l₁.any p₁ = l₂.any p₂ := by
  intro l₁ l₂ h
  induction h with
  | nil => rfl
  | cons ha _ ih => simp only [List.any_cons, hp _ _ ha, ih]

theorem zip_rel2 {α₁ α₂ β₁ β₂ : Type} (Ra : α₁ → α₂ → Prop) (Rb : β₁ → β₂ → Prop) :
    ∀ {l₁ : List α₁} {l₂ : List α₂}, List.Forall₂ Ra l₁ l₂ →
      ∀ {m₁ : List β₁} {m₂ : List β₂}, List.Forall₂ Rb m₁ m₂ →
      List.Forall₂ (fun p q => Ra p.1 q.1 ∧ Rb p.2 q.2) (l₁.zip m₁) (l₂.zip m₂) := by
  intro l₁ l₂ h
  induction h with
  | nil => intro m₁ m₂ hm; exact List.Forall₂.nil
  | cons ha _ ih =>
    intro m₁ m₂ hm
    cases hm with
    | nil => exact List.Forall₂.nil
    | cons hb hm' => exact List.Forall₂.cons ⟨ha, hb⟩ (ih hm')

theorem forall2_eq_iff_eq {α : Type} {l₁ l₂ : List α} :
    List.Forall₂ (Eq (α := α)) l₁ l₂ → l₁ = l₂ := by
  intro h
  induction h with
  | nil => rfl
  | cons ha _ ih => rw [ha, ih]


theorem analyzeTernaryForm_norm (ids₁ ids₂ : IdGen) {ps₁ ps₂ : List Period}
    (h : List.Forall₂ (NEq normPeriod) ps₁ ps₂) (mp : MaterialPattern) :
    normForm (analyzeTernaryForm ids₁ ps₁ mp) =
    normForm (analyzeTernaryForm ids₂ ps₂ mp) := by
  have hA : NEq normPeriod ps₁.headI ps₂.headI := headI_rel2 (NEq normPeriod) rfl h
  have hB := getD_get?_rel (NEq normPeriod) h 1 hA
  have hC := getD_get?_rel (NEq normPeriod) h 2 hA
  have hsA : ps₁.headI.startMeasure = ps₂.headI.startMeasure :=
    neq_field normPeriod Period.startMeasure hA
  have heA : ps₁.headI.endMeasure = ps₂.headI.endMeasure :=
    neq_field normPeriod Period.endMeasure hA
  have hsB : ((ps₁.get? 1).getD ps₁.headI).startMeasure =
      ((ps₂.get? 1).getD ps₂.headI).startMeasure :=
    neq_field normPeriod Period.startMeasure hB
  have heB : ((ps₁.get? 1).getD ps₁.headI).endMeasure =
      ((ps₂.get? 1).getD ps₂.headI).endMeasure :=
    neq_field normPeriod Period.endMeasure hB
  have hsC : ((ps₁.get? 2).getD ps₁.headI).startMeasure =
      ((ps₂.get? 2).getD ps₂.headI).startMeasure :=
    neq_field normPeriod Period.startMeasure hC
  have heC : ((ps₁.get? 2).getD ps₁.headI).endMeasure =
      ((ps₂.get? 2).getD ps₂.headI).endMeasure :=
    neq_field normPeriod Period.endMeasure hC
  have hmid := classifyMiddleSection_congr hB hA
  unfold analyzeTernaryForm
  simp only [List.get?_eq_getElem?] at hB hC hsB heB hsC heC hmid
  split_ifs
  · simp [normForm, normSection, mkSection, hsA, heA, hsB, heB, hsC, heC,
      hA, hB, hC, hmid]
  · simp [normForm, normSection, mkSection, hsA, heA, hsB, heB, hsC, heC,
      hA, hB, hC]

theorem createSections_rel (ids₁ ids₂ : IdGen) {ps₁ ps₂ : List Period}
    (h : List.Forall₂ (NEq normPeriod) ps₁ ps₂) :
    List.Forall₂ (NEq normSection) (createSections ids₁ ps₁)
      (createSections ids₂ ps₂) := by
  unfold createSections
  refine map_rel2 _ (NEq normSection) _ _ ?_ (enum_rel2 _ h)
  intro p q hpq
  obtain ⟨hi, hp⟩ := hpq
  have hs : p.2.startMeasure = q.2.startMeasure :=
    neq_field normPeriod Period.startMeasure hp
  have he : p.2.endMeasure = q.2.endMeasure :=
    neq_field normPeriod Period.endMeasure hp
  show normSection _ = normSection _
  simp [mkSection, normSection, hi, hs, he, hp]


theorem compoundTernaryBody_norm (ids₁ ids₂ : IdGen) {ps₁ ps₂ : List Period}
    (h : List.Forall₂ (NEq normPeriod) ps₁ ps₂) (mdS mdE : ℕ) :
    normForm (compoundTernaryBody ids₁ ps₁ mdS mdE) =
    normForm (compoundTernaryBody ids₂ ps₂ mdS mdE) := by
  have hA := take_rel2 (NEq normPeriod) h mdS
  have hB := drop_rel2 (NEq normPeriod) (take_rel2 (NEq normPeriod) h (mdE + 1)) mdS
  have hP := drop_rel2 (NEq normPeriod) h (mdE + 1)
  have hmapA : (ps₁.take mdS).map normPeriod = (ps₂.take mdS).map normPeriod :=
    (forall2_iff_map_eq normPeriod _ _).1 hA
  have hmapB : ((ps₁.take (mdE + 1)).drop mdS).map normPeriod =
      ((ps₂.take (mdE + 1)).drop mdS).map normPeriod :=
    (forall2_iff_map_eq normPeriod _ _).1 hB
  have hmapP : (ps₁.drop (mdE + 1)).map normPeriod =
      (ps₂.drop (mdE + 1)).map normPeriod :=
    (forall2_iff_map_eq normPeriod _ _).1 hP
  have hsa : (ps₁.take mdS).head?.map Period.startMeasure =
      (ps₂.take mdS).head?.map Period.startMeasure :=
    optRel_map_eq _ _ _ (fun x y hxy => neq_field normPeriod Period.startMeasure hxy)
      (head?_rel2 _ hA)
  have hea : (ps₁.take mdS).getLast?.map Period.endMeasure =
      (ps₂.take mdS).getLast?.map Period.endMeasure :=
    optRel_map_eq _ _ _ (fun x y hxy => neq_field normPeriod Period.endMeasure hxy)
      (getLast?_rel2 _ hA)
  have hsb : ((ps₁.take (mdE + 1)).drop mdS).head?.map Period.startMeasure =
      ((ps₂.take (mdE + 1)).drop mdS).head?.map Period.startMeasure :=
    optRel_map_eq _ _ _ (fun x y hxy => neq_field normPeriod Period.startMeasure hxy)
      (head?_rel2 _ hB)
  have heb : ((ps₁.take (mdE + 1)).drop mdS).getLast?.map Period.endMeasure =
      ((ps₂.take (mdE + 1)).drop mdS).getLast?.map Period.endMeasure :=
    optRel_map_eq _ _ _ (fun x y hxy => neq_field normPeriod Period.endMeasure hxy)
      (getLast?_rel2 _ hB)
  have hsp : (ps₁.drop (mdE + 1)).head?.map Period.startMeasure =
      (ps₂.drop (mdE + 1)).head?.map Period.startMeasure :=
    optRel_map_eq _ _ _ (fun x y hxy => neq_field normPeriod Period.startMeasure hxy)
      (head?_rel2 _ hP)
  have hep : (ps₁.drop (mdE + 1)).getLast?.map Period.endMeasure =
      (ps₂.drop (mdE + 1)).getLast?.map Period.endMeasure :=
    optRel_map_eq _ _ _ (fun x y hxy => neq_field normPeriod Period.endMeasure hxy)
      (getLast?_rel2 _ hP)
  have hintA := analyzeInternalForm_congr hA
  have hintB := analyzeInternalForm_congr hB
  have hrecap := classifyRecapitulation_congr hA hP
  have hmidBA := classifyMiddleSection_congr
    (headI_rel2 (NEq normPeriod) rfl hB) (headI_rel2 (NEq normPeriod) rfl hA)
  have hlenA : (ps₁.take mdS).length = (ps₂.take mdS).length := hA.length_eq
  have hlenB : ((ps₁.take (mdE + 1)).drop mdS).length =
      ((ps₂.take (mdE + 1)).drop mdS).length := hB.length_eq
  have hlenP : (ps₁.drop (mdE + 1)).length = (ps₂.drop (mdE + 1)).length := hP.length_eq
  unfold compoundTernaryBody
  dsimp only
  rw [hlenA, hlenB, hlenP, hsa, hea, hsb, heb, hsp, hep, hintA, hintB, hrecap, hmidBA]
  split_ifs <;>
    simp [normForm, normSection, mkSection, hmapA, hmapB, hmapP]

theorem analyzeCompoundTernaryForm_norm (ids₁ ids₂ : IdGen) {ps₁ ps₂ : List Period}
    (h : List.Forall₂ (NEq normPeriod) ps₁ ps₂) (mp : MaterialPattern) :
    normForm (analyzeCompoundTernaryForm ids₁ ps₁ mp) =
    normForm (analyzeCompoundTernaryForm ids₂ ps₂ mp) := by
  have hlen : ps₁.length = ps₂.length := h.length_eq
  unfold analyzeCompoundTernaryForm
  dsimp only
  rw [hlen]
  split_ifs with hmp
  · simp only [normForm, List.map_cons, List.map_nil]
    rw [(forall2_iff_map_eq normSection _ _).1 (createSections_rel ids₁ ids₂ h)]
  · exact compoundTernaryBody_norm ids₁ ids₂ h _ _


theorem variationEntries_rel {ps₁ ps₂ : List Period}
    (h : List.Forall₂ (NEq normPeriod) ps₁ ps₂) :
    List.Forall₂ (fun e₁ e₂ : VariationEntry =>
        e₁.index = e₂.index ∧ e₁.similarity = e₂.similarity ∧
        e₁.variationType = e₂.variationType ∧ NEq normPeriod e₁.period e₂.period)
      (variationEntries ps₁) (variationEntries ps₂) := by
  cases h with
  | nil => exact List.Forall₂.nil
  | cons ht h' =>
    rename_i t₁ t₂ rest₁ rest₂
    unfold variationEntries
    refine map_rel2 _ _ _ _ ?_ (filter_rel2 _ _ _ ?_ (enum_rel2 _ h'))
    · intro p q hpq
      obtain ⟨hi, hp⟩ := hpq
      exact ⟨by rw [hi], calculatePeriodSimilarity_congr hp ht,
        classifyVariationType_congr ht hp, hp⟩
    · intro p q hpq
      obtain ⟨hi, hp⟩ := hpq
      show decide _ = decide _
      rw [calculatePeriodSimilarity_congr hp ht]

theorem createVariationSections_rel (ids₁ ids₂ : IdGen) {t₁ t₂ : Period}
    (ht : NEq normPeriod t₁ t₂) {vs₁ vs₂ : List VariationEntry}
    (hv : List.Forall₂ (fun e₁ e₂ : VariationEntry =>
        e₁.index = e₂.index ∧ e₁.similarity = e₂.similarity ∧
        e₁.variationType = e₂.variationType ∧ NEq normPeriod e₁.period e₂.period)
      vs₁ vs₂) :
    (createVariationSections ids₁ t₁ vs₁).map normSection =
    (createVariationSections ids₂ t₂ vs₂).map normSection := by
  have hts : t₁.startMeasure = t₂.startMeasure :=
    neq_field normPeriod Period.startMeasure ht
  have hte : t₁.endMeasure = t₂.endMeasure :=
    neq_field normPeriod Period.endMeasure ht
  unfold createVariationSections
  rw [List.map_append, List.map_append]
  refine congrArg₂ _ ?_ ?_
  · simp [mkSection, normSection, hts, hte, ht]
  · refine (forall2_iff_map_eq normSection _ _).1
      (map_rel2 _ (NEq normSection) _ _ ?_ (enum_rel2 _ hv))
    intro p q hpq
    obtain ⟨hi, he⟩ := hpq
    obtain ⟨hidx, hsim, hvt, hper⟩ := he
    have hs : p.2.period.startMeasure = q.2.period.startMeasure :=
      neq_field normPeriod Period.startMeasure hper
    have hen : p.2.period.endMeasure = q.2.period.endMeasure :=
      neq_field normPeriod Period.endMeasure hper
    show normSection _ = normSection _
    simp [mkSection, normSection, hi, hs, hen, hvt, hper]

theorem detectVariationForm_norm (ids₁ ids₂ : IdGen) {ps₁ ps₂ : List Period}
    (h : List.Forall₂ (NEq normPeriod) ps₁ ps₂) :
    normForm (detectVariationForm ids₁ ps₁) = normForm (detectVariationForm ids₂ ps₂) := by
  have hlen : ps₁.length = ps₂.length := h.length_eq
  have hv := variationEntries_rel h
  have hvlen : (variationEntries ps₁).length = (variationEntries ps₂).length :=
    hv.length_eq
  have hth : NEq normPeriod ps₁.headI ps₂.headI := headI_rel2 (NEq normPeriod) rfl h
  unfold detectVariationForm
  dsimp only
  rw [hlen, hvlen]
  split_ifs
  · rfl
  · simp only [normForm]
    rw [createVariationSections_rel ids₁ ids₂ hth hv]
  · rfl


theorem rondoStep_rel (ids₁ ids₂ : IdGen) (mainMaterial : String)
    {st₁ st₂ : List FormSection × ℕ × ℕ}
    (h : List.Forall₂ (NEq normSection) st₁.1 st₂.1 ∧ st₁.2 = st₂.2)
    {p₁ p₂ : Period × String}
    (hp : NEq normPeriod p₁.1 p₂.1 ∧ p₁.2 = p₂.2) :
    List.Forall₂ (NEq normSection) (rondoStep ids₁ mainMaterial st₁ p₁).1
        (rondoStep ids₂ mainMaterial st₂ p₂).1 ∧
      (rondoStep ids₁ mainMaterial st₁ p₁).2 = (rondoStep ids₂ mainMaterial st₂ p₂).2 := by
  obtain ⟨hs, hn⟩ := h
  obtain ⟨hper, hmat⟩ := hp
  have hps : p₁.1.startMeasure = p₂.1.startMeasure :=
    neq_field normPeriod Period.startMeasure hper
  have hpe : p₁.1.endMeasure = p₂.1.endMeasure :=
    neq_field normPeriod Period.endMeasure hper
  have hlen : st₁.1.length = st₂.1.length := hs.length_eq
  unfold rondoStep
  dsimp only
  rw [hmat, hn, hlen]
  split_ifs
  all_goals
    refine ⟨append_rel2 _ hs (List.Forall₂.cons ?_ List.Forall₂.nil), rfl⟩
    show normSection _ = normSection _
    simp [mkSection, normSection, hps, hpe, hper]

theorem detectRondoForm_norm (ids₁ ids₂ : IdGen) {ps₁ ps₂ : List Period}
    (h : List.Forall₂ (NEq normPeriod) ps₁ ps₂) (mp : MaterialPattern) :
    normForm (detectRondoForm ids₁ ps₁ mp) = normForm (detectRondoForm ids₂ ps₂ mp) := by
  unfold detectRondoForm
  dsimp only
  split_ifs
  · rfl
  · rfl
  · have hz := zip_rel2 (NEq normPeriod) Eq h (forall2_eq_refl mp.materials)
    have hfold := foldl_rel2
      (fun (a b : Period × String) => NEq normPeriod a.1 b.1 ∧ a.2 = b.2)
      (fun (s₁ s₂ : List FormSection × ℕ × ℕ) =>
        List.Forall₂ (NEq normSection) s₁.1 s₂.1 ∧ s₁.2 = s₂.2)
      (rondoStep ids₁ mp.mainMaterial) (rondoStep ids₂ mp.mainMaterial)
      (fun u₁ u₂ b₁ b₂ hu hb₂ => rondoStep_rel ids₁ ids₂ mp.mainMaterial hu hb₂)
      hz ([], 0, 0) ([], 0, 0) ⟨List.Forall₂.nil, rfl⟩
    simp only [normForm]
    rw [(forall2_iff_map_eq normSection _ _).1 hfold.1]


theorem analyzeExposition_norm {ps₁ ps₂ : List Period}
    (h : List.Forall₂ (NEq normPeriod) ps₁ ps₂) :
    normExpoComponents (analyzeExposition ps₁) =
    normExpoComponents (analyzeExposition ps₂) := by
  have hlen : ps₁.length = ps₂.length := h.length_eq
  have hhead : ps₁.head?.map (fun p => normThemeSlot ⟨p, p.startMeasure, p.endMeasure⟩) =
      ps₂.head?.map (fun p => normThemeSlot ⟨p, p.startMeasure, p.endMeasure⟩) :=
    optRel_map_eq _ _ _ (fun x y hxy => by
      have hs : x.startMeasure = y.startMeasure :=
        neq_field normPeriod Period.startMeasure hxy
      have he : x.endMeasure = y.endMeasure := neq_field normPeriod Period.endMeasure hxy
      simp [normThemeSlot, hs, he, hxy]) (head?_rel2 _ h)
  have hlast : ps₁.getLast?.map (fun p => normThemeSlot ⟨p, p.startMeasure, p.endMeasure⟩) =
      ps₂.getLast?.map (fun p => normThemeSlot ⟨p, p.startMeasure, p.endMeasure⟩) :=
    optRel_map_eq _ _ _ (fun x y hxy => by
      have hs : x.startMeasure = y.startMeasure :=
        neq_field normPeriod Period.startMeasure hxy
      have he : x.endMeasure = y.endMeasure := neq_field normPeriod Period.endMeasure hxy
      simp [normThemeSlot, hs, he, hxy]) (getLast?_rel2 _ h)
  have hT := dropLast_rel2 (NEq normPeriod) (drop_rel2 (NEq normPeriod) h 1)
  have hmapT : ((ps₁.drop 1).dropLast).map normPeriod =
      ((ps₂.drop 1).dropLast).map normPeriod :=
    (forall2_iff_map_eq normPeriod _ _).1 hT
  have hTs : ((ps₁.drop 1).dropLast).head?.map Period.startMeasure =
      ((ps₂.drop 1).dropLast).head?.map Period.startMeasure :=
    optRel_map_eq _ _ _ (fun x y hxy => neq_field normPeriod Period.startMeasure hxy)
      (head?_rel2 _ hT)
  have hTe : ((ps₁.drop 1).dropLast).getLast?.map Period.endMeasure =
      ((ps₂.drop 1).dropLast).getLast?.map Period.endMeasure :=
    optRel_map_eq _ _ _ (fun x y hxy => neq_field normPeriod Period.endMeasure hxy)
      (getLast?_rel2 _ hT)
  unfold analyzeExposition
  dsimp only
  rw [hlen]
  simp only [List.drop_one, List.map_dropLast, List.map_tail] at hmapT hTs hTe
  split_ifs <;>
    simp [normExpoComponents, normTransitionSlot, Option.map_map, Function.comp_def,
      hmapT, hTs, hTe, hhead, hlast]

theorem analyzeRecapitulation_norm {r₁ r₂ e₁ e₂ : List Period}
    (hr : List.Forall₂ (NEq normPeriod) r₁ r₂)
    (he : List.Forall₂ (NEq normPeriod) e₁ e₂) :
    normRecapComponents (analyzeRecapitulation r₁ e₁) =
    normRecapComponents (analyzeRecapitulation r₂ e₂) := by
  have hrlen : r₁.length = r₂.length := hr.length_eq
  have helen : e₁.length = e₂.length := he.length_eq
  have hrh : NEq normPeriod r₁.headI r₂.headI := headI_rel2 (NEq normPeriod) rfl hr
  have heh : NEq normPeriod e₁.headI e₂.headI := headI_rel2 (NEq normPeriod) rfl he
  have hrl : NEq normPeriod r₁.getLastI r₂.getLastI :=
    getLastI_rel2 (NEq normPeriod) rfl hr
  have hel : NEq normPeriod e₁.getLastI e₂.getLastI :=
    getLastI_rel2 (NEq normPeriod) rfl he
  unfold analyzeRecapitulation
  dsimp only
  rw [hrlen, helen, calculatePeriodSimilarity_congr hrh heh,
    calculatePeriodSimilarity_congr hrl hel]
  simp only [normRecapComponents]
  split_ifs <;> simp [hrh, hrl]

theorem detectSonataForm_norm (ids₁ ids₂ : IdGen) {ps₁ ps₂ : List Period}
    (h : List.Forall₂ (NEq normPeriod) ps₁ ps₂) :
    normForm (detectSonataForm ids₁ ps₁) = normForm (detectSonataForm ids₂ ps₂) := by
  have hlen : ps₁.length = ps₂.length := h.length_eq
  have hh : NEq normPeriod ps₁.headI ps₂.headI := headI_rel2 (NEq normPeriod) rfl h
  have hrecap : (ps₁.drop (2 * ps₂.length / 3)).any
      (fun p => decide (calculatePeriodSimilarity p ps₁.headI > 1/2)) =
      (ps₂.drop (2 * ps₂.length / 3)).any
      (fun p => decide (calculatePeriodSimilarity p ps₂.headI > 1/2)) :=
    any_eq_rel2 _ _ _ (fun x y hxy => by
      show decide _ = decide _
      rw [calculatePeriodSimilarity_congr hxy hh])
      (drop_rel2 (NEq normPeriod) h (2 * ps₂.length / 3))
  unfold detectSonataForm
  dsimp only
  rw [hlen, hrecap]
  by_cases h3 : ps₂.length < 3
  · rw [if_pos h3, if_pos h3]
  · rw [if_neg h3, if_neg h3]
    have hE := take_rel2 (NEq normPeriod) h (ps₂.length / 3 + 1)
    have hD := drop_rel2 (NEq normPeriod)
      (take_rel2 (NEq normPeriod) h (2 * ps₂.length / 3 + 1)) (ps₂.length / 3 + 1)
    have hR := drop_rel2 (NEq normPeriod) h (2 * ps₂.length / 3 + 1)
    have hmapE : (ps₁.take (ps₂.length / 3 + 1)).map normPeriod =
        (ps₂.take (ps₂.length / 3 + 1)).map normPeriod :=
      (forall2_iff_map_eq normPeriod _ _).1 hE
    have hmapD : ((ps₁.take (2 * ps₂.length / 3 + 1)).drop (ps₂.length / 3 + 1)).map
        normPeriod =
        ((ps₂.take (2 * ps₂.length / 3 + 1)).drop (ps₂.length / 3 + 1)).map normPeriod :=
      (forall2_iff_map_eq normPeriod _ _).1 hD
    have hmapR : (ps₁.drop (2 * ps₂.length / 3 + 1)).map normPeriod =
        (ps₂.drop (2 * ps₂.length / 3 + 1)).map normPeriod :=
      (forall2_iff_map_eq normPeriod _ _).1 hR
    have hEs : (ps₁.take (ps₂.length / 3 + 1)).head?.map Period.startMeasure =
        (ps₂.take (ps₂.length / 3 + 1)).head?.map Period.startMeasure :=
      optRel_map_eq _ _ _ (fun x y hxy => neq_field normPeriod Period.startMeasure hxy)
        (head?_rel2 _ hE)
    have hEe : (ps₁.take (ps₂.length / 3 + 1)).getLast?.map Period.endMeasure =
        (ps₂.take (ps₂.length / 3 + 1)).getLast?.map Period.endMeasure :=
      optRel_map_eq _ _ _ (fun x y hxy => neq_field normPeriod Period.endMeasure hxy)
        (getLast?_rel2 _ hE)
    have hDs : ((ps₁.take (2 * ps₂.length / 3 + 1)).drop (ps₂.length / 3 + 1)).head?.map
        Period.startMeasure =
        ((ps₂.take (2 * ps₂.length / 3 + 1)).drop (ps₂.length / 3 + 1)).head?.map
        Period.startMeasure :=
      optRel_map_eq _ _ _ (fun x y hxy => neq_field normPeriod Period.startMeasure hxy)
        (head?_rel2 _ hD)
    have hDe : ((ps₁.take (2 * ps₂.length / 3 + 1)).drop (ps₂.length / 3 + 1)).getLast?.map
        Period.endMeasure =
        ((ps₂.take (2 * ps₂.length / 3 + 1)).drop (ps₂.length / 3 + 1)).getLast?.map
        Period.endMeasure :=
      optRel_map_eq _ _ _ (fun x y hxy => neq_field normPeriod Period.endMeasure hxy)
        (getLast?_rel2 _ hD)
    have hRs : (ps₁.drop (2 * ps₂.length / 3 + 1)).head?.map Period.startMeasure =
        (ps₂.drop (2 * ps₂.length / 3 + 1)).head?.map Period.startMeasure :=
      optRel_map_eq _ _ _ (fun x y hxy => neq_field normPeriod Period.startMeasure hxy)
        (head?_rel2 _ hR)
    have hRe : (ps₁.drop (2 * ps₂.length / 3 + 1)).getLast?.map Period.endMeasure =
        (ps₂.drop (2 * ps₂.length / 3 + 1)).getLast?.map Period.endMeasure :=
      optRel_map_eq _ _ _ (fun x y hxy => neq_field normPeriod Period.endMeasure hxy)
        (getLast?_rel2 _ hR)
    have hDlen : ((ps₁.take (2 * ps₂.length / 3 + 1)).drop (ps₂.length / 3 + 1)).length =
        ((ps₂.take (2 * ps₂.length / 3 + 1)).drop (ps₂.length / 3 + 1)).length :=
      hD.length_eq
    have hRlen : (ps₁.drop (2 * ps₂.length / 3 + 1)).length =
        (ps₂.drop (2 * ps₂.length / 3 + 1)).length := hR.length_eq
    have hexpo := analyzeExposition_norm hE
    have hrc := analyzeRecapitulation_norm hR hE
    rw [hEs, hEe, hDs, hDe, hRs, hRe, hDlen, hRlen]
    split_ifs <;>
      first
      | rfl
      | simp [normForm, normSection, mkSection, hmapE, hmapD, hmapR, hexpo, hrc]


set_option maxHeartbeats 1000000 in
theorem detectForm_norm (ids₁ ids₂ : IdGen) {ps₁ ps₂ : List Period}
    (h : List.Forall₂ (NEq normPeriod) ps₁ ps₂) :
    normForm (detectForm ids₁ ps₁) = normForm (detectForm ids₂ ps₂) := by
  have hlen : ps₁.length = ps₂.length := h.length_eq
  have hvar := detectVariationForm_norm ids₁ ids₂ h
  have hvc : (detectVariationForm ids₁ ps₁).confidence =
      (detectVariationForm ids₂ ps₂).confidence :=
    neq_field normForm FormAnalysis.confidence hvar
  have hron := detectRondoForm_norm ids₁ ids₂ h (analyzeMaterialPattern ps₂)
  have hrc : (detectRondoForm ids₁ ps₁ (analyzeMaterialPattern ps₂)).confidence =
      (detectRondoForm ids₂ ps₂ (analyzeMaterialPattern ps₂)).confidence :=
    neq_field normForm FormAnalysis.confidence hron
  have hson := detectSonataForm_norm ids₁ ids₂ h
  have hsc : (detectSonataForm ids₁ ps₁).confidence =
      (detectSonataForm ids₂ ps₂).confidence :=
    neq_field normForm FormAnalysis.confidence hson
  unfold detectForm
  dsimp only
  rw [hlen, analyzeMaterialPattern_congr h, hvc, hrc, hsc]
  split_ifs <;>
    first
    | rfl
    | exact analyzeOnePartForm_norm ids₁ ids₂ h
    | exact analyzeBinaryForm_norm ids₁ ids₂ h
    | exact analyzeTernaryForm_norm ids₁ ids₂ h _
    | exact hvar
    | exact hron
    | exact hson
    | exact analyzeCompoundTernaryForm_norm ids₁ ids₂ h _
    | (simp only [normForm]
       rw [(forall2_iff_map_eq normSection _ _).1 (createSections_rel ids₁ ids₂ h)])


theorem verseChorusStep_rel (ids₁ ids₂ : IdGen) (verseMaterial : String)
    {st₁ st₂ : List FormSection × ℕ × ℕ}
    (h : List.Forall₂ (NEq normSection) st₁.1 st₂.1 ∧ st₁.2 = st₂.2)
    {p₁ p₂ : Period × String}
    (hp : NEq normPeriod p₁.1 p₂.1 ∧ p₁.2 = p₂.2) :
    List.Forall₂ (NEq normSection) (verseChorusStep ids₁ verseMaterial st₁ p₁).1
        (verseChorusStep ids₂ verseMaterial st₂ p₂).1 ∧
      (verseChorusStep ids₁ verseMaterial st₁ p₁).2 =
        (verseChorusStep ids₂ verseMaterial st₂ p₂).2 := by
  obtain ⟨hs, hn⟩ := h
  obtain ⟨hper, hmat⟩ := hp
  have hps : p₁.1.startMeasure = p₂.1.startMeasure :=
    neq_field normPeriod Period.startMeasure hper
  have hpe : p₁.1.endMeasure = p₂.1.endMeasure :=
    neq_field normPeriod Period.endMeasure hper
  have hlen : st₁.1.length = st₂.1.length := hs.length_eq
  unfold verseChorusStep
  dsimp only
  rw [hmat, hn, hlen]
  split_ifs
  all_goals
    refine ⟨append_rel2 _ hs (List.Forall₂.cons ?_ List.Forall₂.nil), rfl⟩
    show normSection _ = normSection _
    simp [mkSection, normSection, hps, hpe, hper]

theorem createVerseChorusSections_norm (ids₁ ids₂ : IdGen)
    {ps₁ ps₂ : List Period} (h : List.Forall₂ (NEq normPeriod) ps₁ ps₂)
    (materials : List String) :
    (createVerseChorusSections ids₁ ps₁ materials).map normSection =
    (createVerseChorusSections ids₂ ps₂ materials).map normSection := by
  unfold createVerseChorusSections
  refine (forall2_iff_map_eq normSection _ _).1 ?_
  exact (foldl_rel2
    (fun (a b : Period × String) => NEq normPeriod a.1 b.1 ∧ a.2 = b.2)
    (fun (s₁ s₂ : List FormSection × ℕ × ℕ) =>
      List.Forall₂ (NEq normSection) s₁.1 s₂.1 ∧ s₁.2 = s₂.2)
    (verseChorusStep ids₁ materials.headI) (verseChorusStep ids₂ materials.headI)
    (fun u₁ u₂ b₁ b₂ hu hb₂ => verseChorusStep_rel ids₁ ids₂ materials.headI hu hb₂)
    (zip_rel2 (NEq normPeriod) Eq h (forall2_eq_refl materials))
    ([], 0, 0) ([], 0, 0) ⟨List.Forall₂.nil, rfl⟩).1

theorem createAABASections_norm (ids₁ ids₂ : IdGen)
    {ps₁ ps₂ : List Period} (h : List.Forall₂ (NEq normPeriod) ps₁ ps₂) :
    (createAABASections ids₁ ps₁).map normSection =
    (createAABASections ids₂ ps₂).map normSection := by
  unfold createAABASections
  refine (forall2_iff_map_eq normSection _ _).1
    (map_rel2 _ (NEq normSection) _ _ ?_ (enum_rel2 _ h))
  intro p q hpq
  obtain ⟨hi, hp⟩ := hpq
  have hs : p.2.startMeasure = q.2.startMeasure :=
    neq_field normPeriod Period.startMeasure hp
  have he : p.2.endMeasure = q.2.endMeasure := neq_field normPeriod Period.endMeasure hp
  show normSection _ = normSection _
  simp [mkSection, normSection, hi, hs, he, hp]

theorem detectPopularMusicForm_norm (ids₁ ids₂ : IdGen)
    {ps₁ ps₂ : List Period} (h : List.Forall₂ (NEq normPeriod) ps₁ ps₂) :
    normPopForm (detectPopularMusicForm ids₁ ps₁) =
    normPopForm (detectPopularMusicForm ids₂ ps₂) := by
  have hlen : ps₁.length = ps₂.length := h.length_eq
  unfold detectPopularMusicForm
  dsimp only
  rw [hlen, analyzeMaterialPattern_congr h]
  split_ifs
  · rfl
  · simp only [normPopForm, Option.map_some']
    rw [createVerseChorusSections_norm ids₁ ids₂ h]
  · simp only [normPopForm, Option.map_some']
    rw [createAABASections_norm ids₁ ids₂ h]
  · rfl


theorem detectFormWithPop_norm (ids₁ ids₂ : IdGen) {ps₁ ps₂ : List Period}
    (h : List.Forall₂ (NEq normPeriod) ps₁ ps₂) :
    normForm (detectFormWithPop ids₁ ps₁) = normForm (detectFormWithPop ids₂ ps₂) := by
  have hform := detectForm_norm ids₁ ids₂ h
  have hpop := detectPopularMusicForm_norm ids₁ ids₂ h
  have hfc : (detectForm ids₁ ps₁).confidence = (detectForm ids₂ ps₂).confidence :=
    neq_field normForm FormAnalysis.confidence hform
  have hfd : (detectForm ids₁ ps₁).description = (detectForm ids₂ ps₂).description :=
    neq_field normForm FormAnalysis.description hform
  have hfs : (detectForm ids₁ ps₁).sections.map normSection =
      (detectForm ids₂ ps₂).sections.map normSection :=
    neq_field normForm FormAnalysis.sections hform
  have hpc : (detectPopularMusicForm ids₁ ps₁).confidence =
      (detectPopularMusicForm ids₂ ps₂).confidence :=
    neq_field normPopForm PopForm.confidence hpop
  have hpt : (detectPopularMusicForm ids₁ ps₁).formType =
      (detectPopularMusicForm ids₂ ps₂).formType :=
    neq_field normPopForm PopForm.formType hpop
  have hpd : (detectPopularMusicForm ids₁ ps₁).description =
      (detectPopularMusicForm ids₂ ps₂).description :=
    neq_field normPopForm PopForm.description hpop
  have hpsec : ((detectPopularMusicForm ids₁ ps₁).sections.getD
        (detectForm ids₁ ps₁).sections).map normSection =
      ((detectPopularMusicForm ids₂ ps₂).sections.getD
        (detectForm ids₂ ps₂).sections).map normSection := by
    have hps : (detectPopularMusicForm ids₁ ps₁).sections.map (fun l => l.map normSection) =
        (detectPopularMusicForm ids₂ ps₂).sections.map (fun l => l.map normSection) :=
      neq_field normPopForm PopForm.sections hpop
    cases hp1 : (detectPopularMusicForm ids₁ ps₁).sections with
    | none =>
      cases hp2 : (detectPopularMusicForm ids₂ ps₂).sections with
      | none => simpa using hfs
      | some l₂ => rw [hp1, hp2] at hps; exact absurd hps (by simp)
    | some l₁ =>
      cases hp2 : (detectPopularMusicForm ids₂ ps₂).sections with
      | none => rw [hp1, hp2] at hps; exact absurd hps (by simp)
      | some l₂ =>
        rw [hp1, hp2] at hps
        simpa using hps
  unfold detectFormWithPop
  dsimp only
  rw [hpc, hfc]
  split_ifs
  · simp only [normForm]
    rw [hpt, hpd, hfd, hpsec]
  · exact hform


/-! ## Whole-pipeline congruence -/

theorem analyzeComplete_norm (ids₁ ids₂ : IdGen) (notes : List Note)
    (ks : KeySignature) (ts : TimeSignature) :
    normResult (analyzeComplete ids₁ notes ks ts) =
    normResult (analyzeComplete ids₂ notes ks ts) := by
  have hm := (forall2_iff_map_eq normMotive _ _).2 (detectMotives_norm ids₁ ids₂ notes ts)
  have hsp := (forall2_iff_map_eq normSubPhrase _ _).2
    (detectSubPhrases_norm ids₁ ids₂ notes hm)
  have hc := (forall2_iff_map_eq normCadence _ _).2 (detectCadences_norm ids₁ ids₂ notes ks)
  have hp := (forall2_iff_map_eq normPhrase _ _).2
    (detectPhrases_norm ids₁ ids₂ notes hc hsp)
  have hpd := (forall2_iff_map_eq normPeriod _ _).2 (detectPeriods_norm ids₁ ids₂ hp)
  unfold analyzeComplete
  dsimp only
  simp only [normResult]
  rw [(forall2_iff_map_eq normMotive _ _).1 hm,
    (forall2_iff_map_eq normSubPhrase _ _).1 hsp,
    (forall2_iff_map_eq normCadence _ _).1 hc,
    (forall2_iff_map_eq normPhrase _ _).1 hp,
    (forall2_iff_map_eq normPeriod _ _).1 hpd,
    detectCompoundPeriods_norm ids₁ ids₂ hpd,
    detectFormWithPop_norm ids₁ ids₂ hpd]

theorem processInChunks_rel {α₁ α₂ : Type} (Ra : α₁ → α₂ → Prop)
    (key₁ : α₁ → ℤ) (key₂ : α₂ → ℤ) (hk : ∀ a b, Ra a b → key₁ a = key₂ b)
    (notes : List Note) (proc₁ : List Note → List α₁) (proc₂ : List Note → List α₂)
    (hproc : ∀ cn, List.Forall₂ Ra (proc₁ cn) (proc₂ cn)) :
    List.Forall₂ Ra (processInChunks key₁ notes proc₁)
      (processInChunks key₂ notes proc₂) := by
  unfold processInChunks
  split_ifs
  · exact hproc notes
  · refine foldl_rel2 Eq (List.Forall₂ Ra) _ _ ?_ (forall2_eq_refl _) [] []
      List.Forall₂.nil
    intro s₁ s₂ a₁ a₂ hs ha
    subst ha
    dsimp only
    rw [hs.length_eq]
    split_ifs
    · exact append_rel2 _ hs (hproc _)
    · refine append_rel2 _ hs (filter_rel2 _ _ _ ?_ (hproc _))
      intro x y hxy
      rw [hk _ _ hxy]

theorem analyzeCompleteChunked_norm (ids₁ ids₂ : IdGen) (notes : List Note)
    (ks : KeySignature) (ts : TimeSignature) :
    normResult (analyzeCompleteChunked ids₁ notes ks ts) =
    normResult (analyzeCompleteChunked ids₂ notes ks ts) := by
  unfold analyzeCompleteChunked
  split_ifs
  · exact analyzeComplete_norm ids₁ ids₂ notes ks ts
  · have hm : List.Forall₂ (NEq normMotive)
        (processInChunks (fun m => m.measureNumber) notes
          (fun chunkNotes => detectMotives ids₁ chunkNotes ts))
        (processInChunks (fun m => m.measureNumber) notes
          (fun chunkNotes => detectMotives ids₂ chunkNotes ts)) :=
      processInChunks_rel _ _ _
        (fun a b hab => neq_field normMotive Motive.measureNumber hab) notes _ _
        (fun cn => (forall2_iff_map_eq normMotive _ _).2
          (detectMotives_norm ids₁ ids₂ cn ts))
    have hsp : List.Forall₂ (NEq normSubPhrase)
        (processInChunks (fun sp => sp.startMeasure) notes
          (fun chunkNotes => detectSubPhrases ids₁ chunkNotes
            ((processInChunks (fun m => m.measureNumber) notes
              (fun chunkNotes => detectMotives ids₁ chunkNotes ts)).filter (fun m =>
              chunkNotes.any (fun n => n.measureNumber == m.measureNumber)))))
        (processInChunks (fun sp => sp.startMeasure) notes
          (fun chunkNotes => detectSubPhrases ids₂ chunkNotes
            ((processInChunks (fun m => m.measureNumber) notes
              (fun chunkNotes => detectMotives ids₂ chunkNotes ts)).filter (fun m =>
              chunkNotes.any (fun n => n.measureNumber == m.measureNumber))))) :=
      processInChunks_rel _ _ _
        (fun a b hab => neq_field normSubPhrase SubPhrase.startMeasure hab) notes _ _
        (fun cn => (forall2_iff_map_eq normSubPhrase _ _).2
          (detectSubPhrases_norm ids₁ ids₂ cn
            (filter_rel2 _ _ _ (fun x y hxy => by
              have hmm : x.measureNumber = y.measureNumber :=
                neq_field normMotive Motive.measureNumber hxy
              rw [hmm]) hm)))
    have hc := (forall2_iff_map_eq normCadence _ _).2
      (detectCadences_norm ids₁ ids₂ notes ks)
    have hp := (forall2_iff_map_eq normPhrase _ _).2
      (detectPhrases_norm ids₁ ids₂ notes hc hsp)
    have hpd := (forall2_iff_map_eq normPeriod _ _).2 (detectPeriods_norm ids₁ ids₂ hp)
    simp only [normResult]
    rw [(forall2_iff_map_eq normMotive _ _).1 hm,
      (forall2_iff_map_eq normSubPhrase _ _).1 hsp,
      (forall2_iff_map_eq normCadence _ _).1 hc,
      (forall2_iff_map_eq normPhrase _ _).1 hp,
      (forall2_iff_map_eq normPeriod _ _).1 hpd,
      detectCompoundPeriods_norm ids₁ ids₂ hpd,
      detectFormWithPop_norm ids₁ ids₂ hpd]


/-! ## Structure-tree congruence -/

theorem normTreeList_eq_map : ∀ l : List TreeNode, normTreeList l = l.map normTree := by
  intro l
  induction l with
  | nil => rfl
  | cons a as ih => simp only [normTreeList, List.map_cons, ih]

theorem addMotives_norm (ids₁ ids₂ : IdGen) (s e : ℤ) :
    (addMotives ids₁ s e).map normTree = (addMotives ids₂ s e).map normTree := by
  unfold addMotives
  dsimp only
  rw [List.map_map, List.map_map]
  refine List.map_congr_left ?_
  intro k _
  simp [Function.comp, normTree]

theorem phraseSubtree_norm (ids₁ ids₂ : IdGen) {p₁ p₂ : Phrase}
    (h : NEq normPhrase p₁ p₂) :
    normTree (phraseSubtree ids₁ p₁) = normTree (phraseSubtree ids₂ p₂) := by
  have hs : p₁.startMeasure = p₂.startMeasure := neq_field normPhrase Phrase.startMeasure h
  have he : p₁.endMeasure = p₂.endMeasure := neq_field normPhrase Phrase.endMeasure h
  have hm : p₁.material = p₂.material := neq_field normPhrase Phrase.material h
  have hcad : p₁.cadence.map normCadence = p₂.cadence.map normCadence :=
    neq_field normPhrase Phrase.cadence h
  have hcs : p₁.cadence.isSome = p₂.cadence.isSome := by
    rw [← Option.isSome_map' (f := normCadence), hcad, Option.isSome_map']
  unfold phraseSubtree
  dsimp only
  rw [hs, he, hm, hcs]
  split_ifs
  all_goals
    simp only [normTree, normTreeList_eq_map, List.map_cons, List.map_nil,
      addMotives_norm ids₁ ids₂]

theorem periodSubtree_norm (ids₁ ids₂ : IdGen) {pd₁ pd₂ : Period}
    (h : NEq normPeriod pd₁ pd₂) :
    normTree (periodSubtree ids₁ pd₁) = normTree (periodSubtree ids₂ pd₂) := by
  have hph := periodPhrases_rel h
  have hty : pd₁.type = pd₂.type := neq_field normPeriod Period.type h
  have hsm : pd₁.phrases.head?.map Phrase.startMeasure =
      pd₂.phrases.head?.map Phrase.startMeasure :=
    optRel_map_eq _ _ _ (fun x y hxy => neq_field normPhrase Phrase.startMeasure hxy)
      (head?_rel2 _ hph)
  have hem : pd₁.phrases.getLast?.map Phrase.endMeasure =
      pd₂.phrases.getLast?.map Phrase.endMeasure :=
    optRel_map_eq _ _ _ (fun x y hxy => neq_field normPhrase Phrase.endMeasure hxy)
      (getLast?_rel2 _ hph)
  have hch : (pd₁.phrases.map (phraseSubtree ids₁)).map normTree =
      (pd₂.phrases.map (phraseSubtree ids₂)).map normTree :=
    (forall2_iff_map_eq normTree _ _).1 (map_rel2 _ (NEq normTree) _ _
      (fun x y hxy => phraseSubtree_norm ids₁ ids₂ hxy) hph)
  unfold periodSubtree
  simp only [normTree, normTreeList_eq_map]
  rw [hty, hsm, hem, hch]

theorem findIdx?_congr {α₁ α₂ : Type} (Ra : α₁ → α₂ → Prop)
    (p₁ : α₁ → Bool) (p₂ : α₂ → Bool)
    (hp : ∀ a₁ a₂, Ra a₁ a₂ → p₁ a₁ = p₂ a₂) :
    ∀ {l₁ : List α₁} {l₂ : List α₂}, List.Forall₂ Ra l₁ l₂ →
      ∀ i, l₁.findIdx? p₁ i = l₂.findIdx? p₂ i := by
  intro l₁ l₂ h
  induction h with
  | nil => intro i; rfl
  | cons ha _ ih =>
    intro i
    rw [List.findIdx?_cons, List.findIdx?_cons, hp _ _ ha]
    split_ifs
    · rfl
    · exact ih (i + 1)

theorem buildTree_norm (ids₁ ids₂ : IdGen) (score : ParsedScore)
    {phs₁ phs₂ : List Phrase} (hph : List.Forall₂ (NEq normPhrase) phs₁ phs₂)
    {pds₁ pds₂ : List Period} (hpd : List.Forall₂ (NEq normPeriod) pds₁ pds₂)
    {f₁ f₂ : FormAnalysis} (hf : normForm f₁ = normForm f₂) :
    normTree (buildTree ids₁ score phs₁ pds₁ f₁) =
    normTree (buildTree ids₂ score phs₂ pds₂ f₂) := by
  have hsec : List.Forall₂ (NEq normSection) f₁.sections f₂.sections :=
    (forall2_iff_map_eq normSection _ _).2 (neq_field normForm FormAnalysis.sections hf)
  have hconf : f₁.confidence = f₂.confidence :=
    neq_field normForm FormAnalysis.confidence hf
  have hassigned : ∀ {q₁ q₂ : Period}, NEq normPeriod q₁ q₂ →
      f₁.sections.findIdx? (fun s =>
        decide (s.startMeasure ≤ (periodSubtree ids₁ q₁).startMeasure ∧
          (periodSubtree ids₁ q₁).endMeasure ≤ s.endMeasure)) =
      f₂.sections.findIdx? (fun s =>
        decide (s.startMeasure ≤ (periodSubtree ids₂ q₂).startMeasure ∧
          (periodSubtree ids₂ q₂).endMeasure ≤ s.endMeasure)) := by
    intro q₁ q₂ hq
    have hns := periodSubtree_norm ids₁ ids₂ hq
    have h1 : (periodSubtree ids₁ q₁).startMeasure =
        (periodSubtree ids₂ q₂).startMeasure := by
      have := congrArg TreeNode.startMeasure hns
      cases hh1 : periodSubtree ids₁ q₁
      cases hh2 : periodSubtree ids₂ q₂
      rw [hh1, hh2] at this
      simpa [normTree, TreeNode.startMeasure] using this
    have h2 : (periodSubtree ids₁ q₁).endMeasure =
        (periodSubtree ids₂ q₂).endMeasure := by
      have := congrArg TreeNode.endMeasure hns
      cases hh1 : periodSubtree ids₁ q₁
      cases hh2 : periodSubtree ids₂ q₂
      rw [hh1, hh2] at this
      simpa [normTree, TreeNode.endMeasure] using this
    refine findIdx?_congr (NEq normSection) _ _ ?_ hsec 0
    intro s₁ s₂ hss
    have hs1 : s₁.startMeasure = s₂.startMeasure :=
      neq_field normSection FormSection.startMeasure hss
    have hs2 : s₁.endMeasure = s₂.endMeasure :=
      neq_field normSection FormSection.endMeasure hss
    rw [hs1, hs2, h1, h2]
  unfold buildTree
  dsimp only
  simp only [normTree, normTreeList_eq_map]
  rw [List.map_append, List.map_append]
  refine congrArg₂ _ rfl (congrArg₂ _ ?_ ?_)
  · refine (forall2_iff_map_eq normTree _ _).1
      (map_rel2 _ (NEq normTree) _ _ ?_ (enum_rel2 _ hsec))
    intro p q hpq
    obtain ⟨hi, hs⟩ := hpq
    have hn : p.2.name = q.2.name := neq_field normSection FormSection.name hs
    have hs1 : p.2.startMeasure = q.2.startMeasure :=
      neq_field normSection FormSection.startMeasure hs
    have hs2 : p.2.endMeasure = q.2.endMeasure :=
      neq_field normSection FormSection.endMeasure hs
    have hflt : List.Forall₂ (NEq normPeriod)
        (pds₁.filter (fun period =>
          decide (f₁.sections.findIdx? (fun s =>
            decide (s.startMeasure ≤ (periodSubtree ids₁ period).startMeasure ∧
              (periodSubtree ids₁ period).endMeasure ≤ s.endMeasure)) = some p.1)))
        (pds₂.filter (fun period =>
          decide (f₂.sections.findIdx? (fun s =>
            decide (s.startMeasure ≤ (periodSubtree ids₂ period).startMeasure ∧
              (periodSubtree ids₂ period).endMeasure ≤ s.endMeasure)) = some q.1))) := by
      refine filter_rel2 _ _ _ ?_ hpd
      intro x y hxy
      rw [hassigned hxy, hi]
    show normTree _ = normTree _
    have hch := (forall2_iff_map_eq normTree _ _).1
      (map_rel2 _ (NEq normTree) _ _
        (fun x y hxy => periodSubtree_norm ids₁ ids₂ hxy) hflt)
    simp only [normTree, normTreeList_eq_map]
    rw [hs1, hs2, hn, hconf, hch]
  · have hflt : List.Forall₂ (NEq normPeriod)
        (pds₁.filter (fun period =>
          decide (f₁.sections.findIdx? (fun s =>
            decide (s.startMeasure ≤ (periodSubtree ids₁ period).startMeasure ∧
              (periodSubtree ids₁ period).endMeasure ≤ s.endMeasure)) = none)))
        (pds₂.filter (fun period =>
          decide (f₂.sections.findIdx? (fun s =>
            decide (s.startMeasure ≤ (periodSubtree ids₂ period).startMeasure ∧
              (periodSubtree ids₂ period).endMeasure ≤ s.endMeasure)) = none))) := by
      refine filter_rel2 _ _ _ ?_ hpd
      intro x y hxy
      rw [hassigned hxy]
    exact (forall2_iff_map_eq normTree _ _).1
      (map_rel2 _ (NEq normTree) _ _
        (fun x y hxy => periodSubtree_norm ids₁ ids₂ hxy) hflt)


theorem buildHierarchy_norm (ids₁ ids₂ : IdGen) (score : ParsedScore) :
    normTree (buildHierarchy ids₁ score) = normTree (buildHierarchy ids₂ score) := by
  unfold buildHierarchy
  dsimp only
  split_ifs with hbig
  · have hres := analyzeCompleteChunked_norm ids₁ ids₂ score.notes score.keySignature
      (score.timeSignature.getD ⟨4, 4⟩)
    exact buildTree_norm ids₁ ids₂ score
      ((forall2_iff_map_eq normPhrase _ _).2
        (neq_field normResult AnalysisResult.phrases hres))
      ((forall2_iff_map_eq normPeriod _ _).2
        (neq_field normResult AnalysisResult.periods hres))
      (neq_field normResult AnalysisResult.form hres)
  · have hres := analyzeComplete_norm ids₁ ids₂ score.notes score.keySignature
      (score.timeSignature.getD ⟨4, 4⟩)
    exact buildTree_norm ids₁ ids₂ score
      ((forall2_iff_map_eq normPhrase _ _).2
        (neq_field normResult AnalysisResult.phrases hres))
      ((forall2_iff_map_eq normPeriod _ _).2
        (neq_field normResult AnalysisResult.periods hres))
      (neq_field normResult AnalysisResult.form hres)

/-- C3: determinism of the analysis modulo generated identifiers.  The
identifier stream (the only consumer of `Math.random()`) is the sole source
of run-to-run variation; for any two identifier streams, `analyzeComplete`
produces identifier-normalised-equal results — equal counts, equal
confidences, equal material labels, and (via `buildHierarchy`) equal tree
shape — on every fixed input. -/
theorem C3_theorem (ids₁ ids₂ : IdGen) (notes : List Note) (ks : KeySignature)
    (ts : TimeSignature) (score : ParsedScore) :
    normResult (analyzeComplete ids₁ notes ks ts) =
      normResult (analyzeComplete ids₂ notes ks ts) ∧
    normTree (buildHierarchy ids₁ score) = normTree (buildHierarchy ids₂ score) :=
  ⟨analyzeComplete_norm ids₁ ids₂ notes ks ts, buildHierarchy_norm ids₁ ids₂ score⟩


/-! ## Skeleton commutation (chunk-invariance development) -/

theorem comparePhraseHeads_skel (a b : Phrase) :
    comparePhraseHeads (phraseSkel a) (phraseSkel b) = comparePhraseHeads a b := rfl

theorem comparePhraseTails_skel (a b : Phrase) :
    comparePhraseTails (phraseSkel a) (phraseSkel b) = comparePhraseTails a b := rfl

theorem analyzePhraseMaterialsGo_skel :
    ∀ (l acc : List Phrase),
      (analyzePhraseMaterialsGo acc l).map phraseSkel =
      analyzePhraseMaterialsGo (acc.map phraseSkel) (l.map phraseSkel) := by
  intro l
  induction l with
  | nil => intro acc; rfl
  | cons curr rest ih =>
    intro acc
    unfold analyzePhraseMaterialsGo
    rw [List.map_cons]
    rw [List.getLast?_map]
    cases hl : acc.getLast? with
    | none =>
      simp only [Option.map_none']
      rw [ih, List.map_append]
      rfl
    | some prev =>
      simp only [Option.map_some']
      rw [comparePhraseHeads_skel, comparePhraseTails_skel]
      split_ifs <;>
        (rw [ih, List.map_append]; rfl)


theorem phraseCadenceStep_skel (ids : IdGen) (notes : List Note)
    (sps : List SubPhrase) {st₁ st₂ : PhraseLoopState}
    (h : st₁.phrases.map phraseSkel = st₂.phrases ∧
      st₁.phraseStart = st₂.phraseStart ∧ st₁.phraseIndex = st₂.phraseIndex)
    (c : Cadence) :
    (phraseCadenceStep ids notes sps st₁ c).phrases.map phraseSkel =
        (phraseCadenceStep ids notes [] st₂ c).phrases ∧
      (phraseCadenceStep ids notes sps st₁ c).phraseStart =
        (phraseCadenceStep ids notes [] st₂ c).phraseStart ∧
      (phraseCadenceStep ids notes sps st₁ c).phraseIndex =
        (phraseCadenceStep ids notes [] st₂ c).phraseIndex := by
  obtain ⟨hp, hs, hi⟩ := h
  unfold phraseCadenceStep
  dsimp only
  rw [hs, hi]
  split_ifs <;>
    first
    | exact ⟨hp, hs, hi⟩
    | (refine ⟨?_, rfl, rfl⟩
       rw [List.map_append, hp]
       rfl)

theorem detectPhrases_skel (ids : IdGen) (notes : List Note) (cads : List Cadence)
    (sps : List SubPhrase) :
    (detectPhrases ids notes cads sps).map phraseSkel =
    detectPhrases ids notes cads [] := by
  unfold detectPhrases
  cases hmn : measureNumbersOf notes with
  | nil => rfl
  | cons m0 ms =>
    dsimp only
    have hfold := foldl_rel2 Eq
      (fun (s₁ s₂ : PhraseLoopState) =>
        s₁.phrases.map phraseSkel = s₂.phrases ∧
        s₁.phraseStart = s₂.phraseStart ∧ s₁.phraseIndex = s₂.phraseIndex)
      (phraseCadenceStep ids notes sps) (phraseCadenceStep ids notes [])
      (fun u₁ u₂ b₁ b₂ hu hb₂ => hb₂ ▸ phraseCadenceStep_skel ids notes sps hu b₁)
      (forall2_eq_refl (stableSortBy Cadence.measureNumber cads))
      ⟨[], m0, 0⟩ ⟨[], m0, 0⟩ ⟨rfl, rfl, rfl⟩
    obtain ⟨hph, hst, hidx⟩ := hfold
    rw [hst, hidx]
    split_ifs with hfin
    · unfold analyzePhraseMaterials
      rw [analyzePhraseMaterialsGo_skel]
      rw [List.map_append, hph]
      rfl
    · unfold analyzePhraseMaterials
      rw [analyzePhraseMaterialsGo_skel, hph]
      rfl


theorem forall2_map_self {α β : Type} (f : α → β) (l : List α) :
    List.Forall₂ (fun a b => b = f a) l (l.map f) := by
  induction l with
  | nil => exact List.Forall₂.nil
  | cons a as ih => exact List.Forall₂.cons rfl ih

theorem headI_map_phraseSkel (l : List Phrase) :
    (l.map phraseSkel).headI = phraseSkel l.headI := by
  cases l <;> rfl

theorem isNewSection_skel (a b : Phrase) :
    isNewSection (phraseSkel a) (phraseSkel b) = isNewSection a b := rfl

theorem isSequentialRelation_skel (a b : Phrase) :
    isSequentialRelation (phraseSkel a) (phraseSkel b) = isSequentialRelation a b := rfl

theorem classifyProportion_skel (l : List Phrase) :
    classifyProportion (l.map phraseSkel) = classifyProportion l := by
  unfold classifyProportion
  rw [List.length_map, List.map_map]
  have hc : (Phrase.length ∘ phraseSkel) = Phrase.length := funext (fun p => rfl)
  rw [hc]

theorem derivePeriodMaterial_skel (l : List Phrase) :
    derivePeriodMaterial (l.map phraseSkel) = derivePeriodMaterial l := by
  unfold derivePeriodMaterial
  rw [List.length_map, List.map_map]
  have hc : ((fun p : Phrase => charAt0 p.material) ∘ phraseSkel) =
      (fun p : Phrase => charAt0 p.material) := funext (fun p => rfl)
  rw [hc]

theorem classifyPeriodType_skel (l : List Phrase) :
    classifyPeriodType (l.map phraseSkel) = classifyPeriodType l := by
  unfold classifyPeriodType
  rw [List.length_map]
  cases l with
  | nil => rfl
  | cons p rest =>
    cases rest with
    | nil => rfl
    | cons q rest' =>
      dsimp only [List.map_cons, List.headI, List.get?, Option.getD_some]
      rw [isSequentialRelation_skel]
      rfl

theorem enumFrom_map_pair {α β : Type} (f : α → β) :
    ∀ (l : List α) (k : ℕ),
      (l.map f).enumFrom k = (l.enumFrom k).map (fun p => (p.1, f p.2)) := by
  intro l
  induction l with
  | nil => intro k; rfl
  | cons a as ih =>
    intro k
    simp only [List.map_cons, List.enumFrom, ih]

theorem createPeriod_skel (id : String) (l : List Phrase) (k : ℕ) :
    createPeriod id (l.map phraseSkel) k = periodSkel (createPeriod id l k) := by
  unfold createPeriod periodSkel
  dsimp only
  rw [List.head?_map, List.getLast?_map, List.length_map,
    classifyPeriodType_skel, classifyProportion_skel, derivePeriodMaterial_skel]
  have h1 : (l.head?.map phraseSkel).map Phrase.startMeasure =
      l.head?.map Phrase.startMeasure := by cases l.head? <;> rfl
  have h2 : (l.getLast?.map phraseSkel).map Phrase.endMeasure =
      l.getLast?.map Phrase.endMeasure := by cases l.getLast? <;> rfl
  have h3 : (l.getLast?.map phraseSkel).bind Phrase.cadence =
      l.getLast?.bind Phrase.cadence := by cases l.getLast? <;> rfl
  rw [h1, h2, h3]

theorem periodStep_skel (ids : IdGen) (phs : List Phrase)
    {st₁ st₂ : List Period × ℕ × ℕ}
    (h : st₁.1.map periodSkel = st₂.1 ∧ st₁.2 = st₂.2)
    {p₁ : ℕ × Phrase} {p₂ : ℕ × Phrase} (hp : p₂ = (p₁.1, phraseSkel p₁.2)) :
    (periodStep ids phs st₁ p₁).1.map periodSkel =
        (periodStep ids (phs.map phraseSkel) st₂ p₂).1 ∧
      (periodStep ids phs st₁ p₁).2 = (periodStep ids (phs.map phraseSkel) st₂ p₂).2 := by
  obtain ⟨hs, hn⟩ := h
  subst hp
  have hnext : ((phs.map phraseSkel).get? (p₁.1 + 1)).getD (phraseSkel p₁.2) =
      phraseSkel ((phs.get? (p₁.1 + 1)).getD p₁.2) := by
    rw [List.get?_map]
    cases phs.get? (p₁.1 + 1) <;> rfl
  unfold periodStep
  dsimp only
  rw [hn, List.length_map, hnext, isNewSection_skel]
  have hcad : getCadenceStrength (phraseSkel p₁.2).cadence =
      getCadenceStrength p₁.2.cadence := rfl
  rw [hcad]
  split_ifs
  · refine ⟨?_, rfl⟩
    rw [List.map_append, hs, ← List.map_take, ← List.map_drop, createPeriod_skel]
    rfl
  · exact ⟨hs, hn⟩

theorem detectPeriods_skel (ids : IdGen) (phs : List Phrase) :
    (detectPeriods ids phs).map periodSkel = detectPeriods ids (phs.map phraseSkel) := by
  unfold detectPeriods
  rw [List.length_map]
  split_ifs
  · rfl
  · have henum : (phs.map phraseSkel).enum =
        phs.enum.map (fun p : ℕ × Phrase => (p.1, phraseSkel p.2)) :=
      enumFrom_map_pair phraseSkel phs 0
    have hrel : List.Forall₂ (fun (a b : ℕ × Phrase) => b = (a.1, phraseSkel a.2))
        phs.enum ((phs.map phraseSkel).enum) := by
      rw [henum]
      exact forall2_map_self _ _
    exact (foldl_rel2
      (fun (a b : ℕ × Phrase) => b = (a.1, phraseSkel a.2))
      (fun (s₁ s₂ : List Period × ℕ × ℕ) =>
        s₁.1.map periodSkel = s₂.1 ∧ s₁.2 = s₂.2)
      (periodStep ids phs) (periodStep ids (phs.map phraseSkel))
      (fun u₁ u₂ b₁ b₂ hu hb₂ => periodStep_skel ids phs hu hb₂)
      hrel ([], 0, 0) ([], 0, 0) ⟨rfl, rfl⟩).1


theorem flatMap_notes_skel (phs : List Phrase) :
    (phs.map phraseSkel).flatMap Phrase.notes = phs.flatMap Phrase.notes := by
  induction phs with
  | nil => rfl
  | cons p rest ih => simp only [List.map_cons, List.flatMap_cons, ih]; rfl

theorem flatMap_rhythm_skel (phs : List Phrase) :
    (phs.map phraseSkel).flatMap (fun p => extractRhythmPattern p.notes) =
    phs.flatMap (fun p => extractRhythmPattern p.notes) := by
  induction phs with
  | nil => rfl
  | cons p rest ih => simp only [List.map_cons, List.flatMap_cons, ih]; rfl

theorem calculatePeriodSimilarity_skel (a b : Period) :
    calculatePeriodSimilarity (periodSkel a) (periodSkel b) =
    calculatePeriodSimilarity a b := by
  show calculatePeriodSimilarity
    { a with phrases := a.phrases.map phraseSkel }
    { b with phrases := b.phrases.map phraseSkel } = _
  unfold calculatePeriodSimilarity
  dsimp only
  rw [List.length_map, List.length_map, flatMap_notes_skel, flatMap_notes_skel]

theorem compareRhythms_skel (a b : Period) :
    compareRhythms (periodSkel a) (periodSkel b) = compareRhythms a b := by
  show compareRhythms
    { a with phrases := a.phrases.map phraseSkel }
    { b with phrases := b.phrases.map phraseSkel } = _
  unfold compareRhythms
  dsimp only
  rw [flatMap_rhythm_skel, flatMap_rhythm_skel]

theorem hasRecapPair_skel (a b : Period) :
    hasRecapPair (periodSkel a) (periodSkel b) = hasRecapPair a b := by
  show hasRecapPair
    { a with phrases := a.phrases.map phraseSkel }
    { b with phrases := b.phrases.map phraseSkel } = _
  unfold hasRecapPair
  dsimp only
  rw [List.getLast?_map, List.head?_map]
  cases b.phrases.getLast? <;> cases a.phrases.head? <;> rfl

theorem classifyMiddleSection_skel (a b : Period) :
    classifyMiddleSection (periodSkel a) (periodSkel b) = classifyMiddleSection a b := by
  unfold classifyMiddleSection
  rw [calculatePeriodSimilarity_skel]
  rfl

theorem headI_map_periodSkel (l : List Period) :
    (l.map periodSkel).headI = periodSkel l.headI := by
  cases l <;> rfl

theorem arePeriodsParallel_skel (a b : Period) :
    arePeriodsParallel (periodSkel a) (periodSkel b) = arePeriodsParallel a b := by
  show arePeriodsParallel
    { a with phrases := a.phrases.map phraseSkel }
    { b with phrases := b.phrases.map phraseSkel } = _
  unfold arePeriodsParallel
  dsimp only
  rw [List.length_map, List.length_map, headI_map_phraseSkel, headI_map_phraseSkel,
    comparePhraseHeads_skel]

theorem analyzeInternalForm_skel (l : List Period) :
    analyzeInternalForm (l.map periodSkel) = analyzeInternalForm l := by
  unfold analyzeInternalForm
  rw [List.length_map]
  cases l with
  | nil => rfl
  | cons p rest =>
    cases rest with
    | nil => rfl
    | cons q rest' =>
      dsimp only [List.map_cons, List.headI, List.get?, Option.getD_some]
      rw [arePeriodsParallel_skel]

theorem classifyRecapitulation_skel (o r : List Period) :
    classifyRecapitulation (o.map periodSkel) (r.map periodSkel) =
    classifyRecapitulation o r := by
  unfold classifyRecapitulation
  rw [List.length_map, List.length_map, List.map_map, List.map_map]
  have h1 : (Period.length ∘ periodSkel) = Period.length := funext (fun p => rfl)
  rw [h1]

theorem classifyVariationType_skel (t v : Period) :
    classifyVariationType (periodSkel t) (periodSkel v) = classifyVariationType t v := by
  show classifyVariationType
    { t with phrases := t.phrases.map phraseSkel }
    { v with phrases := v.phrases.map phraseSkel } = _
  unfold classifyVariationType
  dsimp only
  have hcr : compareRhythms
      { t with phrases := t.phrases.map phraseSkel }
      { v with phrases := v.phrases.map phraseSkel } = compareRhythms t v :=
    compareRhythms_skel t v
  rw [List.head?_map, List.head?_map, hcr]
  have h1 : (t.phrases.head?.map phraseSkel).map Phrase.notes =
      t.phrases.head?.map Phrase.notes := by cases t.phrases.head? <;> rfl
  have h2 : (v.phrases.head?.map phraseSkel).map Phrase.notes =
      v.phrases.head?.map Phrase.notes := by cases v.phrases.head? <;> rfl
  rw [h1, h2]

theorem analyzeMaterialPattern_skel (ps : List Period) :
    analyzeMaterialPattern (ps.map periodSkel) = analyzeMaterialPattern ps := by
  unfold analyzeMaterialPattern
  rw [List.map_map]
  have h1 : ((fun p : Period => charAt0 p.material) ∘ periodSkel) =
      (fun p : Period => charAt0 p.material) := funext (fun p => rfl)
  rw [h1]


theorem getD_get?_map_periodSkel (l : List Period) (n : ℕ) (d : Period) :
    ((l.map periodSkel).get? n).getD (periodSkel d) = periodSkel ((l.get? n).getD d) := by
  rw [List.get?_map]
  cases l.get? n <;> rfl

theorem analyzeOnePartForm_skel (ids : IdGen) (ps : List Period) :
    analyzeOnePartForm ids (ps.map periodSkel) = formSkel (analyzeOnePartForm ids ps) := by
  unfold analyzeOnePartForm formSkel
  dsimp only
  rw [headI_map_periodSkel]
  simp [sectionSkel, mkSection, periodSkel]

theorem analyzeBinaryForm_skel (ids : IdGen) (ps : List Period) :
    analyzeBinaryForm ids (ps.map periodSkel) = formSkel (analyzeBinaryForm ids ps) := by
  unfold analyzeBinaryForm formSkel
  dsimp only
  rw [headI_map_periodSkel, getD_get?_map_periodSkel, hasRecapPair_skel]
  split_ifs <;> simp [sectionSkel, mkSection, periodSkel]

theorem analyzeTernaryForm_skel (ids : IdGen) (ps : List Period) (mp : MaterialPattern) :
    analyzeTernaryForm ids (ps.map periodSkel) mp =
    formSkel (analyzeTernaryForm ids ps mp) := by
  unfold analyzeTernaryForm formSkel
  dsimp only
  rw [headI_map_periodSkel, getD_get?_map_periodSkel, getD_get?_map_periodSkel,
    classifyMiddleSection_skel]
  split_ifs <;> simp [sectionSkel, mkSection, periodSkel]

theorem createSections_skel (ids : IdGen) (ps : List Period) :
    createSections ids (ps.map periodSkel) = (createSections ids ps).map sectionSkel := by
  unfold createSections
  rw [show (ps.map periodSkel).enum =
      ps.enum.map (fun p : ℕ × Period => (p.1, periodSkel p.2)) from
    enumFrom_map_pair periodSkel ps 0]
  rw [List.map_map, List.map_map]
  refine List.map_congr_left ?_
  intro p _
  simp [Function.comp, mkSection, sectionSkel, periodSkel]

theorem startMeasure_opt_skel (o : Option Period) :
    (o.map periodSkel).map Period.startMeasure = o.map Period.startMeasure := by
  cases o <;> rfl

theorem endMeasure_opt_skel (o : Option Period) :
    (o.map periodSkel).map Period.endMeasure = o.map Period.endMeasure := by
  cases o <;> rfl

theorem compoundTernaryBody_skel (ids : IdGen) (ps : List Period) (mdS mdE : ℕ) :
    compoundTernaryBody ids (ps.map periodSkel) mdS mdE =
    formSkel (compoundTernaryBody ids ps mdS mdE) := by
  unfold compoundTernaryBody formSkel
  dsimp only
  simp only [← List.map_take, ← List.map_drop, List.length_map, List.head?_map,
    List.getLast?_map, startMeasure_opt_skel, endMeasure_opt_skel,
    analyzeInternalForm_skel, classifyRecapitulation_skel, headI_map_periodSkel,
    classifyMiddleSection_skel]
  split_ifs <;> simp [sectionSkel, mkSection, periodSkel]

theorem analyzeCompoundTernaryForm_skel (ids : IdGen) (ps : List Period)
    (mp : MaterialPattern) :
    analyzeCompoundTernaryForm ids (ps.map periodSkel) mp =
    formSkel (analyzeCompoundTernaryForm ids ps mp) := by
  unfold analyzeCompoundTernaryForm
  dsimp only
  rw [List.length_map]
  split_ifs
  · simp only [formSkel]
    rw [createSections_skel]
  · exact compoundTernaryBody_skel ids ps _ _


theorem variationEntries_skel (ps : List Period) :
    variationEntries (ps.map periodSkel) =
    (variationEntries ps).map (fun e => { e with period := periodSkel e.period }) := by
  cases ps with
  | nil => rfl
  | cons t rest =>
    unfold variationEntries
    rw [List.map_cons]
    dsimp only
    rw [show (rest.map periodSkel).enum =
        rest.enum.map (fun p : ℕ × Period => (p.1, periodSkel p.2)) from
      enumFrom_map_pair periodSkel rest 0]
    rw [List.filter_map, List.map_map, List.map_map]
    have hpred : ((fun p : ℕ × Period =>
        decide (3/10 < calculatePeriodSimilarity p.2 (periodSkel t) ∧
          calculatePeriodSimilarity p.2 (periodSkel t) < 9/10)) ∘
        (fun p : ℕ × Period => (p.1, periodSkel p.2))) =
        (fun p : ℕ × Period =>
          decide (3/10 < calculatePeriodSimilarity p.2 t ∧
            calculatePeriodSimilarity p.2 t < 9/10)) := by
      funext p
      show decide (3/10 < calculatePeriodSimilarity (periodSkel p.2) (periodSkel t) ∧
          calculatePeriodSimilarity (periodSkel p.2) (periodSkel t) < 9/10) = _
      rw [calculatePeriodSimilarity_skel]
    rw [hpred]
    refine List.map_congr_left ?_
    intro p _
    show ({
      index := p.1 + 1,
      period := periodSkel p.2,
      similarity := calculatePeriodSimilarity (periodSkel p.2) (periodSkel t),
      variationType := classifyVariationType (periodSkel t) (periodSkel p.2) } :
        VariationEntry) = _
    rw [calculatePeriodSimilarity_skel, classifyVariationType_skel]
    rfl

theorem createVariationSections_skel (ids : IdGen) (t : Period)
    (vs : List VariationEntry) :
    createVariationSections ids (periodSkel t)
      (vs.map (fun e => { e with period := periodSkel e.period })) =
    (createVariationSections ids t vs).map sectionSkel := by
  unfold createVariationSections
  rw [List.map_append]
  refine congrArg₂ _ ?_ ?_
  · simp [mkSection, sectionSkel, periodSkel]
  · rw [show (vs.map (fun e => ({ e with period := periodSkel e.period } :
        VariationEntry))).enum = vs.enum.map (fun p : ℕ × VariationEntry =>
        (p.1, { p.2 with period := periodSkel p.2.period })) from
      enumFrom_map_pair _ vs 0]
    rw [List.map_map, List.map_map]
    refine List.map_congr_left ?_
    intro p _
    simp [Function.comp, mkSection, sectionSkel, periodSkel]

theorem detectVariationForm_skel (ids : IdGen) (ps : List Period) :
    detectVariationForm ids (ps.map periodSkel) =
    formSkel (detectVariationForm ids ps) := by
  unfold detectVariationForm
  dsimp only
  rw [List.length_map, variationEntries_skel, List.length_map, headI_map_periodSkel]
  split_ifs
  · rfl
  · simp only [formSkel]
    rw [createVariationSections_skel]
  · rfl

theorem rondoStep_skel (ids : IdGen) (mainMaterial : String)
    {st₁ st₂ : List FormSection × ℕ × ℕ}
    (h : st₁.1.map sectionSkel = st₂.1 ∧ st₁.2 = st₂.2)
    {p₁ p₂ : Period × String} (hp : p₂ = (periodSkel p₁.1, p₁.2)) :
    (rondoStep ids mainMaterial st₁ p₁).1.map sectionSkel =
        (rondoStep ids mainMaterial st₂ p₂).1 ∧
      (rondoStep ids mainMaterial st₁ p₁).2 = (rondoStep ids mainMaterial st₂ p₂).2 := by
  obtain ⟨hs, hn⟩ := h
  subst hp
  unfold rondoStep
  dsimp only
  rw [hn, ← hs, List.length_map]
  split_ifs
  all_goals
    refine ⟨?_, rfl⟩
    rw [List.map_append]
    refine congrArg₂ _ rfl ?_
    simp [mkSection, sectionSkel, periodSkel]

theorem detectRondoForm_skel (ids : IdGen) (ps : List Period) (mp : MaterialPattern) :
    detectRondoForm ids (ps.map periodSkel) mp = formSkel (detectRondoForm ids ps mp) := by
  unfold detectRondoForm
  dsimp only
  split_ifs
  · rfl
  · rfl
  · have hz : (ps.map periodSkel).zip mp.materials =
        (ps.zip mp.materials).map (fun p : Period × String => (periodSkel p.1, p.2)) := by
      rw [List.zip_map_left]
      rfl
    rw [hz]
    have hrel : List.Forall₂ (fun (a b : Period × String) => b = (periodSkel a.1, a.2))
        (ps.zip mp.materials)
        ((ps.zip mp.materials).map (fun p : Period × String => (periodSkel p.1, p.2))) :=
      forall2_map_self _ _
    have hfold := foldl_rel2
      (fun (a b : Period × String) => b = (periodSkel a.1, a.2))
      (fun (s₁ s₂ : List FormSection × ℕ × ℕ) =>
        s₁.1.map sectionSkel = s₂.1 ∧ s₁.2 = s₂.2)
      (rondoStep ids mp.mainMaterial) (rondoStep ids mp.mainMaterial)
      (fun u₁ u₂ b₁ b₂ hu hb₂ => rondoStep_skel ids mp.mainMaterial hu hb₂)
      hrel ([], 0, 0) ([], 0, 0) ⟨rfl, rfl⟩
    simp only [formSkel]
    rw [← hfold.1]


theorem analyzeExposition_skel (ps : List Period) :
    analyzeExposition (ps.map periodSkel) = expoComponentsSkel (analyzeExposition ps) := by
  unfold analyzeExposition expoComponentsSkel
  dsimp only
  rw [List.length_map]
  split_ifs <;> first
    | rfl
    | (simp only [← List.map_drop, ← List.map_dropLast, List.head?_map, List.getLast?_map,
        Option.map_map, startMeasure_opt_skel, endMeasure_opt_skel]
       rfl)

theorem getLastI_map_periodSkel (l : List Period) :
    (l.map periodSkel).getLastI = periodSkel l.getLastI := by
  rw [List.getLastI_eq_getLast?, List.getLastI_eq_getLast?, List.getLast?_map]
  cases l.getLast? <;> rfl

theorem analyzeRecapitulation_skel (r e : List Period) :
    analyzeRecapitulation (r.map periodSkel) (e.map periodSkel) =
    recapComponentsSkel (analyzeRecapitulation r e) := by
  unfold analyzeRecapitulation recapComponentsSkel
  dsimp only
  rw [List.length_map, List.length_map, headI_map_periodSkel, headI_map_periodSkel,
    calculatePeriodSimilarity_skel, getLastI_map_periodSkel, getLastI_map_periodSkel,
    calculatePeriodSimilarity_skel]
  split_ifs <;> simp [periodSkel]

theorem any_recap_skel (l : List Period) (q : Period) :
    (l.map periodSkel).any
      (fun p => decide (calculatePeriodSimilarity p (periodSkel q) > 1/2)) =
    l.any (fun p => decide (calculatePeriodSimilarity p q > 1/2)) := by
  rw [List.any_map]
  simp only [Function.comp_def, calculatePeriodSimilarity_skel]

theorem detectSonataForm_skel (ids : IdGen) (ps : List Period) :
    detectSonataForm ids (ps.map periodSkel) = formSkel (detectSonataForm ids ps) := by
  unfold detectSonataForm
  dsimp only
  rw [List.length_map]
  simp only [← List.map_take, ← List.map_drop]
  rw [headI_map_periodSkel, any_recap_skel, analyzeExposition_skel,
    analyzeRecapitulation_skel]
  simp only [List.length_map, List.head?_map, List.getLast?_map,
    startMeasure_opt_skel, endMeasure_opt_skel]
  split_ifs <;> first
    | rfl
    | simp [formSkel, sectionSkel, mkSection, periodSkel]


theorem verseChorusStep_skel (ids : IdGen) (vm : String)
    {st₁ st₂ : List FormSection × ℕ × ℕ}
    (h : st₁.1.map sectionSkel = st₂.1 ∧ st₁.2 = st₂.2)
    {p₁ p₂ : Period × String} (hp : p₂ = (periodSkel p₁.1, p₁.2)) :
    (verseChorusStep ids vm st₁ p₁).1.map sectionSkel =
        (verseChorusStep ids vm st₂ p₂).1 ∧
      (verseChorusStep ids vm st₁ p₁).2 = (verseChorusStep ids vm st₂ p₂).2 := by
  obtain ⟨hs, hn⟩ := h
  subst hp
  unfold verseChorusStep
  dsimp only
  rw [hn, ← hs, List.length_map]
  split_ifs
  all_goals
    refine ⟨?_, rfl⟩
    rw [List.map_append]
    refine congrArg₂ _ rfl ?_
    simp [mkSection, sectionSkel, periodSkel]

theorem createVerseChorusSections_skel (ids : IdGen) (ps : List Period)
    (ms : List String) :
    createVerseChorusSections ids (ps.map periodSkel) ms =
    (createVerseChorusSections ids ps ms).map sectionSkel := by
  unfold createVerseChorusSections
  have hz : (ps.map periodSkel).zip ms =
      (ps.zip ms).map (fun p : Period × String => (periodSkel p.1, p.2)) := by
    rw [List.zip_map_left]
    rfl
  rw [hz]
  have hrel : List.Forall₂ (fun (a b : Period × String) => b = (periodSkel a.1, a.2))
      (ps.zip ms)
      ((ps.zip ms).map (fun p : Period × String => (periodSkel p.1, p.2))) :=
    forall2_map_self _ _
  have hfold := foldl_rel2
    (fun (a b : Period × String) => b = (periodSkel a.1, a.2))
    (fun (s₁ s₂ : List FormSection × ℕ × ℕ) =>
      s₁.1.map sectionSkel = s₂.1 ∧ s₁.2 = s₂.2)
    (verseChorusStep ids ms.headI) (verseChorusStep ids ms.headI)
    (fun u₁ u₂ b₁ b₂ hu hb => verseChorusStep_skel ids ms.headI hu hb)
    hrel ([], 0, 0) ([], 0, 0) ⟨rfl, rfl⟩
  exact hfold.1.symm

theorem createAABASections_skel (ids : IdGen) (ps : List Period) :
    createAABASections ids (ps.map periodSkel) =
    (createAABASections ids ps).map sectionSkel := by
  unfold createAABASections
  rw [show (ps.map periodSkel).enum =
      ps.enum.map (fun p : ℕ × Period => (p.1, periodSkel p.2)) from
    enumFrom_map_pair periodSkel ps 0]
  rw [List.map_map, List.map_map]
  refine List.map_congr_left ?_
  intro p _
  simp [Function.comp, mkSection, sectionSkel, periodSkel]

theorem detectPopularMusicForm_skel (ids : IdGen) (ps : List Period) :
    detectPopularMusicForm ids (ps.map periodSkel) =
    popFormSkel (detectPopularMusicForm ids ps) := by
  unfold detectPopularMusicForm popFormSkel
  dsimp only
  rw [List.length_map, analyzeMaterialPattern_skel]
  split_ifs
  · rfl
  · rw [createVerseChorusSections_skel]
    rfl
  · rw [createAABASections_skel]
    rfl
  · rfl


theorem formSkel_confidence (f : FormAnalysis) : (formSkel f).confidence = f.confidence :=
  rfl

theorem popFormSkel_confidence (f : PopForm) : (popFormSkel f).confidence = f.confidence :=
  rfl

set_option maxHeartbeats 1000000 in
theorem detectForm_skel (ids : IdGen) (ps : List Period) :
    detectForm ids (ps.map periodSkel) = formSkel (detectForm ids ps) := by
  unfold detectForm
  dsimp only
  rw [List.length_map, analyzeMaterialPattern_skel, analyzeOnePartForm_skel,
    analyzeBinaryForm_skel, analyzeTernaryForm_skel, detectVariationForm_skel,
    detectRondoForm_skel, detectSonataForm_skel, analyzeCompoundTernaryForm_skel,
    createSections_skel]
  simp only [formSkel_confidence]
  split_ifs <;> first
    | rfl
    | simp [formSkel]


theorem detectFormWithPop_skel (ids : IdGen) (ps : List Period) :
    detectFormWithPop ids (ps.map periodSkel) = formSkel (detectFormWithPop ids ps) := by
  unfold detectFormWithPop
  dsimp only
  rw [detectForm_skel, detectPopularMusicForm_skel]
  simp only [formSkel_confidence, popFormSkel_confidence]
  split_ifs
  · cases h : (detectPopularMusicForm ids ps).sections <;>
      cases hd : (detectPopularMusicForm ids ps).description <;>
        simp [h, hd, formSkel, popFormSkel]
  · rfl


/-- **C1.** For every identifier stream, note stream, key and time signature,
`analyzeCompleteChunked` and `analyzeComplete` agree exactly on the cadence
list, and agree on the phrase, period and form outputs up to the sub-phrase
lists embedded inside phrases (`phraseSkel` / `periodSkel` / `formSkel` blank
exactly those embedded sub-phrase lists and nothing else): chunking changes
which sub-phrases a phrase carries but no other field of any phrase, period
or form section. -/
theorem C1_theorem (ids : IdGen) (notes : List Note) (ks : KeySignature)
    (ts : TimeSignature) :
    (analyzeCompleteChunked ids notes ks ts).cadences =
      (analyzeComplete ids notes ks ts).cadences ∧
    (analyzeCompleteChunked ids notes ks ts).phrases.map phraseSkel =
      (analyzeComplete ids notes ks ts).phrases.map phraseSkel ∧
    (analyzeCompleteChunked ids notes ks ts).periods.map periodSkel =
      (analyzeComplete ids notes ks ts).periods.map periodSkel ∧
    formSkel (analyzeCompleteChunked ids notes ks ts).form =
      formSkel (analyzeComplete ids notes ks ts).form := by
  unfold analyzeCompleteChunked
  split_ifs with h
  · exact ⟨rfl, rfl, rfl, rfl⟩
  · unfold analyzeComplete
    dsimp only
    refine ⟨rfl, ?_, ?_, ?_⟩
    · rw [detectPhrases_skel, detectPhrases_skel]
    · rw [detectPeriods_skel, detectPeriods_skel, detectPhrases_skel, detectPhrases_skel]
    · rw [← detectFormWithPop_skel, ← detectFormWithPop_skel, detectPeriods_skel,
        detectPeriods_skel, detectPhrases_skel, detectPhrases_skel]

section ConcreteEvaluationC1

attribute [local semireducible] Rat.add Rat.sub Rat.mul Rat.inv

set_option maxRecDepth 1000000
set_option maxHeartbeats 4000000

/-- **C1 counterexample.** On a 64-measure input (one note per measure, chunk
windows 1–32, 29–60 and 57–64) the complete and the chunked analyses place a
sub-phrase starting at measure 40 — more than `overlapMeasures/2 = 2` measures
away from every chunk boundary — but disagree on it: the complete run gives it
index 39 and material label "z", the chunked run index 11 and material "l",
because sub-phrase indices and material letters restart inside each chunk. -/
theorem C1_counterexample :
    (measureNumbersOf c1Notes).length = 64 ∧
    ((analyzeComplete cexIds c1Notes ⟨0, "major"⟩ ⟨4, 4⟩).subPhrases.find?
        (fun sp => sp.startMeasure == 40)).map (fun sp => (sp.index, sp.material)) =
      some (39, "z") ∧
    ((analyzeCompleteChunked cexIds c1Notes ⟨0, "major"⟩ ⟨4, 4⟩).subPhrases.find?
        (fun sp => sp.startMeasure == 40)).map (fun sp => (sp.index, sp.material)) =
      some (11, "l") :=
  ⟨by decide, by decide, by decide⟩

end ConcreteEvaluationC1


/-! ## C4: chain lemmas -/

theorem chainNext_append (s : ℤ) (l₁ l₂ : List Phrase) :
    chainNext s (l₁ ++ l₂) = chainNext (chainNext s l₁) l₂ := by
  induction l₁ generalizing s with
  | nil => rfl
  | cons p rest ih => exact ih (p.endMeasure + 1)

theorem chainedFrom_append (s : ℤ) (l₁ l₂ : List Phrase) :
    ChainedFrom s (l₁ ++ l₂) ↔
      ChainedFrom s l₁ ∧ ChainedFrom (chainNext s l₁) l₂ := by
  induction l₁ generalizing s with
  | nil => simp [ChainedFrom, chainNext]
  | cons p rest ih =>
    constructor
    · rintro ⟨hs, hse, hrest⟩
      obtain ⟨h1, h2⟩ := (ih (p.endMeasure + 1)).1 hrest
      exact ⟨⟨hs, hse, h1⟩, h2⟩
    · rintro ⟨⟨hs, hse, h1⟩, h2⟩
      exact ⟨hs, hse, (ih (p.endMeasure + 1)).2 ⟨h1, h2⟩⟩

theorem chainNext_ge (s : ℤ) (l : List Phrase) (h : ChainedFrom s l) :
    s ≤ chainNext s l := by
  induction l generalizing s with
  | nil => exact le_refl s
  | cons p rest ih =>
    obtain ⟨hs, hse, hrest⟩ := h
    have := ih _ hrest
    rw [chainNext]
    omega

theorem chainedFrom_mem (s : ℤ) (l : List Phrase) (h : ChainedFrom s l) :
    ∀ p ∈ l, s ≤ p.startMeasure ∧ p.startMeasure ≤ p.endMeasure ∧
      p.endMeasure < chainNext s l := by
  induction l generalizing s with
  | nil => intro p hp; cases hp
  | cons q rest ih =>
    obtain ⟨hs, hse, hrest⟩ := h
    intro p hp
    rw [chainNext]
    cases hp with
    | head =>
      refine ⟨le_of_eq hs.symm, hse, ?_⟩
      have := chainNext_ge _ _ hrest
      omega
    | tail _ hmem =>
      have := ih _ hrest p hmem
      omega

theorem chainedFrom_take (s : ℤ) (l : List Phrase) (h : ChainedFrom s l) (n : ℕ) :
    ChainedFrom s (l.take n) := by
  induction l generalizing s n with
  | nil => simp [ChainedFrom]
  | cons p rest ih =>
    cases n with
    | zero => trivial
    | succ m =>
      obtain ⟨hs, hse, hrest⟩ := h
      exact ⟨hs, hse, ih _ hrest m⟩

theorem chainedFrom_drop (s : ℤ) (l : List Phrase) (h : ChainedFrom s l) (n : ℕ) :
    ChainedFrom (chainNext s (l.take n)) (l.drop n) := by
  have := (chainedFrom_append s (l.take n) (l.drop n)).1
  rw [List.take_append_drop] at this
  exact (this h).2

theorem chainedFrom_head (s : ℤ) (p : Phrase) (l : List Phrase)
    (h : ChainedFrom s (p :: l)) : p.startMeasure = s := h.1

theorem chainNext_getLast (s : ℤ) (l : List Phrase) (h : l ≠ []) :
    ∀ p, l.getLast? = some p → chainNext s l = p.endMeasure + 1 := by
  induction l generalizing s with
  | nil => exact absurd rfl h
  | cons q rest ih =>
    intro p hp
    cases rest with
    | nil =>
      simp only [List.getLast?_singleton, Option.some.injEq] at hp
      subst hp
      rfl
    | cons r rs =>
      rw [List.getLast?_cons_cons] at hp
      show chainNext (q.endMeasure + 1) (r :: rs) = _
      exact ih _ (by simp) p hp

theorem periodChainNext_append (s : ℤ) (l₁ l₂ : List Period) :
    periodChainNext s (l₁ ++ l₂) = periodChainNext (periodChainNext s l₁) l₂ := by
  induction l₁ generalizing s with
  | nil => rfl
  | cons p rest ih => exact ih (p.endMeasure + 1)

theorem periodsChainedFrom_append (s : ℤ) (l₁ l₂ : List Period) :
    PeriodsChainedFrom s (l₁ ++ l₂) ↔
      PeriodsChainedFrom s l₁ ∧ PeriodsChainedFrom (periodChainNext s l₁) l₂ := by
  induction l₁ generalizing s with
  | nil => simp [PeriodsChainedFrom, periodChainNext]
  | cons p rest ih =>
    constructor
    · rintro ⟨hs, hse, hrest⟩
      obtain ⟨h1, h2⟩ := (ih (p.endMeasure + 1)).1 hrest
      exact ⟨⟨hs, hse, h1⟩, h2⟩
    · rintro ⟨⟨hs, hse, h1⟩, h2⟩
      exact ⟨hs, hse, (ih (p.endMeasure + 1)).2 ⟨h1, h2⟩⟩

theorem periodChainNext_ge (s : ℤ) (l : List Period) (h : PeriodsChainedFrom s l) :
    s ≤ periodChainNext s l := by
  induction l generalizing s with
  | nil => exact le_refl s
  | cons p rest ih =>
    obtain ⟨hs, hse, hrest⟩ := h
    have := ih _ hrest
    rw [periodChainNext]
    omega

theorem periodsChainedFrom_mem (s : ℤ) (l : List Period) (h : PeriodsChainedFrom s l) :
    ∀ p ∈ l, s ≤ p.startMeasure ∧ p.startMeasure ≤ p.endMeasure ∧
      p.endMeasure < periodChainNext s l := by
  induction l generalizing s with
  | nil => intro p hp; cases hp
  | cons q rest ih =>
    obtain ⟨hs, hse, hrest⟩ := h
    intro p hp
    rw [periodChainNext]
    cases hp with
    | head =>
      refine ⟨le_of_eq hs.symm, hse, ?_⟩
      have := periodChainNext_ge _ _ hrest
      omega
    | tail _ hmem =>
      have := ih _ hrest p hmem
      omega

theorem periodsChainedFrom_headI (s : ℤ) (l : List Period) (hne : l ≠ [])
    (h : PeriodsChainedFrom s l) : l.headI.startMeasure = s := by
  cases l with
  | nil => exact absurd rfl hne
  | cons p rest => exact h.1

theorem periodChainNext_getLastI (s : ℤ) (l : List Period) (hne : l ≠ [])
    (h : PeriodsChainedFrom s l) :
    periodChainNext s l = l.getLastI.endMeasure + 1 := by
  induction l generalizing s with
  | nil => exact absurd rfl hne
  | cons q rest ih =>
    obtain ⟨hs, hse, hrest⟩ := h
    cases rest with
    | nil => simp [periodChainNext, List.getLastI]
    | cons r rs =>
      show periodChainNext (q.endMeasure + 1) (r :: rs) = _
      rw [ih _ (by simp) hrest]
      simp [List.getLastI_eq_getLast?, List.getLast?_cons_cons]


/-! ## C4: membership and bound lemmas -/

theorem mem_stableInsert {α : Type} (key : α → ℤ) (a x : α) (l : List α) :
    x ∈ stableInsert key a l ↔ x = a ∨ x ∈ l := by
  induction l with
  | nil => simp [stableInsert]
  | cons b rest ih =>
    rw [stableInsert]
    split_ifs <;> simp [ih] <;> tauto

theorem mem_stableSortFold {α : Type} (key : α → ℤ) :
    ∀ (l acc : List α) (x : α),
      (x ∈ l.foldl (fun acc a => stableInsert key a acc) acc ↔ x ∈ acc ∨ x ∈ l) := by
  intro l
  induction l with
  | nil => simp
  | cons a rest ih =>
    intro acc x
    rw [List.foldl_cons, ih, mem_stableInsert]
    simp
    tauto

theorem mem_stableSortBy {α : Type} (key : α → ℤ) (l : List α) (x : α) :
    x ∈ stableSortBy key l ↔ x ∈ l := by
  unfold stableSortBy
  rw [mem_stableSortFold]
  simp

theorem measureNumbersOf_bounds (notes : List Note) (N : ℤ)
    (h : ∀ n ∈ notes, 1 ≤ n.measureNumber ∧ n.measureNumber ≤ N) :
    ∀ m ∈ measureNumbersOf notes, 1 ≤ m ∧ m ≤ N := by
  intro m hm
  unfold measureNumbersOf at hm
  rw [mem_stableSortBy, List.mem_dedup] at hm
  obtain ⟨n, hn, rfl⟩ := List.mem_map.1 hm
  have hb := h n hn
  unfold measureKey orElseInt
  split_ifs with h0
  · omega
  · exact hb

theorem classifyCadence_measure (id : String) (pd cd md m : ℤ) (mode : String)
    (c : Cadence) (h : classifyCadence id pd cd md m mode = some c) :
    c.measureNumber = m := by
  unfold classifyCadence at h
  split_ifs at h <;> simp only [Option.some.injEq] at h <;>
    first
      | (subst h; rfl)
      | exact absurd h (by simp)

theorem foldl_inv {α σ : Type} (P : σ → Prop) :
    ∀ (l : List α) (f : σ → α → σ),
      (∀ st x, x ∈ l → P st → P (f st x)) →
      ∀ st, P st → P (l.foldl f st) := by
  intro l
  induction l with
  | nil => intro f _ st h; exact h
  | cons x rest ih =>
    intro f hstep st h
    rw [List.foldl_cons]
    exact ih f (fun a y hy => hstep a y (List.mem_cons_of_mem x hy)) (f st x)
      (hstep st x (List.mem_cons_self x rest) h)

theorem detectCadences_measure (ids : IdGen) (notes : List Note) (ks : KeySignature) :
    ∀ c ∈ detectCadences ids notes ks,
      c.measureNumber ∈ measureNumbersOf notes := by
  unfold detectCadences
  refine foldl_inv (fun acc : List Cadence =>
    ∀ c ∈ acc, c.measureNumber ∈ measureNumbersOf notes)
    _ _ ?_ [] (by simp)
  intro acc x hx hacc c hc
  dsimp only at hc
  rcases h1 : getLowestNote x.2.1.2 with _ | prevBass <;> rw [h1] at hc
  · exact hacc c hc
  rcases h2 : getLowestNote x.2.2.2 with _ | currBass <;> rw [h2] at hc
  · exact hacc c hc
  dsimp only at hc
  rcases h3 : classifyCadence (ids x.1)
      (getScaleDegree prevBass.pitch (getTonicFromKey ks))
      (getScaleDegree currBass.pitch (getTonicFromKey ks))
      (match getHighestNote x.2.2.2 with
        | some mel => getScaleDegree mel.pitch (getTonicFromKey ks)
        | none => -1)
      x.2.2.1 (if ks.mode = "" then "major" else ks.mode) with _ | cadence <;>
    rw [h3] at hc
  · exact hacc c hc
  rw [List.mem_append] at hc
  cases hc with
  | inl hmem => exact hacc c hmem
  | inr hnew =>
    rw [List.mem_singleton] at hnew
    subst hnew
    rw [classifyCadence_measure _ _ _ _ _ _ _ h3]
    have hx2 : x.2 ∈ (groupNotesByMeasure notes).zip (groupNotesByMeasure notes).tail := by
      have := (List.mem_enum_iff_getElem?).1 hx
      exact List.getElem?_mem this
    obtain ⟨ha, hb⟩ := List.of_mem_zip (show (x.2.1, x.2.2) ∈ _ from hx2)
    have hbg : x.2.2 ∈ groupNotesByMeasure notes := List.mem_of_mem_tail hb
    unfold groupNotesByMeasure at hbg
    obtain ⟨m, hm, hme⟩ := List.mem_map.1 hbg
    rw [← hme]
    exact hm


/-! ## C4: the phrase chain produced by `detectPhrases` -/

theorem phraseCadenceStep_chain (ids : IdGen) (notes : List Note) (sps : List SubPhrase)
    (m0 N : ℤ) (c : Cadence) (hcN : c.measureNumber ≤ N) (st : PhraseLoopState)
    (h : ChainedFrom m0 st.phrases ∧ chainNext m0 st.phrases = st.phraseStart ∧
      ∀ p ∈ st.phrases, p.endMeasure ≤ N) :
    ChainedFrom m0 (phraseCadenceStep ids notes sps st c).phrases ∧
      chainNext m0 (phraseCadenceStep ids notes sps st c).phrases =
        (phraseCadenceStep ids notes sps st c).phraseStart ∧
      ∀ p ∈ (phraseCadenceStep ids notes sps st c).phrases, p.endMeasure ≤ N := by
  obtain ⟨h1, h2, h3⟩ := h
  unfold phraseCadenceStep
  dsimp only
  by_cases hg1 : 2 ≤ c.measureNumber - st.phraseStart + 1 ∧
      c.measureNumber - st.phraseStart + 1 ≤ 12
  · rw [if_pos hg1]
    refine ⟨?_, ?_, ?_⟩
    · rw [chainedFrom_append, h2]
      exact ⟨h1, rfl, show st.phraseStart ≤ c.measureNumber by omega, trivial⟩
    · rw [chainNext_append, h2]
      rfl
    · intro p hp
      rw [List.mem_append] at hp
      rcases hp with hp | hp
      · exact h3 p hp
      · rw [List.mem_singleton] at hp
        subst hp
        exact hcN
  · rw [if_neg hg1]
    by_cases hg2 : c.measureNumber - st.phraseStart + 1 > 12
    · rw [if_pos hg2]
      refine ⟨?_, ?_, ?_⟩
      · rw [chainedFrom_append, h2]
        refine ⟨h1, rfl,
          show st.phraseStart ≤
            st.phraseStart + (c.measureNumber - st.phraseStart + 1) / 2 by omega,
          rfl,
          show st.phraseStart + (c.measureNumber - st.phraseStart + 1) / 2 + 1 ≤
            c.measureNumber by omega,
          trivial⟩
      · rw [chainNext_append, h2]
        rfl
      · intro p hp
        rw [List.mem_append] at hp
        rcases hp with hp | hp
        · exact h3 p hp
        · rcases List.mem_cons.1 hp with hp1 | hp2
          · subst hp1
            show st.phraseStart + (c.measureNumber - st.phraseStart + 1) / 2 ≤ N
            omega
          · rw [List.mem_singleton] at hp2
            subst hp2
            exact hcN
    · rw [if_neg hg2]
      exact ⟨h1, h2, h3⟩

theorem analyzePhraseMaterialsGo_spans :
    ∀ (l acc : List Phrase),
      (analyzePhraseMaterialsGo acc l).map (fun p => (p.startMeasure, p.endMeasure)) =
        (acc ++ l).map (fun p => (p.startMeasure, p.endMeasure)) := by
  intro l
  induction l with
  | nil => intro acc; rw [analyzePhraseMaterialsGo]; simp
  | cons curr rest ih =>
    intro acc
    rw [analyzePhraseMaterialsGo]
    cases hl : acc.getLast? with
    | none =>
      rw [ih]
      simp
    | some prev =>
      dsimp only
      rw [ih]
      split_ifs <;> simp

theorem chainedFrom_of_spans :
    ∀ (l₁ l₂ : List Phrase),
      l₁.map (fun p => (p.startMeasure, p.endMeasure)) =
        l₂.map (fun p => (p.startMeasure, p.endMeasure)) →
      ∀ s, ChainedFrom s l₁ → ChainedFrom s l₂ := by
  intro l₁
  induction l₁ with
  | nil =>
    intro l₂ h s _
    cases l₂ with
    | nil => trivial
    | cons b bs => simp at h
  | cons a as ih =>
    intro l₂ h s hch
    cases l₂ with
    | nil => simp at h
    | cons b bs =>
      simp only [List.map_cons, List.cons.injEq, Prod.mk.injEq] at h
      obtain ⟨⟨hs, he⟩, hrest⟩ := h
      obtain ⟨h1, h2, h3⟩ := hch
      refine ⟨by omega, by omega, ?_⟩
      rw [← he]
      exact ih bs hrest _ h3

theorem endsLe_of_spans :
    ∀ (l₁ l₂ : List Phrase),
      l₁.map (fun p => (p.startMeasure, p.endMeasure)) =
        l₂.map (fun p => (p.startMeasure, p.endMeasure)) →
      ∀ (N : ℤ), (∀ p ∈ l₁, p.endMeasure ≤ N) → ∀ p ∈ l₂, p.endMeasure ≤ N := by
  intro l₁
  induction l₁ with
  | nil =>
    intro l₂ h N _ p hp
    cases l₂ with
    | nil => cases hp
    | cons b bs => simp at h
  | cons a as ih =>
    intro l₂ h N hN p hp
    cases l₂ with
    | nil => cases hp
    | cons b bs =>
      simp only [List.map_cons, List.cons.injEq, Prod.mk.injEq] at h
      obtain ⟨⟨hs, he⟩, hrest⟩ := h
      rcases List.mem_cons.1 hp with hp1 | hp2
      · subst hp1
        have := hN a (List.mem_cons_self a as)
        omega
      · exact ih bs hrest N (fun q hq => hN q (List.mem_cons_of_mem a hq)) p hp2

theorem detectPhrases_chain (ids : IdGen) (notes : List Note) (cads : List Cadence)
    (sps : List SubPhrase) (N : ℤ)
    (hm : ∀ m ∈ measureNumbersOf notes, 1 ≤ m ∧ m ≤ N)
    (hc : ∀ c ∈ cads, c.measureNumber ≤ N) :
    ∃ s, 1 ≤ s ∧ ChainedFrom s (detectPhrases ids notes cads sps) ∧
      ∀ p ∈ detectPhrases ids notes cads sps, p.endMeasure ≤ N := by
  unfold detectPhrases
  cases hmn : measureNumbersOf notes with
  | nil => exact ⟨1, le_refl 1, trivial, by intro p hp; cases hp⟩
  | cons m0 rest =>
    rw [hmn] at hm
    dsimp only
    have hstep := foldl_inv (fun st : PhraseLoopState =>
        ChainedFrom m0 st.phrases ∧ chainNext m0 st.phrases = st.phraseStart ∧
          ∀ p ∈ st.phrases, p.endMeasure ≤ N)
      (stableSortBy Cadence.measureNumber cads) (phraseCadenceStep ids notes sps)
      (fun st c hcmem hst => phraseCadenceStep_chain ids notes sps m0 N c
        (hc c ((mem_stableSortBy Cadence.measureNumber cads c).1 hcmem)) st hst)
      ⟨[], m0, 0⟩ ⟨trivial, rfl, by intro p hp; cases hp⟩
    obtain ⟨hch, hnext, hends⟩ := hstep
    have hLst : ((m0 :: rest).getLast?).getD 0 ≤ N := by
      rcases hL : (m0 :: rest).getLast? with _ | x
      · simp at hL
      · have hx := List.mem_of_getLast?_eq_some hL
        have := hm x hx
        simp only [Option.getD_some]
        omega
    generalize hgen : List.foldl (phraseCadenceStep ids notes sps)
        { phrases := [], phraseStart := m0, phraseIndex := 0 }
        (stableSortBy Cadence.measureNumber cads) = stF at hch hnext hends ⊢
    refine ⟨m0, (hm m0 (List.mem_cons_self m0 rest)).1, ?_, ?_⟩
    · refine chainedFrom_of_spans _ _
        (analyzePhraseMaterialsGo_spans _ []).symm m0 ?_
      rw [List.nil_append]
      split_ifs with hfin
      · rw [chainedFrom_append, hnext]
        exact ⟨hch, rfl,
          show stF.phraseStart ≤ ((m0 :: rest).getLast?).getD 0 by omega, trivial⟩
      · exact hch
    · refine endsLe_of_spans _ _
        (analyzePhraseMaterialsGo_spans _ []).symm N ?_
      rw [List.nil_append]
      split_ifs with hfin
      · intro p hp
        rw [List.mem_append] at hp
        rcases hp with hp | hp
        · exact hends p hp
        · rw [List.mem_singleton] at hp
          subst hp
          exact hLst
      · exact hends


/-! ## C4: the period chain produced by `detectPeriods` -/

theorem chainNext_lt_of_ne (t : ℤ) (l : List Phrase) (hne : l ≠ [])
    (h : ChainedFrom t l) : t < chainNext t l := by
  cases l with
  | nil => exact absurd rfl hne
  | cons p rest =>
    obtain ⟨h1, h2, h3⟩ := h
    have := chainNext_ge _ _ h3
    show t < chainNext (p.endMeasure + 1) rest
    omega

theorem createPeriod_ok (id : String) (l : List Phrase) (idx : ℕ) (t : ℤ)
    (hne : l ≠ []) (h : ChainedFrom t l) :
    (createPeriod id l idx).startMeasure = t ∧
      (createPeriod id l idx).endMeasure + 1 = chainNext t l ∧
      PeriodOK (createPeriod id l idx) := by
  have hhead : ((l.head?.map Phrase.startMeasure).getD 0) = t := by
    cases l with
    | nil => exact absurd rfl hne
    | cons p rest => exact h.1
  have hlast : ((l.getLast?.map Phrase.endMeasure).getD 0) + 1 = chainNext t l := by
    rcases hL : l.getLast? with _ | q
    · rw [List.getLast?_eq_none_iff] at hL
      exact absurd hL hne
    · rw [chainNext_getLast t l hne q hL]
      simp
  refine ⟨hhead, ?_, ?_, ?_, ?_⟩
  · show ((l.getLast?.map Phrase.endMeasure).getD 0) + 1 = chainNext t l
    exact hlast
  · show l ≠ []
    exact hne
  · show ChainedFrom ((l.head?.map Phrase.startMeasure).getD 0) l
    rw [hhead]
    exact h
  · show chainNext ((l.head?.map Phrase.startMeasure).getD 0) l =
      ((l.getLast?.map Phrase.endMeasure).getD 0) + 1
    rw [hhead, ← hlast]

theorem periodStep_eq_close (ids : IdGen) (phrases : List Phrase)
    (st : List Period × ℕ × ℕ) (i : ℕ) (phrase : Phrase)
    (h : ((getCadenceStrength phrase.cadence ≥ 7/10 ∧ 2 ≤ i - st.2.1 + 1) ∨
        4 ≤ i - st.2.1 + 1 ∨
        (i < phrases.length - 1 ∧
          isNewSection phrase ((phrases.get? (i + 1)).getD phrase) = true)) ∨
      i = phrases.length - 1) :
    periodStep ids phrases st (i, phrase) =
      (st.1 ++ [createPeriod (ids st.2.2) ((phrases.take (i + 1)).drop st.2.1) st.2.2],
        (i + 1, st.2.2 + 1)) := by
  unfold periodStep
  dsimp only
  rw [if_pos h]

theorem periodStep_eq_keep (ids : IdGen) (phrases : List Phrase)
    (st : List Period × ℕ × ℕ) (i : ℕ) (phrase : Phrase)
    (h : ¬ (((getCadenceStrength phrase.cadence ≥ 7/10 ∧ 2 ≤ i - st.2.1 + 1) ∨
        4 ≤ i - st.2.1 + 1 ∨
        (i < phrases.length - 1 ∧
          isNewSection phrase ((phrases.get? (i + 1)).getD phrase) = true)) ∨
      i = phrases.length - 1)) :
    periodStep ids phrases st (i, phrase) = st := by
  unfold periodStep
  dsimp only
  rw [if_neg h]

theorem periodFold_go (ids : IdGen) (phrases : List Phrase) (s N : ℤ)
    (hch : ChainedFrom s phrases) (hN : ∀ p ∈ phrases, p.endMeasure ≤ N) :
    ∀ (l : List Phrase) (j : ℕ), phrases.drop j = l →
      ∀ st : List Period × ℕ × ℕ, st.2.1 ≤ j →
        PeriodsChainedFrom s st.1 →
        periodChainNext s st.1 = chainNext s (phrases.take st.2.1) →
        (∀ pd ∈ st.1, PeriodOK pd ∧ pd.endMeasure ≤ N) →
        PeriodsChainedFrom s ((l.enumFrom j).foldl (periodStep ids phrases) st).1 ∧
        periodChainNext s ((l.enumFrom j).foldl (periodStep ids phrases) st).1 =
          chainNext s (phrases.take
            ((l.enumFrom j).foldl (periodStep ids phrases) st).2.1) ∧
        (∀ pd ∈ ((l.enumFrom j).foldl (periodStep ids phrases) st).1,
          PeriodOK pd ∧ pd.endMeasure ≤ N) ∧
        (j < phrases.length →
          ((l.enumFrom j).foldl (periodStep ids phrases) st).2.1 = phrases.length) := by
  intro l
  induction l with
  | nil =>
    intro j hdrop st hk h1 h2 h3
    have hlen : phrases.length ≤ j := by
      have := congrArg List.length hdrop
      rw [List.length_drop] at this
      simp at this
      omega
    exact ⟨h1, h2, h3, fun hlt => absurd hlt (by omega)⟩
  | cons p l2 ih =>
    intro j hdrop st hk h1 h2 h3
    have hjlt : j < phrases.length := by
      have := congrArg List.length hdrop
      rw [List.length_drop] at this
      simp at this
      omega
    have hdrop2 : phrases.drop (j + 1) = l2 := by
      have hdd : phrases.drop (j + 1) = (phrases.drop j).drop 1 := by
        rw [List.drop_drop]
      rw [hdd, hdrop]
      rfl
    rw [show ((p :: l2).enumFrom j).foldl (periodStep ids phrases) st =
        (l2.enumFrom (j + 1)).foldl (periodStep ids phrases)
          (periodStep ids phrases st (j, p)) from rfl]
    by_cases hcond : ((getCadenceStrength p.cadence ≥ 7/10 ∧ 2 ≤ j - st.2.1 + 1) ∨
        4 ≤ j - st.2.1 + 1 ∨
        (j < phrases.length - 1 ∧
          isNewSection p ((phrases.get? (j + 1)).getD p) = true)) ∨
      j = phrases.length - 1
    · rw [periodStep_eq_close ids phrases st j p hcond]
      have htt : (phrases.take (j + 1)).take st.2.1 = phrases.take st.2.1 := by
        rw [List.take_take]
        congr 1
        omega
      have hsliceCh : ChainedFrom (chainNext s (phrases.take st.2.1))
          ((phrases.take (j + 1)).drop st.2.1) := by
        have hcd := chainedFrom_drop s (phrases.take (j + 1))
          (chainedFrom_take s phrases hch (j + 1)) st.2.1
        rw [htt] at hcd
        exact hcd
      have hsliceNe : (phrases.take (j + 1)).drop st.2.1 ≠ [] := by
        have hlen : ((phrases.take (j + 1)).drop st.2.1).length =
            min (j + 1) phrases.length - st.2.1 := by
          rw [List.length_drop, List.length_take]
        intro hnil
        rw [hnil] at hlen
        simp at hlen
        omega
      obtain ⟨hpS, hpE, hpOK⟩ := createPeriod_ok (ids st.2.2)
        ((phrases.take (j + 1)).drop st.2.1) st.2.2
        (chainNext s (phrases.take st.2.1)) hsliceNe hsliceCh
      have htkJ : chainNext s (phrases.take (j + 1)) =
          chainNext (chainNext s (phrases.take st.2.1))
            ((phrases.take (j + 1)).drop st.2.1) := by
        conv_lhs => rw [← List.take_append_drop st.2.1 (phrases.take (j + 1))]
        rw [chainNext_append, htt]
      have hStLt := chainNext_lt_of_ne _ _ hsliceNe hsliceCh
      have hEndN : (createPeriod (ids st.2.2) ((phrases.take (j + 1)).drop st.2.1)
          st.2.2).endMeasure ≤ N := by
        rcases hL : ((phrases.take (j + 1)).drop st.2.1).getLast? with _ | q
        · rw [List.getLast?_eq_none_iff] at hL
          exact absurd hL hsliceNe
        · have hqm : q ∈ phrases :=
            List.mem_of_mem_take (List.mem_of_mem_drop
              (List.mem_of_getLast?_eq_some hL))
          have hqN := hN q hqm
          have hcg := chainNext_getLast (chainNext s (phrases.take st.2.1)) _
            hsliceNe q hL
          omega
      have hA : PeriodsChainedFrom s (st.1 ++ [createPeriod (ids st.2.2)
          ((phrases.take (j + 1)).drop st.2.1) st.2.2]) := by
        rw [periodsChainedFrom_append]
        refine ⟨h1, ?_⟩
        rw [h2]
        exact ⟨hpS, by omega, trivial⟩
      have hB : periodChainNext s (st.1 ++ [createPeriod (ids st.2.2)
          ((phrases.take (j + 1)).drop st.2.1) st.2.2]) =
          chainNext s (phrases.take (j + 1)) := by
        rw [periodChainNext_append, h2, htkJ]
        show (createPeriod (ids st.2.2) ((phrases.take (j + 1)).drop st.2.1)
            st.2.2).endMeasure + 1 = _
        rw [hpE]
      have hC : ∀ pd ∈ st.1 ++ [createPeriod (ids st.2.2)
          ((phrases.take (j + 1)).drop st.2.1) st.2.2],
          PeriodOK pd ∧ pd.endMeasure ≤ N := by
        intro pd hpd
        rw [List.mem_append] at hpd
        rcases hpd with hpd | hpd
        · exact h3 pd hpd
        · rw [List.mem_singleton] at hpd
          subst hpd
          exact ⟨hpOK, hEndN⟩
      have hrec := ih (j + 1) hdrop2
        (st.1 ++ [createPeriod (ids st.2.2) ((phrases.take (j + 1)).drop st.2.1)
          st.2.2], (j + 1, st.2.2 + 1)) (le_refl (j + 1)) hA hB hC
      refine ⟨hrec.1, hrec.2.1, hrec.2.2.1, fun _ => ?_⟩
      by_cases hj1 : j + 1 < phrases.length
      · exact hrec.2.2.2 hj1
      · have hl2 : l2 = [] := by
          have hlen2 := congrArg List.length hdrop2
          rw [List.length_drop] at hlen2
          cases l2 with
          | nil => rfl
          | cons a b => simp at hlen2; omega
        subst hl2
        show j + 1 = phrases.length
        omega
    · rw [periodStep_eq_keep ids phrases st j p hcond]
      have hjne : j ≠ phrases.length - 1 := fun hj => hcond (Or.inr hj)
      have hrec := ih (j + 1) hdrop2 st (by omega) h1 h2 h3
      exact ⟨hrec.1, hrec.2.1, hrec.2.2.1, fun _ => hrec.2.2.2 (by omega)⟩

theorem detectPeriods_chain (ids : IdGen) (phrases : List Phrase) (s N : ℤ)
    (hch : ChainedFrom s phrases) (hN : ∀ p ∈ phrases, p.endMeasure ≤ N) :
    PeriodsChainedFrom s (detectPeriods ids phrases) ∧
      ∀ pd ∈ detectPeriods ids phrases, PeriodOK pd ∧ pd.endMeasure ≤ N := by
  unfold detectPeriods
  split_ifs with h0
  · exact ⟨trivial, by intro pd hpd; cases hpd⟩
  · have hmain := periodFold_go ids phrases s N hch hN phrases 0 rfl ([], 0, 0)
      (Nat.zero_le 0) trivial rfl (by intro pd hpd; cases hpd)
    exact ⟨hmain.1, hmain.2.2.1⟩


/-! ## C4: section layout of the form analyzers -/

theorem sectionsOf_empty (pds : List Period) : SectionsOf pds [] :=
  ⟨[], Cover.nil pds, List.Forall₂.nil⟩

theorem cover_skip_list :
    ∀ (pre : List Period) {pds : List Period} {gs : List (List Period)},
      Cover pds gs → Cover (pre ++ pds) gs := by
  intro pre
  induction pre with
  | nil => intro pds gs h; exact h
  | cons p rest ih => intro pds gs h; exact Cover.skip p (ih h)

theorem cover_self (g : List Period) (hne : g ≠ []) : Cover g [g] := by
  have h := Cover.group hne (Cover.nil ([] : List Period))
  rwa [List.append_nil] at h

theorem cover_singletons_all (l : List Period) :
    Cover l (l.map (fun p => [p])) := by
  induction l with
  | nil => exact Cover.nil []
  | cons p rest ih => exact Cover.group (List.cons_ne_nil _ []) ih

theorem cover_zip_singletons :
    ∀ (l : List Period) (ms : List String),
      Cover l ((l.zip ms).map (fun q => [q.1])) := by
  intro l
  induction l with
  | nil => intro ms; exact Cover.nil []
  | cons p rest ih =>
    intro ms
    cases ms with
    | nil => exact Cover.nil (p :: rest)
    | cons m mrest => exact Cover.group (List.cons_ne_nil _ []) (ih mrest)

theorem cover_enumFrom_filter (c : ℕ × Period → Bool) :
    ∀ (l : List Period) (k : ℕ),
      Cover l (((l.enumFrom k).filter c).map (fun p => [p.2])) := by
  intro l
  induction l with
  | nil => intro k; exact Cover.nil []
  | cons p rest ih =>
    intro k
    rw [show (p :: rest).enumFrom k = (k, p) :: rest.enumFrom (k + 1) from rfl,
      List.filter_cons]
    split_ifs
    · rw [List.map_cons]
      exact Cover.group (List.cons_ne_nil _ []) (ih (k + 1))
    · exact Cover.skip p (ih (k + 1))

theorem forall2_append_pair {α β : Type} (R : α → β → Prop) :
    ∀ {l₁ l₃ : List α} {l₂ l₄ : List β},
      List.Forall₂ R l₁ l₂ → List.Forall₂ R l₃ l₄ →
      List.Forall₂ R (l₁ ++ l₃) (l₂ ++ l₄) := by
  intro l₁ l₃ l₂ l₄ h1 h2
  induction h1 with
  | nil => exact h2
  | cons ha _ ih => exact List.Forall₂.cons ha ih

theorem forall2_enumFrom_map {α β γ : Type} (R : β → γ → Prop) (f : ℕ × α → β)
    (g : α → γ) (h : ∀ i p, R (f (i, p)) (g p)) :
    ∀ (l : List α) (k : ℕ), List.Forall₂ R ((l.enumFrom k).map f) (l.map g) := by
  intro l
  induction l with
  | nil => intro k; exact List.Forall₂.nil
  | cons p rest ih => intro k; exact List.Forall₂.cons (h k p) (ih (k + 1))

theorem forall2_map_enum_map {α β γ δ : Type} (R : γ → δ → Prop) (f : α → β)
    (bld : ℕ × β → γ) (g : α → δ) (h : ∀ i p, R (bld (i, f p)) (g p)) :
    ∀ (l : List α) (k : ℕ),
      List.Forall₂ R (((l.map f).enumFrom k).map bld) (l.map g) := by
  intro l
  induction l with
  | nil => intro k; exact List.Forall₂.nil
  | cons p rest ih => intro k; exact List.Forall₂.cons (h k p) (ih (k + 1))

theorem slice_glue {α : Type} :
    ∀ (l : List α) (n m : ℕ), n ≤ m →
      (l.take m).drop n ++ l.drop m = l.drop n := by
  intro l
  induction l with
  | nil => intro n m _; simp
  | cons a rest ih =>
    intro n m hnm
    cases n with
    | zero =>
      rw [List.drop_zero, List.drop_zero]
      exact List.take_append_drop m (a :: rest)
    | succ n2 =>
      cases m with
      | zero => omega
      | succ m2 =>
        rw [List.take_succ_cons, List.drop_succ_cons, List.drop_succ_cons,
          List.drop_succ_cons]
        exact ih n2 m2 (by omega)

theorem headD_start_eq (g : List Period) (hne : g ≠ []) :
    ((g.head?.map Period.startMeasure).getD 0) = g.headI.startMeasure := by
  cases g with
  | nil => exact absurd rfl hne
  | cons p rest => rfl

theorem getLastD_end_eq (g : List Period) (hne : g ≠ []) :
    ((g.getLast?.map Period.endMeasure).getD 0) = g.getLastI.endMeasure := by
  rcases hL : g.getLast? with _ | q
  · rw [List.getLast?_eq_none_iff] at hL
    exact absurd hL hne
  · rw [List.getLastI_eq_getLast?, hL]
    rfl

theorem take_ne_nil_of_pos {α : Type} (l : List α) (m : ℕ) (hm : 1 ≤ m)
    (hne : l ≠ []) : l.take m ≠ [] := by
  cases l with
  | nil => exact absurd rfl hne
  | cons a rest =>
    cases m with
    | zero => omega
    | succ m2 => simp

theorem analyzeOnePartForm_sections (ids : IdGen) (pds : List Period)
    (hne : pds ≠ []) :
    SectionsOf pds (analyzeOnePartForm ids pds).sections := by
  cases pds with
  | nil => exact absurd rfl hne
  | cons p rest =>
    refine ⟨[[p]], Cover.group (List.cons_ne_nil _ []) (Cover.nil rest), ?_⟩
    exact List.Forall₂.cons ⟨rfl, rfl⟩ List.Forall₂.nil

theorem analyzeBinaryForm_sections (ids : IdGen) (pds : List Period)
    (hlen : pds.length = 2) :
    SectionsOf pds (analyzeBinaryForm ids pds).sections := by
  match pds, hlen with
  | [a, b], _ =>
    refine ⟨[[a], [b]],
      Cover.group (List.cons_ne_nil _ []) (Cover.group (List.cons_ne_nil _ []) (Cover.nil [])), ?_⟩
    exact List.Forall₂.cons ⟨rfl, rfl⟩
      (List.Forall₂.cons ⟨rfl, rfl⟩ List.Forall₂.nil)

theorem analyzeTernaryForm_sections (ids : IdGen) (pds : List Period)
    (mp : MaterialPattern) (hlen : pds.length = 3) :
    SectionsOf pds (analyzeTernaryForm ids pds mp).sections := by
  match pds, hlen with
  | [a, b, c], _ =>
    unfold analyzeTernaryForm
    dsimp only
    refine ⟨[[a], [b], [c]],
      Cover.group (List.cons_ne_nil _ []) (Cover.group (List.cons_ne_nil _ [])
        (Cover.group (List.cons_ne_nil _ []) (Cover.nil []))), ?_⟩
    split_ifs <;>
      exact List.Forall₂.cons ⟨rfl, rfl⟩
        (List.Forall₂.cons ⟨rfl, rfl⟩
          (List.Forall₂.cons ⟨rfl, rfl⟩ List.Forall₂.nil))

theorem createSections_sections (ids : IdGen) (pds : List Period) :
    SectionsOf pds (createSections ids pds) := by
  refine ⟨pds.map (fun p => [p]), cover_singletons_all pds, ?_⟩
  unfold createSections
  exact forall2_enumFrom_map SecSpanOf _ _ (fun i p => ⟨rfl, rfl⟩) pds 0

theorem createAABASections_sections (ids : IdGen) (pds : List Period) :
    SectionsOf pds (createAABASections ids pds) := by
  refine ⟨pds.map (fun p => [p]), cover_singletons_all pds, ?_⟩
  unfold createAABASections
  exact forall2_enumFrom_map SecSpanOf _ _ (fun i p => ⟨rfl, rfl⟩) pds 0


theorem rondoFold_sections (ids : IdGen) (mm : String) :
    ∀ (l : List (Period × String)) (st : List FormSection × ℕ × ℕ)
      (gs0 : List (List Period)),
      List.Forall₂ SecSpanOf st.1 gs0 →
      List.Forall₂ SecSpanOf ((l.foldl (rondoStep ids mm) st).1)
        (gs0 ++ l.map (fun q => [q.1])) := by
  intro l
  induction l with
  | nil => intro st gs0 h; simpa using h
  | cons q rest ih =>
    intro st gs0 h
    rw [List.foldl_cons]
    have hstep : List.Forall₂ SecSpanOf ((rondoStep ids mm st q).1)
        (gs0 ++ [[q.1]]) := by
      unfold rondoStep
      dsimp only
      split_ifs <;>
        exact forall2_append_pair SecSpanOf h
          (List.Forall₂.cons ⟨rfl, rfl⟩ List.Forall₂.nil)
    have hrec := ih (rondoStep ids mm st q) (gs0 ++ [[q.1]]) hstep
    rw [List.append_assoc] at hrec
    exact hrec

theorem detectRondoForm_sections (ids : IdGen) (pds : List Period)
    (mp : MaterialPattern) :
    SectionsOf pds (detectRondoForm ids pds mp).sections := by
  unfold detectRondoForm
  dsimp only
  split_ifs
  · exact sectionsOf_empty pds
  · exact sectionsOf_empty pds
  · refine ⟨(pds.zip mp.materials).map (fun q => [q.1]),
      cover_zip_singletons pds mp.materials, ?_⟩
    have := rondoFold_sections ids mp.mainMaterial (pds.zip mp.materials)
      ([], 0, 0) [] List.Forall₂.nil
    simpa using this

theorem verseChorusFold_sections (ids : IdGen) (vm : String) :
    ∀ (l : List (Period × String)) (st : List FormSection × ℕ × ℕ)
      (gs0 : List (List Period)),
      List.Forall₂ SecSpanOf st.1 gs0 →
      List.Forall₂ SecSpanOf ((l.foldl (verseChorusStep ids vm) st).1)
        (gs0 ++ l.map (fun q => [q.1])) := by
  intro l
  induction l with
  | nil => intro st gs0 h; simpa using h
  | cons q rest ih =>
    intro st gs0 h
    rw [List.foldl_cons]
    have hstep : List.Forall₂ SecSpanOf ((verseChorusStep ids vm st q).1)
        (gs0 ++ [[q.1]]) := by
      unfold verseChorusStep
      dsimp only
      split_ifs <;>
        exact forall2_append_pair SecSpanOf h
          (List.Forall₂.cons ⟨rfl, rfl⟩ List.Forall₂.nil)
    have hrec := ih (verseChorusStep ids vm st q) (gs0 ++ [[q.1]]) hstep
    rw [List.append_assoc] at hrec
    exact hrec

theorem createVerseChorusSections_sections (ids : IdGen) (pds : List Period)
    (ms : List String) :
    SectionsOf pds (createVerseChorusSections ids pds ms) := by
  refine ⟨(pds.zip ms).map (fun q => [q.1]), cover_zip_singletons pds ms, ?_⟩
  unfold createVerseChorusSections
  have := verseChorusFold_sections ids ms.headI (pds.zip ms)
    ([], 0, 0) [] List.Forall₂.nil
  simpa using this

theorem detectVariationForm_sections (ids : IdGen) (pds : List Period) :
    SectionsOf pds (detectVariationForm ids pds).sections := by
  unfold detectVariationForm
  dsimp only
  split_ifs with hlt hr
  · exact sectionsOf_empty pds
  · cases pds with
    | nil => exact absurd (by simp) hlt
    | cons theme rest =>
      unfold createVariationSections variationEntries
      dsimp only
      refine ⟨[theme] :: ((rest.enum.filter (fun p =>
          decide (3/10 < calculatePeriodSimilarity p.2 theme ∧
            calculatePeriodSimilarity p.2 theme < 9/10))).map (fun p => [p.2])),
        ?_, ?_⟩
      · exact Cover.group (List.cons_ne_nil _ [])
          (cover_enumFrom_filter _ rest 0)
      · refine forall2_append_pair SecSpanOf
          (List.Forall₂.cons ⟨rfl, rfl⟩ List.Forall₂.nil) ?_
        exact forall2_map_enum_map SecSpanOf _ _ _ (fun i p => ⟨rfl, rfl⟩) _ 0
  · exact sectionsOf_empty pds

theorem detectSonataForm_sections (ids : IdGen) (pds : List Period) :
    SectionsOf pds (detectSonataForm ids pds).sections := by
  unfold detectSonataForm
  dsimp only
  by_cases h3 : pds.length < 3
  · rw [if_pos h3]
    exact sectionsOf_empty pds
  rw [if_neg h3]
  by_cases hnr : (!(pds.drop (2 * pds.length / 3)).any
      (fun p => decide (calculatePeriodSimilarity p pds.headI > 1/2))) = true
  · rw [if_pos hnr]
    exact sectionsOf_empty pds
  rw [if_neg hnr]
  have hone : 1 ≤ pds.length / 3 + 1 := by omega
  have hExpoNe : pds.take (pds.length / 3 + 1) ≠ [] :=
    take_ne_nil_of_pos pds _ hone (by intro h; rw [h] at h3; exact h3 (by simp))
  have hsplit1 : pds.take (pds.length / 3 + 1) ++ pds.drop (pds.length / 3 + 1) =
      pds := List.take_append_drop _ _
  have hle : pds.length / 3 + 1 ≤ 2 * pds.length / 3 + 1 := by
    have := Nat.div_le_div_right (c := 3) (show pds.length ≤ 2 * pds.length by omega)
    omega
  have hsplit2 : (pds.take (2 * pds.length / 3 + 1)).drop (pds.length / 3 + 1) ++
      pds.drop (2 * pds.length / 3 + 1) = pds.drop (pds.length / 3 + 1) :=
    slice_glue pds _ _ hle
  by_cases hdev : 0 < ((pds.take (2 * pds.length / 3 + 1)).drop
      (pds.length / 3 + 1)).length
  all_goals by_cases hrecp : 0 < (pds.drop (2 * pds.length / 3 + 1)).length
  · rw [if_pos hdev, if_pos hrecp]
    have hdevNe : (pds.take (2 * pds.length / 3 + 1)).drop (pds.length / 3 + 1) ≠ [] := by
      intro h
      rw [h] at hdev
      simp at hdev
    have hrecNe : pds.drop (2 * pds.length / 3 + 1) ≠ [] := by
      intro h
      rw [h] at hrecp
      simp at hrecp
    refine ⟨[pds.take (pds.length / 3 + 1),
        (pds.take (2 * pds.length / 3 + 1)).drop (pds.length / 3 + 1),
        pds.drop (2 * pds.length / 3 + 1)], ?_, ?_⟩
    · have hc : Cover (pds.drop (pds.length / 3 + 1))
          [(pds.take (2 * pds.length / 3 + 1)).drop (pds.length / 3 + 1),
            pds.drop (2 * pds.length / 3 + 1)] := by
        rw [← hsplit2]
        exact Cover.group hdevNe (cover_self _ hrecNe)
      have hcov := Cover.group hExpoNe hc
      rw [hsplit1] at hcov
      exact hcov
    · exact List.Forall₂.cons ⟨headD_start_eq _ hExpoNe, getLastD_end_eq _ hExpoNe⟩
        (List.Forall₂.cons ⟨headD_start_eq _ hdevNe, getLastD_end_eq _ hdevNe⟩
          (List.Forall₂.cons ⟨headD_start_eq _ hrecNe, getLastD_end_eq _ hrecNe⟩
            List.Forall₂.nil))
  · rw [if_pos hdev, if_neg hrecp]
    have hdevNe : (pds.take (2 * pds.length / 3 + 1)).drop (pds.length / 3 + 1) ≠ [] := by
      intro h
      rw [h] at hdev
      simp at hdev
    have hrecnil : pds.drop (2 * pds.length / 3 + 1) = [] := by
      cases hcc : pds.drop (2 * pds.length / 3 + 1) with
      | nil => rfl
      | cons x xs => rw [hcc] at hrecp; simp at hrecp
    refine ⟨[pds.take (pds.length / 3 + 1),
        (pds.take (2 * pds.length / 3 + 1)).drop (pds.length / 3 + 1)], ?_, ?_⟩
    · have hc : Cover (pds.drop (pds.length / 3 + 1))
          [(pds.take (2 * pds.length / 3 + 1)).drop (pds.length / 3 + 1)] := by
        rw [← hsplit2, hrecnil, List.append_nil]
        exact cover_self _ hdevNe
      have hcov := Cover.group hExpoNe hc
      rw [hsplit1] at hcov
      exact hcov
    · exact List.Forall₂.cons ⟨headD_start_eq _ hExpoNe, getLastD_end_eq _ hExpoNe⟩
        (List.Forall₂.cons ⟨headD_start_eq _ hdevNe, getLastD_end_eq _ hdevNe⟩
          List.Forall₂.nil)
  · rw [if_neg hdev, if_pos hrecp]
    have hrecNe : pds.drop (2 * pds.length / 3 + 1) ≠ [] := by
      intro h
      rw [h] at hrecp
      simp at hrecp
    have hdevnil : (pds.take (2 * pds.length / 3 + 1)).drop (pds.length / 3 + 1) = [] := by
      cases hcc : (pds.take (2 * pds.length / 3 + 1)).drop (pds.length / 3 + 1) with
      | nil => rfl
      | cons x xs => rw [hcc] at hdev; simp at hdev
    refine ⟨[pds.take (pds.length / 3 + 1), pds.drop (2 * pds.length / 3 + 1)], ?_, ?_⟩
    · have hc : Cover (pds.drop (pds.length / 3 + 1))
          [pds.drop (2 * pds.length / 3 + 1)] := by
        rw [← hsplit2, hdevnil, List.nil_append]
        exact cover_self _ hrecNe
      have hcov := Cover.group hExpoNe hc
      rw [hsplit1] at hcov
      exact hcov
    · exact List.Forall₂.cons ⟨headD_start_eq _ hExpoNe, getLastD_end_eq _ hExpoNe⟩
        (List.Forall₂.cons ⟨headD_start_eq _ hrecNe, getLastD_end_eq _ hrecNe⟩
          List.Forall₂.nil)
  · rw [if_neg hdev, if_neg hrecp]
    refine ⟨[pds.take (pds.length / 3 + 1)], ?_, ?_⟩
    · have hcov := Cover.group hExpoNe (Cover.nil (pds.drop (pds.length / 3 + 1)))
      rw [hsplit1] at hcov
      exact hcov
    · exact List.Forall₂.cons ⟨headD_start_eq _ hExpoNe, getLastD_end_eq _ hExpoNe⟩
        List.Forall₂.nil

theorem compoundTernaryBody_sections (ids : IdGen) (pds : List Period)
    (mdS mdE : ℕ) (h1 : 1 ≤ mdS) (h2 : mdS ≤ mdE + 1) (hne : pds ≠ []) :
    SectionsOf pds (compoundTernaryBody ids pds mdS mdE).sections := by
  unfold compoundTernaryBody
  dsimp only
  have hANe : pds.take mdS ≠ [] := take_ne_nil_of_pos pds mdS h1 hne
  have hsplit1 : pds.take mdS ++ pds.drop mdS = pds := List.take_append_drop _ _
  have hsplit2 : (pds.take (mdE + 1)).drop mdS ++ pds.drop (mdE + 1) =
      pds.drop mdS := slice_glue pds _ _ h2
  by_cases hb : 0 < ((pds.take (mdE + 1)).drop mdS).length
  all_goals by_cases ha2 : 0 < (pds.drop (mdE + 1)).length
  · rw [if_pos hb, if_pos ha2]
    have hbNe : (pds.take (mdE + 1)).drop mdS ≠ [] := by
      intro h
      rw [h] at hb
      simp at hb
    have haNe : pds.drop (mdE + 1) ≠ [] := by
      intro h
      rw [h] at ha2
      simp at ha2
    refine ⟨[pds.take mdS, (pds.take (mdE + 1)).drop mdS, pds.drop (mdE + 1)],
      ?_, ?_⟩
    · have hc : Cover (pds.drop mdS)
          [(pds.take (mdE + 1)).drop mdS, pds.drop (mdE + 1)] := by
        rw [← hsplit2]
        exact Cover.group hbNe (cover_self _ haNe)
      have hcov := Cover.group hANe hc
      rw [hsplit1] at hcov
      exact hcov
    · exact List.Forall₂.cons ⟨headD_start_eq _ hANe, getLastD_end_eq _ hANe⟩
        (List.Forall₂.cons ⟨headD_start_eq _ hbNe, getLastD_end_eq _ hbNe⟩
          (List.Forall₂.cons ⟨headD_start_eq _ haNe, getLastD_end_eq _ haNe⟩
            List.Forall₂.nil))
  · rw [if_pos hb, if_neg ha2]
    have hbNe : (pds.take (mdE + 1)).drop mdS ≠ [] := by
      intro h
      rw [h] at hb
      simp at hb
    have hnil : pds.drop (mdE + 1) = [] := by
      cases hcc : pds.drop (mdE + 1) with
      | nil => rfl
      | cons x xs => rw [hcc] at ha2; simp at ha2
    refine ⟨[pds.take mdS, (pds.take (mdE + 1)).drop mdS], ?_, ?_⟩
    · have hc : Cover (pds.drop mdS) [(pds.take (mdE + 1)).drop mdS] := by
        rw [← hsplit2, hnil, List.append_nil]
        exact cover_self _ hbNe
      have hcov := Cover.group hANe hc
      rw [hsplit1] at hcov
      exact hcov
    · exact List.Forall₂.cons ⟨headD_start_eq _ hANe, getLastD_end_eq _ hANe⟩
        (List.Forall₂.cons ⟨headD_start_eq _ hbNe, getLastD_end_eq _ hbNe⟩
          List.Forall₂.nil)
  · rw [if_neg hb, if_pos ha2]
    have haNe : pds.drop (mdE + 1) ≠ [] := by
      intro h
      rw [h] at ha2
      simp at ha2
    have hnil : (pds.take (mdE + 1)).drop mdS = [] := by
      cases hcc : (pds.take (mdE + 1)).drop mdS with
      | nil => rfl
      | cons x xs => rw [hcc] at hb; simp at hb
    refine ⟨[pds.take mdS, pds.drop (mdE + 1)], ?_, ?_⟩
    · have hc : Cover (pds.drop mdS) [pds.drop (mdE + 1)] := by
        rw [← hsplit2, hnil, List.nil_append]
        exact cover_self _ haNe
      have hcov := Cover.group hANe hc
      rw [hsplit1] at hcov
      exact hcov
    · exact List.Forall₂.cons ⟨headD_start_eq _ hANe, getLastD_end_eq _ hANe⟩
        (List.Forall₂.cons ⟨headD_start_eq _ haNe, getLastD_end_eq _ haNe⟩
          List.Forall₂.nil)
  · rw [if_neg hb, if_neg ha2]
    refine ⟨[pds.take mdS], ?_, ?_⟩
    · have hcov := Cover.group hANe (Cover.nil (pds.drop mdS))
      rw [hsplit1] at hcov
      exact hcov
    · exact List.Forall₂.cons ⟨headD_start_eq _ hANe, getLastD_end_eq _ hANe⟩
        List.Forall₂.nil


theorem analyzeCompoundTernaryForm_sections (ids : IdGen) (pds : List Period)
    (hlen : 4 ≤ pds.length) :
    SectionsOf pds
      (analyzeCompoundTernaryForm ids pds (analyzeMaterialPattern pds)).sections := by
  have hne : pds ≠ [] := by
    intro h
    rw [h] at hlen
    simp at hlen
  have hmatlen : (analyzeMaterialPattern pds).materials.length = pds.length := by
    unfold analyzeMaterialPattern
    dsimp only
    rw [List.length_map]
  unfold analyzeCompoundTernaryForm
  dsimp only
  by_cases hrec : (!(analyzeMaterialPattern pds).hasRecapitulation) = true
  · rw [if_pos hrec]
    exact createSections_sections ids pds
  rw [if_neg hrec]
  rcases hfd : (analyzeMaterialPattern pds).materials.enum.find? (fun p =>
      decide (1 ≤ p.1) && decide (p.2 ≠
        (analyzeMaterialPattern pds).materials.headI)) with _ | q
  · rw [hfd]
    dsimp only
    exact compoundTernaryBody_sections ids pds 1 (pds.length - 2) (le_refl 1)
      (by omega) hne
  · rw [hfd]
    dsimp only
    have hq1 := List.find?_some hfd
    rw [Bool.and_eq_true, decide_eq_true_eq, decide_eq_true_eq] at hq1
    have hqlt : q.1 < pds.length := by
      have hqm := List.mem_of_find?_eq_some hfd
      have := (List.mem_enum_iff_getElem?).1 hqm
      obtain ⟨hlt, _⟩ := List.getElem?_eq_some.1 this
      rw [hmatlen] at hlt
      exact hlt
    rcases hfd2 : (analyzeMaterialPattern pds).materials.enum.find? (fun p =>
        decide (q.1 < p.1) && decide (p.2 =
          (analyzeMaterialPattern pds).materials.headI)) with _ | r
    · rw [hfd2]
      dsimp only
      exact compoundTernaryBody_sections ids pds q.1 (pds.length - 2) (by omega)
        (by omega) hne
    · rw [hfd2]
      dsimp only
      have hr1 := List.find?_some hfd2
      rw [Bool.and_eq_true, decide_eq_true_eq, decide_eq_true_eq] at hr1
      exact compoundTernaryBody_sections ids pds q.1 (r.1 - 1) (by omega)
        (by omega) hne

end SMM
